import Mathlib

/-!
# LiteSpeed exporter: report model, merge and source scanning

A shallow embedding of `collector/litespeed_collector.go` (the source scanner
`scrapeFile` and the cycle driver `scrapeReports`) together with the report
merger (`Add`, `sumReports`) that the collector calls.

Conventions of the embedding.

* A Go `map[string]T` is an `AList` keyed by `String`: a finite list of
  entries with pairwise distinct keys.  `m[k] = v` is `AList.insert`, a
  lookup `m[k]` is `AList.lookup`.  The order of `entries` stands for the
  order in which a `range` loop visits the map.
* The numeric type `float64` is a type parameter `V` carrying the addition
  used by the merge.  `F64` below is a concrete model of binary64 addition.
* A run-time panic of Go (index out of range) is `none` / an `Except.error`.
-/

namespace Litespeed

/-- A Go `map[string]float64` with values in `V`. -/
abbrev KeyValues (V : Type) : Type := AList (fun _ : String => V)

/-- The Go struct `generalInfoReport`. -/
structure generalInfoReport (V : Type) where
  Version : String
  Uptime : String
  KeyValues : KeyValues V

/-- The Go struct `requestRateReport`. -/
structure requestRateReport (V : Type) where
  Hostname : String
  KeyValues : KeyValues V

/-- The Go struct `externalAppReport`. -/
structure externalAppReport (V : Type) where
  Service : String
  Hostname : String
  Handler : String
  KeyValues : KeyValues V

/-- The Go struct `litespeedReport`. -/
structure litespeedReport (V : Type) where
  GeneralInfo : generalInfoReport V
  ReqRates : List (requestRateReport V)
  ExtApps : List (externalAppReport V)

/-- Modelled from the spec: `sumOrAppend` of `collector/utils.go`, which is not
among the sources (only `TestSumOrAppendHandlesProperly` is).  A key that is
present gets the value added to what it holds, a key that is absent is set. -/
def sumOrAppend {V : Type} [Add V] (kv : KeyValues V) (k : String) (v : V) : KeyValues V :=
  match kv.lookup k with
  | some x => kv.insert k (x + v)
  | none => kv.insert k v

/-- The loop `for k, v := range src { sumOrAppend(dst, k, v) }`. -/
def sumKeyValues {V : Type} [Add V] (dst src : KeyValues V) : KeyValues V :=
  src.entries.foldl (fun acc e => sumOrAppend acc e.1 e.2) dst

/-- The first index of a slice whose element satisfies `f`; `none` is the
`-1` that the Go helpers `indexOfReqRate` and `indexOfExtApp` return. -/
def firstIndex {α : Type} (f : α → Bool) : List α → Option Nat
  | [] => none
  | x :: xs => if f x then some 0 else (firstIndex f xs).map (· + 1)

/-- The in-place update `xs[i] = f(xs[i])` of a slice. -/
def updateAt {α : Type} (f : α → α) : Nat → List α → List α
  | _, [] => []
  | 0, x :: xs => f x :: xs
  | i + 1, x :: xs => x :: updateAt f i xs

/-- Modelled from the spec: `indexOfReqRate` of `collector/report.go`, which is
not among the sources (`TestIndexOfReqRateReturnsExpected` is): the index of
the first request-rate record accepted by `f`. -/
def litespeedReport.indexOfReqRate {V : Type} (r : litespeedReport V)
    (f : requestRateReport V → Bool) : Option Nat :=
  firstIndex f r.ReqRates

/-- Modelled from the spec: `indexOfExtApp` of `collector/report.go`, which is
not among the sources (`TestIndexOfExtappReturnsExpected` is): the index of the
first external-app record accepted by `f`. -/
def litespeedReport.indexOfExtApp {V : Type} (r : litespeedReport V)
    (f : externalAppReport V → Bool) : Option Nat :=
  firstIndex f r.ExtApps

/-- The values of the record `rr` summed into the record `x`, key by key:
`for k, v := range rr.KeyValues { sumOrAppend(x.KeyValues, k, v) }`. -/
def requestRateReport.sumInto {V : Type} [Add V] (x rr : requestRateReport V) :
    requestRateReport V :=
  { x with KeyValues := sumKeyValues x.KeyValues rr.KeyValues }

/-- The values of the record `ea` summed into the record `x`, key by key; the
service, hostname and handler of `x` stay. -/
def externalAppReport.sumInto {V : Type} [Add V] (x ea : externalAppReport V) :
    externalAppReport V :=
  { x with KeyValues := sumKeyValues x.KeyValues ea.KeyValues }

/-- One round of the request-rate loop of `Add`: the record `rr` of the
folded-in report is matched by hostname only; a hostname not yet seen is
appended, a match has the values of `rr` summed into it. -/
def addReqRate {V : Type} [Add V] (r : litespeedReport V) (rr : requestRateReport V) :
    litespeedReport V :=
  match r.indexOfReqRate (fun x => x.Hostname == rr.Hostname) with
  | none => { r with ReqRates := r.ReqRates ++ [rr] }
  | some i => { r with ReqRates := updateAt (fun x => x.sumInto rr) i r.ReqRates }

/-- One round of the external-app loop of `Add`: the record `ea` is matched by
the pair (service, hostname), the handler taking no part; a pair not yet seen
is appended, a match has the values of `ea` summed into it and keeps its own
handler. -/
def addExtApp {V : Type} [Add V] (r : litespeedReport V) (ea : externalAppReport V) :
    litespeedReport V :=
  match r.indexOfExtApp (fun x => x.Service == ea.Service && x.Hostname == ea.Hostname) with
  | none => { r with ExtApps := r.ExtApps ++ [ea] }
  | some i => { r with ExtApps := updateAt (fun x => x.sumInto ea) i r.ExtApps }

/-- Modelled from the spec: the method `Add` of `collector/report.go`, which is
not among the sources (`TestAddsReportsProperly` is).  `r.Add(a)` overwrites
version and uptime with those of `a`, sums the general-info values of `a` into
those of `r`, and folds every request-rate and external-app record of `a` into
the records of `r`. -/
def litespeedReport.Add {V : Type} [Add V] (r a : litespeedReport V) : litespeedReport V :=
  let r1 : litespeedReport V :=
    { r with GeneralInfo :=
        { Version := a.GeneralInfo.Version
          Uptime := a.GeneralInfo.Uptime
          KeyValues := sumKeyValues r.GeneralInfo.KeyValues a.GeneralInfo.KeyValues } }
  let r2 := a.ReqRates.foldl addReqRate r1
  a.ExtApps.foldl addExtApp r2

/-- The report a scan or a merge starts from: no version, no uptime, empty
values, no records. -/
def emptyReport (V : Type) : litespeedReport V :=
  { GeneralInfo := { Version := "", Uptime := "", KeyValues := ∅ }
    ReqRates := []
    ExtApps := [] }

/-- A Go `map[string]litespeedReport`. -/
abbrev Reports (V : Type) : Type := AList (fun _ : String => litespeedReport V)

/-- Modelled from the spec: `sumReports` of `collector/report.go`, which is not
among the sources (`TestSumsMultipleReportsProperly` is).  All reports of the
mapping are folded with `Add` into one accumulator that starts empty, in the
order in which the `range` loop visits the mapping (the order of `entries`). -/
def sumReports {V : Type} [Add V] (reports : Reports V) : litespeedReport V :=
  reports.entries.foldl (fun acc e => acc.Add e.2) (emptyReport V)

/-! ## A model of `float64` addition

Go adds `float64` values by the rules of IEEE 754 binary64 with rounding to
nearest, ties to even.  A finite value is `mant * 2 ^ exp`, kept in the normal
form where `mant` is odd (zero is `finite 0 0`; the sign of zero is not
modelled, Go's `==` does not tell the two zeros apart). -/

/-- A binary64 value. -/
inductive F64 where
  | finite (mant : Int) (exp : Int)
  | inf (negative : Bool)
  | nan
  deriving DecidableEq

/-- The number of binary digits of `n`, by halving (`fuel` bounds the rounds). -/
def F64.bitLenAux : Nat → Nat → Nat
  | 0, _ => 0
  | fuel + 1, n => if n = 0 then 0 else F64.bitLenAux fuel (n / 2) + 1

/-- The number of binary digits of `n`: `0` for `0`, `k + 1` for `2 ^ k ≤ n < 2 ^ (k + 1)`. -/
def F64.bitLen (n : Nat) : Nat := F64.bitLenAux n n

/-- Trailing zero bits of the mantissa moved into the exponent. -/
def F64.normalizeAux : Nat → Nat → Int → Nat × Int
  | 0, _, _ => (0, 0)
  | fuel + 1, m, e =>
    if m = 0 then (0, 0)
    else if m % 2 = 0 then F64.normalizeAux fuel (m / 2) (e + 1)
    else (m, e)

/-- The normal form of `m * 2 ^ e`. -/
def F64.normalize (m : Nat) (e : Int) : Nat × Int := F64.normalizeAux m m e

/-- The integer nearest to `p / q`, a tie going to the even one. -/
def F64.roundNat (p q : Nat) : Nat :=
  let d := p / q
  let r := p % q
  if q < 2 * r ∨ (2 * r = q ∧ d % 2 = 1) then d + 1 else d

/-- The binary64 value nearest to the rational `p / q` (negated when
`negative`): 53 significant bits, no bit below `2 ^ (-1074)`, infinity from
`2 ^ 1024` on. -/
def F64.ofRatio (negative : Bool) (p q : Nat) : F64 :=
  if p = 0 ∨ q = 0 then .finite 0 0
  else
    let c : Int := (F64.bitLen p : Int) - (F64.bitLen q : Int)
    let L : Int := if q * 2 ^ c.toNat ≤ p * 2 ^ (-c).toNat then c else c - 1
    let sh : Int := max (L - 52) (-1074)
    let r := F64.roundNat (p * 2 ^ (-sh).toNat) (q * 2 ^ sh.toNat)
    if 1024 < (F64.bitLen r : Int) + sh then .inf negative
    else
      let me := F64.normalize r sh
      .finite (if negative then -(me.1 : Int) else me.1) me.2

/-- Binary64 addition: the exact sum of two finite values, rounded. -/
def F64.add : F64 → F64 → F64
  | .finite m₁ e₁, .finite m₂ e₂ =>
    let e := min e₁ e₂
    let s : Int := m₁ * 2 ^ (e₁ - e).toNat + m₂ * 2 ^ (e₂ - e).toNat
    F64.ofRatio (decide (s < 0)) (s.natAbs * 2 ^ e.toNat) (2 ^ (-e).toNat)
  | .finite _ _, .inf s => .inf s
  | .inf s, .finite _ _ => .inf s
  | .inf s, .inf t => if s = t then .inf s else .nan
  | .nan, _ => .nan
  | _, .nan => .nan

instance : Add F64 := ⟨F64.add⟩

/-- The binary64 value of the decimal numeral `digits / 10 ^ scale`, as the Go
compiler reads a literal such as `12.34` (`ofDecimal 1234 2`). -/
def F64.ofDecimal (digits : Nat) (scale : Nat) : F64 :=
  F64.ofRatio false digits (10 ^ scale)

/-! ## Views of a report used to state the properties -/

/-- The elementwise sum of two optional values: the value a key holds after a
merge, from what it held on each side (`none` is an absent key). -/
def optAdd {V : Type} [Add V] : Option V → Option V → Option V
  | some x, some y => some (x + y)
  | some x, none => some x
  | none, some y => some y
  | none, none => none

/-- A Go map from a list of entries, a later entry of a key replacing an
earlier one. -/
def kvOfList {V : Type} (l : List (String × V)) : KeyValues V :=
  l.foldl (fun m e => m.insert e.1 e.2) ∅

/-- The report has a request-rate record with hostname `h`. -/
def litespeedReport.hasReqRate {V : Type} (r : litespeedReport V) (h : String) : Bool :=
  r.ReqRates.any (fun x => x.Hostname == h)

/-- The value of the flag `k` in the request-rate record with hostname `h`. -/
def litespeedReport.reqRateValue {V : Type} (r : litespeedReport V) (h k : String) :
    Option V :=
  (r.ReqRates.find? (fun x => x.Hostname == h)).bind (fun x => x.KeyValues.lookup k)

/-- The report has an external-app record with service `s` and hostname `h`. -/
def litespeedReport.hasExtApp {V : Type} (r : litespeedReport V) (s h : String) : Bool :=
  r.ExtApps.any (fun x => x.Service == s && x.Hostname == h)

/-- The value of the flag `k` in the external-app record with service `s` and
hostname `h`. -/
def litespeedReport.extAppValue {V : Type} (r : litespeedReport V) (s h k : String) :
    Option V :=
  (r.ExtApps.find? (fun x => x.Service == s && x.Hostname == h)).bind
    (fun x => x.KeyValues.lookup k)

/-- No two request-rate records share a hostname and no two external-app
records share a (service, hostname) pair. -/
def litespeedReport.Unique {V : Type} (r : litespeedReport V) : Prop :=
  (r.ReqRates.map (fun x => x.Hostname)).Nodup ∧
    (r.ExtApps.map (fun x => (x.Service, x.Hostname))).Nodup

/-- Two reports hold the same numbers: the same general-info values, the same
hostnames with the same values each, the same (service, hostname) pairs with
the same values each. -/
def SameNumbers {V : Type} (r₁ r₂ : litespeedReport V) : Prop :=
  (∀ k, r₁.GeneralInfo.KeyValues.lookup k = r₂.GeneralInfo.KeyValues.lookup k) ∧
  (∀ h, r₁.hasReqRate h = r₂.hasReqRate h ∧ ∀ k, r₁.reqRateValue h k = r₂.reqRateValue h k) ∧
  (∀ s h, r₁.hasExtApp s h = r₂.hasExtApp s h ∧
    ∀ k, r₁.extAppValue s h k = r₂.extAppValue s h k)

/-- Two reports hold the same flags: the same flags in the general info, the
same hostnames with the same flags each, the same (service, hostname) pairs
with the same flags each. -/
def SameKeys {V : Type} (r₁ r₂ : litespeedReport V) : Prop :=
  (∀ k, (r₁.GeneralInfo.KeyValues.lookup k).isSome
    = (r₂.GeneralInfo.KeyValues.lookup k).isSome) ∧
  (∀ h, r₁.hasReqRate h = r₂.hasReqRate h ∧
    ∀ k, (r₁.reqRateValue h k).isSome = (r₂.reqRateValue h k).isSome) ∧
  (∀ s h, r₁.hasExtApp s h = r₂.hasExtApp s h ∧
    ∀ k, (r₁.extAppValue s h k).isSome = (r₂.extAppValue s h k).isSome)

/-- The sum of three values held under one flag does not depend on its
grouping: when all three are present, `(x + y) + z` is `x + (y + z)`.  With a
value absent there is at most one addition and nothing to regroup. -/
def ExactSum {V : Type} [Add V] (x y z : Option V) : Prop :=
  ∀ u v w, x = some u → y = some v → z = some w → u + v + w = u + (v + w)

/-- The request-rate records after `a.Add(b)`, in the words of the merge
contract: the records of `a` in their order, each with the values of the
record of `b` of the same hostname summed in, then the records of `b` whose
hostname `a` does not have, in their order. -/
def mergedReqRates {V : Type} [Add V] (a b : litespeedReport V) : List (requestRateReport V) :=
  a.ReqRates.map (fun x =>
      match b.ReqRates.find? (fun y => y.Hostname == x.Hostname) with
      | some y => { x with KeyValues := sumKeyValues x.KeyValues y.KeyValues }
      | none => x)
    ++ b.ReqRates.filter (fun y => !a.ReqRates.any (fun x => x.Hostname == y.Hostname))

/-! ## Slices of records matched by a key -/

/-- The key of a request-rate record in a merge: its hostname. -/
abbrev rrKey {V : Type} (x : requestRateReport V) : String := x.Hostname

/-- The key of an external-app record in a merge: service and hostname. -/
abbrev eaKey {V : Type} (x : externalAppReport V) : String × String := (x.Service, x.Hostname)

/-- The slice after one record `n` has been folded in: the first element
accepted by `p` is replaced by its update `u`, and `n` is appended when no
element is accepted. -/
def upsert {R : Type} (p : R → Bool) (u : R → R) (n : R) : List R → List R
  | [] => [n]
  | x :: xs => if p x then u x :: xs else x :: upsert p u n xs

/-- One record folded into a slice whose records are matched by `key`. -/
def mergeStep {R K : Type} [DecidableEq K] (key : R → K) (m : R → R → R) (rs : List R)
    (n : R) : List R :=
  upsert (fun x => decide (key x = key n)) (fun x => m x n) n rs

/-- What the records with one key become when a record is folded in. -/
def bucketStep {R : Type} (m : R → R → R) (l : List R) (n : R) : List R :=
  match l with
  | [] => [n]
  | x :: t => m x n :: t

/-- What a record of the accumulator becomes once the slice `bs` is folded in:
it is merged with the first record of `bs` that has its key, if there is one. -/
def mergedWith {R K : Type} [DecidableEq K] (key : R → K) (m : R → R → R) (bs : List R)
    (x : R) : R :=
  match bs.find? (fun b => decide (key b = key x)) with
  | some b => m x b
  | none => x

/-- The value of the flag `k` in the first record of a slice, `kv` giving the
values of a record. -/
def headValue {R V : Type} (kv : R → KeyValues V) (k : String) (l : List R) : Option V :=
  l.head?.bind (fun x => (kv x).lookup k)

/-! ## The reports of the unit tests -/

/-- The report `a` of `TestAddsReportsProperly` and `TestSumsMultipleReportsProperly`. -/
def testReportA : litespeedReport F64 :=
  { GeneralInfo :=
      { Version := "Test version", Uptime := "00:10:10"
        KeyValues := kvOfList [("BPS_IN", F64.ofDecimal 11 0)] }
    ReqRates :=
      [{ Hostname := ""
         KeyValues := kvOfList [("REQ_RATE_REQ_PER_SEC", F64.ofDecimal 1234 2),
           ("REQ_RATE_TOT_REQS", F64.ofDecimal 5 0)] }]
    ExtApps :=
      [{ Service := "Proxy", Hostname := "", Handler := "lsphp.10000", KeyValues := ∅ }] }

/-- The report `b` of the same tests. -/
def testReportB : litespeedReport F64 :=
  { GeneralInfo :=
      { Version := "Test version 2", Uptime := "00:20:20"
        KeyValues := kvOfList [("BPS_IN", F64.ofDecimal 123 0), ("BPS_OUT", F64.ofDecimal 321 0)] }
    ReqRates :=
      [{ Hostname := ""
         KeyValues := kvOfList [("REQ_RATE_REQ_PER_SEC", F64.ofDecimal 10 0),
           ("REQ_RATE_TOT_REQS", F64.ofDecimal 6 0)] },
       { Hostname := "Test 1"
         KeyValues := kvOfList [("REQ_RATE_TOTAL_PUB_CACHE_HITS", F64.ofDecimal 200 0)] }]
    ExtApps :=
      [{ Service := "Proxy", Hostname := "", Handler := "lsphp.10000"
         KeyValues := kvOfList [("EXTAPP_REQ_PER_SEC", F64.ofDecimal 78 1),
           ("EXTAPP_TOT_REQS", F64.ofDecimal 456 0)] },
       { Service := "LSAPI", Hostname := "localhost", Handler := "lsphp.10001"
         KeyValues := kvOfList [("EXTAPP_CMAXCONN", F64.ofDecimal 1000 0),
           ("EXTAPP_EMAXCONN", F64.ofDecimal 1678 0)] }] }

/-- The report `c` of `TestSumsMultipleReportsProperly`. -/
def testReportC : litespeedReport F64 :=
  { GeneralInfo :=
      { Version := "Test version 3", Uptime := "00:30:30"
        KeyValues := kvOfList [("BPS_IN", F64.ofDecimal 6 0), ("BPS_OUT", F64.ofDecimal 9 0)] }
    ReqRates :=
      [{ Hostname := "Test 1"
         KeyValues := kvOfList [("REQ_RATE_TOTAL_PUB_CACHE_HITS", F64.ofDecimal 100 0)] }]
    ExtApps :=
      [{ Service := "Proxy", Hostname := "", Handler := "lsphp.10000"
         KeyValues := kvOfList [("EXTAPP_REQ_PER_SEC", F64.ofDecimal 2 1),
           ("EXTAPP_TOT_REQS", F64.ofDecimal 4 0)] }] }

/-- A report whose only number is `BPS_IN`, with no records. -/
def bpsInOnly (v : F64) : litespeedReport F64 :=
  { GeneralInfo := { Version := "", Uptime := "", KeyValues := kvOfList [("BPS_IN", v)] }
    ReqRates := []
    ExtApps := [] }

/-- A report with two external-app records of the same service and hostname,
as a source with two such `EXTAPP` lines yields it. -/
def twoHandlers : litespeedReport F64 :=
  { GeneralInfo := { Version := "", Uptime := "", KeyValues := ∅ }
    ReqRates := []
    ExtApps :=
      [{ Service := "LSAPI", Hostname := "localhost", Handler := "lsphp.1", KeyValues := ∅ },
       { Service := "LSAPI", Hostname := "localhost", Handler := "lsphp.3", KeyValues := ∅ }] }

/-- A report with one external-app record of that service and hostname, under
another handler. -/
def otherHandler : litespeedReport F64 :=
  { GeneralInfo := { Version := "", Uptime := "", KeyValues := ∅ }
    ReqRates := []
    ExtApps :=
      [{ Service := "LSAPI", Hostname := "localhost", Handler := "lsphp.2"
         KeyValues := kvOfList [("EXTAPP_TOT_REQS", F64.ofDecimal 4 0)] }] }

/-- A `map[string]litespeedReport` whose `range` loop visits the given entries
in the given order (the keys are taken to be distinct). -/
def reportsVisited {V : Type} (l : List (String × litespeedReport V)) : Reports V :=
  l.foldr (fun e m => m.insert e.1 e.2) ∅

/-- The mapping of `TestSumsMultipleReportsProperly`, visited in ascending
order of the source ids. -/
def testReportsAscending : Reports F64 :=
  reportsVisited [("report.1", testReportA), ("report.2", testReportB), ("report.3", testReportC)]

/-- The same mapping, visited from `report.3` on. -/
def testReportsFromThird : Reports F64 :=
  reportsVisited [("report.3", testReportC), ("report.1", testReportA), ("report.2", testReportB)]

/-! ## The collector: options, helpers and the text primitives of `scrapeFile` -/

/-- The Go struct `LitespeedCollectorOpts`; `ExcludedMetrics` is a
`map[string]bool`. -/
structure LitespeedCollectorOpts where
  FilePattern : String
  ReqRatesByHost : Bool
  MetricsByCore : Bool
  ExcludeExtapp : Bool
  ExcludedMetrics : AList (fun _ : String => Bool)

/-- The Go struct `LitespeedCollector`, without its mutex and logger.  The two
counters `totalScrapes` and `scrapeFailures` are not fields: every function
returns the number of increments it makes. -/
structure LitespeedCollector where
  options : LitespeedCollectorOpts

/-- The method `metricIsTracked`: a flag is tracked when it is not a key of
`ExcludedMetrics`. -/
def LitespeedCollector.metricIsTracked (c : LitespeedCollector) (flag : String) : Bool :=
  !(c.options.ExcludedMetrics.lookup flag).isSome

/-- The helpers of `collector/utils.go` that `scrapeFile` calls; the file is not
among the sources, so they are parameters of the scanner.  A result `none` of
the two text parsers stands for a panic of the helper.  `parseMetricValue`
returns the pair `(float64, error)` of the Go function, `none` being the nil
error. -/
structure Helpers (V : Type) where
  parseKeyValPair : String → String → Option (String × String)
  parseKeyValLineToMap : String → Option (AList (fun _ : String => String))
  parseMetricValue : String → String → V × Option String

/-- Modelled from the spec: the constant `versionField`, declared outside the
sources; the identifier of the line `VERSION: <string>`. -/
def versionField : String := "VERSION"

/-- Modelled from the spec: the constant `uptimeField`, declared outside the
sources; the identifier of the line `UPTIME: <string>`. -/
def uptimeField : String := "UPTIME"

/-- Modelled from the spec: the constant `bpsInField`, declared outside the
sources; the flag `BPS_IN` of `metrics.go`, which opens the bandwidth line. -/
def bpsInField : String := "BPS_IN"

/-- Modelled from the spec: the constant `maxconnField`, declared outside the
sources; the flag `MAXCONN` of `metrics.go`, which opens the connection line. -/
def maxconnField : String := "MAXCONN"

/-- Modelled from the spec: the constant `reqRateField`, declared outside the
sources; the identifier `REQ_RATE` of a request-rate line. -/
def reqRateField : String := "REQ_RATE"

/-- Modelled from the spec: the constant `extappField`, declared outside the
sources; the identifier `EXTAPP` of an external-app line. -/
def extappField : String := "EXTAPP"

/-- The class `\w` of Go's `regexp`: an ASCII letter, digit or underscore. -/
def isWordChar (c : Char) : Bool := c.isAlphanum || c == '_'

/-- The call `idRegex.FindString(line)` for the pattern `^\w*`: the longest
prefix of word characters. -/
def findIdentifier (line : List Char) : List Char := line.takeWhile isWordChar

/-- The matches of `\[([^\[\]]*)\]`, left to right: `cur` is the text read since
the last `[` that may still open a match. -/
def bracketCapturesAux : Option (List Char) → List Char → List (List Char)
  | _, [] => []
  | none, c :: cs =>
    if c = '[' then bracketCapturesAux (some []) cs else bracketCapturesAux none cs
  | some cur, c :: cs =>
    if c = ']' then cur.reverse :: bracketCapturesAux none cs
    else if c = '[' then bracketCapturesAux (some []) cs
    else bracketCapturesAux (some (c :: cur)) cs

/-- The first capture group of every match of `ibRegex` in the line:
`ibRegex.FindAllStringSubmatch(line, -1)[i][1]` is the `i`-th element, and
`ibRegex.FindStringSubmatch(line)[1]` the head. -/
def bracketCaptures (line : List Char) : List (List Char) := bracketCapturesAux none line

/-- The text before and after the first occurrence of the non-empty separator
`sep`; `none` when it does not occur.  `strings.SplitN(s, sep, 2)` has two
parts in the first case and the one part `s` in the second. -/
def splitOnce (sep : List Char) : List Char → Option (List Char × List Char)
  | [] => none
  | c :: cs =>
    if sep.isPrefixOf (c :: cs) then some ([], (c :: cs).drop sep.length)
    else (splitOnce sep cs).map (fun p => (c :: p.1, p.2))

/-- The lines the loop of `scrapeFile` processes: every `reader.ReadString('\n')`
that returns without error, with the terminator cut off by `strings.TrimRight`.
The text after the last newline comes with `io.EOF` and ends the loop
unprocessed.  `cur` is the line being read, reversed. -/
def readLinesAux : List Char → List Char → List (List Char)
  | _, [] => []
  | cur, c :: cs =>
    if c = '\n' then cur.reverse :: readLinesAux [] cs else readLinesAux (c :: cur) cs

/-- The lines of a source, see `readLinesAux`. -/
def readLines (content : List Char) : List (List Char) := readLinesAux [] content

/-! ## The source scanner `scrapeFile` -/

/-- The report under construction and the increments of `scrapeFailures` made
so far. -/
structure ScanState (V : Type) where
  report : litespeedReport V
  failures : Nat

/-- The loop over the fields of a line, the same in the three record families:
`flagOf` is the key under which a field is looked up and stored (the raw key,
or the key behind the family prefix).  An excluded flag is skipped before it is
parsed; a value that does not parse counts one failure and is not stored. -/
def scrapeFields {V : Type} (u : Helpers V) (c : LitespeedCollector) (flagOf : String → String)
    (m : AList (fun _ : String => String)) (kv : KeyValues V) (failures : Nat) :
    KeyValues V × Nat :=
  m.entries.foldl
    (fun acc e =>
      let flag := flagOf e.1
      if !c.metricIsTracked flag then acc
      else
        match u.parseMetricValue flag e.2 with
        | (_, some _) => (acc.1, acc.2 + 1)
        | (vf, none) => (acc.1.insert flag vf, acc.2))
    (kv, failures)

/-- The case `reqRateField` of the switch; `captures` is the `matches` of the
Go code. -/
def scrapeReqRate {V : Type} (u : Helpers V) (c : LitespeedCollector) (st : ScanState V)
    (line : List Char) : Option (ScanState V) := do
  let parts := splitOnce ": ".data line
  let captures := bracketCaptures line
  -- `!c.options.ReqRatesByHost && matches[1] != ""`: the index is evaluated
  -- only when `ReqRatesByHost` is off
  let skip ← if c.options.ReqRatesByHost then some false
    else captures.head?.map (fun host => decide (host ≠ []))
  if skip then
    return st
  let fields ← parts.map (fun p => p.2)
  let m ← u.parseKeyValLineToMap (String.mk fields)
  let hostname ← captures.head?
  let (kv, failures) :=
    scrapeFields u c (fun k => reqRateField ++ "_" ++ k) m ∅ st.failures
  let rr : requestRateReport V := { Hostname := String.mk hostname, KeyValues := kv }
  return { report := { st.report with ReqRates := st.report.ReqRates ++ [rr] }
           failures := failures }

/-- The case `extappField` of the switch; `captures` is the `matches` of the Go
code. -/
def scrapeExtApp {V : Type} (u : Helpers V) (c : LitespeedCollector) (st : ScanState V)
    (line : List Char) : Option (ScanState V) := do
  if c.options.ExcludeExtapp then
    return st
  let parts := splitOnce ": ".data line
  let fields ← parts.map (fun p => p.2)
  let m ← u.parseKeyValLineToMap (String.mk fields)
  let captures := bracketCaptures line
  let service ← captures[0]?
  let hostname ← captures[1]?
  let handler ← captures[2]?
  let (kv, failures) :=
    scrapeFields u c (fun k => extappField ++ "_" ++ k) m ∅ st.failures
  let er : externalAppReport V :=
    { Service := String.mk service, Hostname := String.mk hostname
      Handler := String.mk handler, KeyValues := kv }
  return { report := { st.report with ExtApps := st.report.ExtApps ++ [er] }
           failures := failures }

/-- One round of the loop of `scrapeFile`, on a line without its terminator;
`none` is a panic. -/
def scrapeLine {V : Type} (u : Helpers V) (c : LitespeedCollector) (st : ScanState V)
    (line : List Char) : Option (ScanState V) :=
  let identifier := String.mk (findIdentifier line)
  if identifier = "" then some st
  else if identifier = versionField then
    (u.parseKeyValPair (String.mk line) ": ").map (fun kv =>
      { st with report :=
          { st.report with GeneralInfo := { st.report.GeneralInfo with Version := kv.2 } } })
  else if identifier = uptimeField then
    (u.parseKeyValPair (String.mk line) ": ").map (fun kv =>
      { st with report :=
          { st.report with GeneralInfo := { st.report.GeneralInfo with Uptime := kv.2 } } })
  else if identifier = bpsInField ∨ identifier = maxconnField then
    (u.parseKeyValLineToMap (String.mk line)).map (fun m =>
      let (kv, failures) :=
        scrapeFields u c (fun k => k) m st.report.GeneralInfo.KeyValues st.failures
      { report :=
          { st.report with GeneralInfo := { st.report.GeneralInfo with KeyValues := kv } }
        failures := failures })
  else if identifier = reqRateField then scrapeReqRate u c st line
  else if identifier = extappField then scrapeExtApp u c st line
  else some st

/-- The loop of `scrapeFile` over the lines of a source: the report, or `none`
after a panic, and the failures counted until then. -/
def scrapeLines {V : Type} (u : Helpers V) (c : LitespeedCollector) :
    ScanState V → List (List Char) → Option (litespeedReport V) × Nat
  | st, [] => (some st.report, st.failures)
  | st, line :: rest =>
    match scrapeLine u c st line with
    | none => (none, st.failures)
    | some st' => scrapeLines u c st' rest

/-- What a file name leads to: the text that can be read, and whether the read
after it fails with an error other than `io.EOF`. -/
structure SourceFile where
  content : String
  readFails : Bool

/-- Why `scrapeFile` returns an error: `os.Open` failed, a panic was recovered,
or a read failed. -/
inductive ScrapeError where
  | openFailed
  | panicked
  | readFailed
  deriving DecidableEq

/-- The method `scrapeFile`: the report of one source or an error, and the
increments of `scrapeFailures`.  `fs` is the file system: `none` for a name
that cannot be opened. -/
def scrapeFile {V : Type} (u : Helpers V) (c : LitespeedCollector)
    (fs : String → Option SourceFile) (fileName : String) :
    Except ScrapeError (litespeedReport V) × Nat :=
  match fs fileName with
  | none => (.error .openFailed, 0)
  | some file =>
    match scrapeLines u c { report := emptyReport V, failures := 0 }
        (readLines file.content.data) with
    | (none, n) => (.error .panicked, n)
    | (some report, n) =>
      if file.readFails then (.error .readFailed, n) else (.ok report, n)

/-- The method `scrapeReports`: the reports by source, or the error of the
pattern, and the increments of `scrapeFailures`.  `glob` is `filepath.Glob`. -/
def scrapeReports {V : Type} [Add V] (u : Helpers V) (c : LitespeedCollector)
    (glob : String → Except String (List String)) (fs : String → Option SourceFile)
    (filePattern : String) : Except String (Reports V) × Nat :=
  match glob filePattern with
  | .error e => (.error e, 0)
  | .ok found =>
    let acc := found.foldl
      (fun acc name =>
        match scrapeFile u c fs name with
        | (.ok report, n) => (acc.1.insert name report, acc.2 + n)
        | (.error _, n) => (acc.1, acc.2 + n))
      ((∅ : Reports V), 0)
    if !c.options.MetricsByCore then
      (.ok (AList.singleton "" (sumReports acc.1)), acc.2)
    else (.ok acc.1, acc.2)

/-! ## The helpers of `utils.go`, from their contracts -/

/-- The text without its leading white space (space, tab, carriage return,
line feed). -/
def trimLeft (s : List Char) : List Char := s.dropWhile Char.isWhitespace

/-- The text without leading and trailing white space: the trimming of keys
and values the spec asks of the line parser. -/
def trimSpace (s : List Char) : List Char := (trimLeft (trimLeft s).reverse).reverse

/-- The call `strings.Split(s, sep)` for a non-empty separator; `fuel` bounds
the number of parts. -/
def splitAllAux (sep : List Char) : Nat → List Char → List (List Char)
  | 0, s => [s]
  | fuel + 1, s =>
    match splitOnce sep s with
    | none => [s]
    | some (before, after) => before :: splitAllAux sep fuel after

/-- The call `strings.Split(s, sep)` for a non-empty separator. -/
def splitAll (sep : List Char) (s : List Char) : List (List Char) :=
  splitAllAux sep s.length s

/-- Modelled from the spec: `parseKeyValPair` of `collector/utils.go`, which is
not among the sources (`TestParseKeyValPairReturnsExpected` is).  The key and
the value are the texts before and after the first separator, trimmed.  The
spec does not say what a text without separator gives: here the trimmed text
is the key and the value is empty. -/
def parseKeyValPair (s sep : String) : String × String :=
  match splitOnce sep.data s.data with
  | some (k, v) => (String.mk (trimSpace k), String.mk (trimSpace v))
  | none => (String.mk (trimSpace s.data), "")

/-- Modelled from the spec: `parseKeyValLineToMap` of `collector/utils.go`,
which is not among the sources (`TestParseKeyValLineReturnsExpected` is).  The
text `K1: V1, K2: V2, ...` gives the mapping from each trimmed key to its
trimmed value; a segment without `: ` is skipped, the empty text gives the
empty mapping. -/
def parseKeyValLineToMap (s : String) : AList (fun _ : String => String) :=
  (splitAll ", ".data s.data).foldl
    (fun m seg =>
      match splitOnce ": ".data seg with
      | some (k, v) => m.insert (String.mk (trimSpace k)) (String.mk (trimSpace v))
      | none => m)
    ∅

/-- The number a run of decimal digits denotes after the digits `acc` read so
far, and the number of digits read; `none` when a character is no digit. -/
def readDigits : Nat → Nat → List Char → Option (Nat × Nat)
  | acc, n, [] => some (acc, n)
  | acc, n, c :: cs =>
    if c.isDigit then readDigits (acc * 10 + (c.toNat - '0'.toNat)) (n + 1) cs else none

/-- The binary64 value of an unsigned decimal numeral `digits[.digits]` with at
least one digit; `none` for any other text. -/
def parseUnsignedDecimal (negative : Bool) (s : List Char) : Option F64 :=
  let whole := s.takeWhile (fun c => c != '.')
  let rest := s.dropWhile (fun c => c != '.')
  let frac := rest.drop 1
  match readDigits 0 0 whole, readDigits 0 0 frac with
  | some (w, nw), some (f, nf) =>
    if nw + nf = 0 then none
    else some (F64.ofRatio negative (w * 10 ^ nf + f) (10 ^ nf))
  | _, _ => none

/-- The binary64 value of a decimal numeral with an optional sign. -/
def parseDecimal (s : List Char) : Option F64 :=
  match s with
  | '-' :: cs => parseUnsignedDecimal true cs
  | '+' :: cs => parseUnsignedDecimal false cs
  | _ => parseUnsignedDecimal false s

/-- Modelled from the spec: `parseMetricValue` of `collector/utils.go`, which is
not among the sources (`TestParseMetricValueParsesValidMetricProperly` is).
The raw value is read as a decimal number; a text that is none gives the value
`0.0` and an error that names the flag and the raw value. -/
def parseMetricValue (flag raw : String) : F64 × Option String :=
  match parseDecimal raw.data with
  | some v => (v, none)
  | none => (F64.finite 0 0, some ("cannot parse " ++ flag ++ ": " ++ raw))

/-- The helpers of `utils.go` as modelled from the spec; none of them panics. -/
def specHelpers : Helpers F64 :=
  { parseKeyValPair := fun s sep => some (parseKeyValPair s sep)
    parseKeyValLineToMap := fun s => some (parseKeyValLineToMap s)
    parseMetricValue := parseMetricValue }

/-! ## Sample sources -/

/-- A collector with the given switches and nothing excluded. -/
def sampleCollector (reqRatesByHost metricsByCore excludeExtapp : Bool) : LitespeedCollector :=
  { options :=
      { FilePattern := "/tmp/lshttpd/.rtreport*"
        ReqRatesByHost := reqRatesByHost
        MetricsByCore := metricsByCore
        ExcludeExtapp := excludeExtapp
        ExcludedMetrics := ∅ } }

/-- A file system with the one readable file `name`. -/
def oneFile (name content : String) : String → Option SourceFile :=
  fun f => if f = name then some { content := content, readFails := false } else none

/-- A report file in the format of LiteSpeed's `.rtreport`. -/
def sampleReport : String :=
  "VERSION: LiteSpeed Web Server/Enterprise/5.4.6\n" ++
  "UPTIME: 03:02:01\n" ++
  "BPS_IN: 1, BPS_OUT: 2, SSL_BPS_IN: 3, SSL_BPS_OUT: 4\n" ++
  "MAXCONN: 10000, MAXSSL_CONN: 5000, PLAINCONN: 6\n" ++
  "REQ_RATE []: REQ_PROCESSING: 3, REQ_PER_SEC: 3.5, TOT_REQS: 1533\n" ++
  "REQ_RATE [example.com]: REQ_PROCESSING: 1, REQ_PER_SEC: 0.1, TOT_REQS: x\n" ++
  "EXTAPP [LSAPI] [] [wsgiApp]: CMAXCONN: 1000, REQ_PER_SEC: 0.0\n" ++
  "BLOCKED_IP: \n" ++
  "EOF\n"

/-- The error of a result, `none` for a success. -/
def errorOf {α : Type} (r : Except ScrapeError α) : Option ScrapeError :=
  match r with
  | .ok _ => none
  | .error e => some e

/-! ## The Field Registry of `metrics.go` and the metrics of a report -/

/-- A `prometheus.Desc`, as far as `metrics.go` sets it. -/
structure Desc where
  fqName : String
  help : String
  variableLabels : List String
  deriving DecidableEq

/-- The `prometheus.ValueType`. -/
inductive ValueType where
  | CounterValue
  | GaugeValue
  | UntypedValue
  deriving DecidableEq

/-- The Go struct `metricInfo`; `ValType` is its field `Type`. -/
structure metricInfo where
  Desc : Desc
  ValType : ValueType
  deriving DecidableEq

/-- The Go type `metrics`, a `map[string]metricInfo`. -/
abbrev metrics : Type := AList (fun _ : String => metricInfo)

/-- The constant `namespace` of `metrics.go`. -/
def metricNamespace : String := "litespeed"

/-- The call `strings.ToLower` on the ASCII names of the registry: the letters
`A` to `Z` are lowered, as Go does; Go lowers the other letters of Unicode too,
which no flag of the registry holds. -/
def toLower (s : String) : String := String.mk (s.data.map Char.toLower)

/-- The call `prometheus.BuildFQName(namespace, "", name)`. -/
def buildFQName (ns name : String) : String :=
  if name = "" then "" else if ns = "" then name else ns ++ "_" ++ name

/-- The function `newGenericMetric`: one label, the core. -/
def newGenericMetric (metricName docString : String) (t : ValueType) : metricInfo :=
  { Desc :=
      { fqName := buildFQName metricNamespace (toLower metricName)
        help := docString
        variableLabels := ["core"] }
    ValType := t }

/-- The function `newReqRateMetric`: two labels, core and hostname. -/
def newReqRateMetric (metricName docString : String) (t : ValueType) : metricInfo :=
  { Desc :=
      { fqName := buildFQName metricNamespace (toLower metricName)
        help := docString
        variableLabels := ["core", "hostname"] }
    ValType := t }

/-- The function `newExtappMetric`: four labels, core, service, hostname and
handler. -/
def newExtappMetric (metricName docString : String) (t : ValueType) : metricInfo :=
  { Desc :=
      { fqName := buildFQName metricNamespace (toLower metricName)
        help := docString
        variableLabels := ["core", "service", "hostname", "handler"] }
    ValType := t }

/-- An entry of the generic family: the flag with the help string that
`metrics.go` derives from it. -/
def genericEntry (flag : String) : String × metricInfo :=
  (flag, newGenericMetric flag (flag ++ " metric.") .GaugeValue)

/-- An entry of the request-rate family. -/
def reqRateEntry (flag : String) : String × metricInfo :=
  (flag, newReqRateMetric flag (flag ++ " metric.") .GaugeValue)

/-- An entry of the external-app family. -/
def extappEntry (flag : String) : String × metricInfo :=
  (flag, newExtappMetric flag (flag ++ " metric.") .GaugeValue)

/-- The registry `LitespeedMetrics` of `metrics.go`.  The flag constants are
declared outside the sources; each flag is written here by its value, which
the help string of its entry spells out. -/
def LitespeedMetrics : metrics :=
  kvOfList
    [genericEntry bpsInField, genericEntry "BPS_OUT", genericEntry "SSL_BPS_IN",
     genericEntry "SSL_BPS_OUT", genericEntry maxconnField, genericEntry "MAXSSL_CONN",
     genericEntry "PLAINCONN", genericEntry "AVAILCONN", genericEntry "IDLECONN",
     genericEntry "SSLCONN", genericEntry "AVAILSSL",
     reqRateEntry "REQ_RATE_REQ_PROCESSING", reqRateEntry "REQ_RATE_REQ_PER_SEC",
     reqRateEntry "REQ_RATE_TOT_REQS", reqRateEntry "REQ_RATE_PUB_CACHE_HITS_PER_SEC",
     reqRateEntry "REQ_RATE_TOTAL_PUB_CACHE_HITS",
     reqRateEntry "REQ_RATE_PRIVATE_CACHE_HITS_PER_SEC",
     reqRateEntry "REQ_RATE_TOTAL_PRIVATE_CACHE_HITS",
     reqRateEntry "REQ_RATE_STATIC_HITS_PER_SEC", reqRateEntry "REQ_RATE_TOTAL_STATIC_HITS",
     extappEntry "EXTAPP_CMAXCONN", extappEntry "EXTAPP_EMAXCONN",
     extappEntry "EXTAPP_POOL_SIZE", extappEntry "EXTAPP_INUSE_CONN",
     extappEntry "EXTAPP_IDLE_CONN", extappEntry "EXTAPP_WAITQUE_DEPTH",
     extappEntry "EXTAPP_REQ_PER_SEC", extappEntry "EXTAPP_TOT_REQS"]

/-- A metric sent on the channel: the triple of descriptor (found under the
flag), value and label values. -/
structure Metric (V : Type) where
  desc : Desc
  valueType : ValueType
  value : V
  labelValues : List String

/-- The call `prometheus.MustNewConstMetric`: it panics (`none`) when the number
of label values is not the number of labels the descriptor declares.  The Go
function also panics on a label value that is not valid UTF-8, a text that a
`String` cannot hold: the sources of this development are valid UTF-8. -/
def MustNewConstMetric {V : Type} (desc : Desc) (t : ValueType) (value : V)
    (labelValues : List String) : Option (Metric V) :=
  if labelValues.length = desc.variableLabels.length then
    some { desc := desc, valueType := t, value := value, labelValues := labelValues }
  else none

/-- The loop `for flag, value := range keyValues` of the three collect
functions: a flag of the registry is sent with the given label values, any
other flag is passed over; `none` is a panic. -/
def collectKeyValues {V : Type} (labelValues : List String) :
    List (Sigma fun _ : String => V) → Option (List (Metric V))
  | [] => some []
  | e :: rest =>
    match LitespeedMetrics.lookup e.1 with
    | some metric =>
      (MustNewConstMetric metric.Desc metric.ValType e.2 labelValues).bind (fun sent =>
        (collectKeyValues labelValues rest).map (fun more => sent :: more))
    | none => collectKeyValues labelValues rest

/-- The method `collectGeneralInfoMetrics`: the metrics sent on the channel. -/
def collectGeneralInfoMetrics {V : Type} (core : String) (generalInfo : generalInfoReport V) :
    Option (List (Metric V)) :=
  collectKeyValues [core] generalInfo.KeyValues.entries

/-- The method `collectReqRateMetrics`. -/
def collectReqRateMetrics {V : Type} (core : String) :
    List (requestRateReport V) → Option (List (Metric V))
  | [] => some []
  | rrReport :: rest =>
    (collectKeyValues [core, rrReport.Hostname] rrReport.KeyValues.entries).bind (fun sent =>
      (collectReqRateMetrics core rest).map (fun more => sent ++ more))

/-- The method `collectExtAppMetrics`. -/
def collectExtAppMetrics {V : Type} (core : String) :
    List (externalAppReport V) → Option (List (Metric V))
  | [] => some []
  | eaReport :: rest =>
    (collectKeyValues [core, eaReport.Service, eaReport.Hostname, eaReport.Handler]
        eaReport.KeyValues.entries).bind (fun sent =>
      (collectExtAppMetrics core rest).map (fun more => sent ++ more))

/-- The exclusion set that `ParseFlagsToMap` builds from the flags of the
registry, as `TestCollectSkipsExcludedMetricsWhenAllExcluded` does. -/
def allFlagsExcluded : AList (fun _ : String => Bool) :=
  kvOfList (LitespeedMetrics.keys.map (fun flag => (flag, true)))

/-! ## Views of the scanner used to state the properties -/

/-- The value a field leaves in a values map: the parsed value of a tracked
flag whose raw value parses, nothing otherwise. -/
def storedValue {V : Type} (u : Helpers V) (c : LitespeedCollector) (flag raw : String) :
    Option V :=
  if c.metricIsTracked flag then
    match u.parseMetricValue flag raw with
    | (vf, none) => some vf
    | (_, some _) => none
  else none

/-- The field counts one scrape failure: its flag is tracked and its raw value
does not parse. -/
def fieldFails {V : Type} (u : Helpers V) (c : LitespeedCollector) (flag raw : String) :
    Bool :=
  c.metricIsTracked flag && (u.parseMetricValue flag raw).2.isSome

/-- The values map after one field of a line. -/
def storeField {V : Type} (u : Helpers V) (c : LitespeedCollector) (flagOf : String → String)
    (kv : KeyValues V) (e : Sigma fun _ : String => String) : KeyValues V :=
  match storedValue u c (flagOf e.1) e.2 with
  | some vf => kv.insert (flagOf e.1) vf
  | none => kv

/-- The mapping of a line without the fields that `keep` rejects. -/
def filterFields (keep : String → String → Bool) (m : AList (fun _ : String => String)) :
    AList (fun _ : String => String) :=
  ⟨m.entries.filter (fun e => keep e.1 e.2),
    m.nodupKeys.sublist (List.filter_sublist _)⟩

/-- Every key of a values map of the report satisfies the predicate of its
family: `G` for the general info, `R` for the request-rate records, `E` for
the external-app records. -/
def litespeedReport.KeysSatisfy {V : Type} (G R E : String → Prop) (r : litespeedReport V) :
    Prop :=
  (∀ k ∈ r.GeneralInfo.KeyValues, G k) ∧
  (∀ rr ∈ r.ReqRates, ∀ k ∈ rr.KeyValues, R k) ∧
  (∀ ea ∈ r.ExtApps, ∀ k ∈ ea.KeyValues, E k)

/-- The identifier of the line is one the switch of `scrapeFile` has a case
for. -/
def isRecognized (line : List Char) : Bool :=
  decide (String.mk (findIdentifier line) ∈
    [versionField, uptimeField, bpsInField, maxconnField, reqRateField, extappField])

/-- The hostname of the record a line adds to `ReqRates`, if it adds one: the
first capture of a `REQ_RATE` line, kept when `ReqRatesByHost` is on or the
capture is empty. -/
def reqRateHostOf (c : LitespeedCollector) (line : List Char) : Option String :=
  if String.mk (findIdentifier line) = reqRateField then
    match (bracketCaptures line).head? with
    | some host =>
      if c.options.ReqRatesByHost || decide (host = []) then some (String.mk host) else none
    | none => none
  else none

/-- The service and hostname of the record a line adds to `ExtApps`, if it adds
one: the first two captures of an `EXTAPP` line, unless `ExcludeExtapp` is on. -/
def extAppKeyOf (c : LitespeedCollector) (line : List Char) : Option (String × String) :=
  if String.mk (findIdentifier line) = extappField ∧ c.options.ExcludeExtapp = false then
    match bracketCaptures line with
    | service :: hostname :: _ => some (String.mk service, String.mk hostname)
    | _ => none
  else none

/-- A collector that keeps the reports by core and excludes every flag of the
registry. -/
def excludingAll : LitespeedCollector :=
  { options :=
      { FilePattern := "/tmp/lshttpd/.rtreport*"
        ReqRatesByHost := false
        MetricsByCore := true
        ExcludeExtapp := false
        ExcludedMetrics := allFlagsExcluded } }

/-- The text `s` starts with the text `p`. -/
def hasPrefix (p s : String) : Bool := p.data.isPrefixOf s.data

/-! ## The flags of the command line and of the registry -/

/-- Modelled from the spec: `ParseFlagsToMap` of `collector/utils.go`, which is
not among the sources (`TestParseFlagsToMapReturnsExpected` and the call in
`main.go` are).  The set of the flags of the list, as the `map[string]bool`
that holds `true` under each of them. -/
def ParseFlagsToMap (flags : List String) : AList (fun _ : String => Bool) :=
  flags.foldl (fun m flag => m.insert flag true) ∅

/-- The order `<` of Go on strings, on the characters of the two strings: the
first place where they differ decides, and a proper prefix comes first.  Go
compares byte by byte; on UTF-8 text that is the order by code points. -/
def ltChars : List Char → List Char → Bool
  | _, [] => false
  | [], _ :: _ => true
  | a :: as, b :: bs =>
    if a.toNat < b.toNat then true
    else if b.toNat < a.toNat then false
    else ltChars as bs

/-- The string `a` is not after the string `b`. -/
def leString (a b : String) : Prop := ltChars b.data a.data = false

instance : DecidableRel leString := fun a b =>
  inferInstanceAs (Decidable (ltChars b.data a.data = false))

/-- The call `sort.Strings(s)`: the strings of `s` in increasing order. -/
def sortStrings (s : List String) : List String := s.insertionSort leString

/-- The call `strings.Join(s, sep)`. -/
def joinStrings (sep : String) : List String → String
  | [] => ""
  | [a] => a
  | a :: b :: rest => a ++ sep ++ joinStrings sep (b :: rest)

/-- The method `String` of `metrics`: the flags of the registry, sorted and
joined by a comma and a space. -/
def metrics.String (m : metrics) : String := joinStrings ", " (sortStrings m.keys)

/-! ## The values map of a record of a family -/

/-- The values map `kv` holds the fields of the mapping `m` of a line under the
keys with the family prefix `p`: the field with raw key `k` is looked up in the
exclusion set as `p ++ k`; an excluded one leaves nothing, any other is parsed
under `p ++ k` and stored there when its value parses.  The map has no other
key. -/
def NamespacedFields {V : Type} (u : Helpers V) (c : LitespeedCollector) (p : String)
    (m : AList (fun _ : String => String)) (kv : KeyValues V) : Prop :=
  (∀ k raw, m.lookup k = some raw →
    (p ++ k ∈ c.options.ExcludedMetrics → kv.lookup (p ++ k) = none) ∧
    (p ++ k ∉ c.options.ExcludedMetrics →
      kv.lookup (p ++ k)
        = match u.parseMetricValue (p ++ k) raw with
          | (vf, none) => some vf
          | (_, some _) => none)) ∧
  (∀ f ∈ kv,
    hasPrefix p f = true ∧ f ∉ c.options.ExcludedMetrics ∧ ∃ k ∈ m, f = p ++ k)

/-- A collector that keeps the request rates by host and the reports by core,
with the exclusion set `ParseFlagsToMap` builds from the given flags. -/
def excluding (flags : List String) : LitespeedCollector :=
  { options :=
      { FilePattern := "/tmp/lshttpd/.rtreport*"
        ReqRatesByHost := true
        MetricsByCore := true
        ExcludeExtapp := false
        ExcludedMetrics := ParseFlagsToMap flags } }

/-- The state at the start of the loop of `scrapeFile`. -/
def initialState (V : Type) : ScanState V := { report := emptyReport V, failures := 0 }

/-! ## A scrape cycle: `collectReports` -/

/-- The descriptor `litespeedVersion` of `metrics.go`. -/
def litespeedVersion : Desc :=
  { fqName := buildFQName metricNamespace "version"
    help := "A metric with a constant \x271\x27 value labeled by the LiteSpeed version."
    variableLabels := ["version"] }

/-- The descriptor `litespeedUp` of `metrics.go`. -/
def litespeedUp : Desc :=
  { fqName := buildFQName metricNamespace "up"
    help := "Was the last scrape of LiteSpeed successful."
    variableLabels := [] }

/-- The loop `for core, report := range reports` of `collectReports`, on the
entries in the order the loop visits them: the metrics sent on the channel, or
`none` when a `MustNewConstMetric` panics.  `versionScraped` is the variable of
that name, `one` the `float64` value `1` of the version metric. -/
def collectReportsLoop {V : Type} (one : V) :
    Bool → List (Sigma fun _ : String => litespeedReport V) → Option (List (Metric V))
  | _, [] => some []
  | versionScraped, e :: rest => do
    let version ←
      if versionScraped then some []
      else
        (MustNewConstMetric litespeedVersion .GaugeValue one
          [e.2.GeneralInfo.Version]).map (fun sent => [sent])
    let general ← collectGeneralInfoMetrics e.1 e.2.GeneralInfo
    let reqRates ← collectReqRateMetrics e.1 e.2.ReqRates
    let extApps ← collectExtAppMetrics e.1 e.2.ExtApps
    let more ← collectReportsLoop one true rest
    return version ++ general ++ reqRates ++ extApps ++ more

/-- What a call of `collectReports` does.  `returned` is the value `up` (the
`float64` `0` or `1`, as a natural number) with the metrics sent on the
channel, or `none` when the call panics and returns nothing; the two counters
are the increments of `totalScrapes` and `scrapeFailures`. -/
structure CycleResult (V : Type) where
  returned : Option (Nat × List (Metric V))
  totalScrapes : Nat
  scrapeFailures : Nat

/-- The method `collectReports`. -/
def collectReports {V : Type} [Add V] (u : Helpers V) (c : LitespeedCollector)
    (glob : String → Except String (List String)) (fs : String → Option SourceFile)
    (one : V) : CycleResult V :=
  match scrapeReports u c glob fs c.options.FilePattern with
  | (.error _, n) => { returned := some (0, []), totalScrapes := 1, scrapeFailures := n + 1 }
  | (.ok reports, n) =>
    { returned := (collectReportsLoop one false reports.entries).map (fun sent => (1, sent))
      totalScrapes := 1
      scrapeFailures := n }

/-! ## Decimal numerals -/

/-- The number a run of decimal digits denotes. -/
def digitsValue (ds : List Char) : Nat :=
  ds.foldl (fun acc ch => acc * 10 + (ch.toNat - '0'.toNat)) 0

/-- The sign of a numeral: none, `-` (`some true`) or `+` (`some false`). -/
def signText : Option Bool → List Char
  | none => []
  | some true => ['-']
  | some false => ['+']

/-- The text of a decimal numeral: the sign, the digits before the point and,
when there is a point, the point and the digits after it. -/
def numeralText (sign : Option Bool) (whole : List Char) (frac : Option (List Char)) :
    List Char :=
  signText sign ++ whole ++
    (match frac with
      | none => []
      | some f => '.' :: f)

/-- The two runs of digits of a decimal numeral are runs of digits, and there
is a digit in one of them. -/
def IsNumeral (whole : List Char) (frac : Option (List Char)) : Prop :=
  (∀ ch ∈ whole, ch.isDigit = true) ∧ (∀ ch ∈ frac.getD [], ch.isDigit = true) ∧
    0 < whole.length + (frac.getD []).length

/-! ## The text of a line of pairs -/

/-- The call `strings.Contains(s, sep)` on the characters of the two texts. -/
def occurs (sep : List Char) : List Char → Bool
  | [] => sep.isEmpty
  | c :: cs => sep.isPrefixOf (c :: cs) || occurs sep cs

/-- The call `strings.Join` on lists of characters. -/
def joinChars (sep : List Char) : List (List Char) → List Char
  | [] => []
  | [a] => a
  | a :: b :: rest => a ++ sep ++ joinChars sep (b :: rest)

/-- The text `K1: V1, K2: V2, ..., Kn: Vn` of a list of pairs; the empty text
for the empty list. -/
def pairsText (pairs : List (String × String)) : String :=
  joinStrings ", " (pairs.map (fun p => p.1 ++ ": " ++ p.2))

/-- A key or a value that holds neither `, ` nor `: ` and has no white space at
its ends. -/
def isPlain (s : String) : Bool :=
  !occurs ", ".data s.data && !occurs ": ".data s.data && decide (trimSpace s.data = s.data)

/-! ## Properties of the values merge and of keyed slices -/


theorem lookup_sumOrAppend {V : Type} [Add V] (kv : KeyValues V) (k : String) (v : V)
    (j : String) :
    (sumOrAppend kv k v).lookup j
      = if j = k then optAdd (kv.lookup k) (some v) else kv.lookup j := by
  unfold sumOrAppend
  by_cases hj : j = k
  · subst hj
    cases h : kv.lookup j <;> simp [optAdd, AList.lookup_insert]
  · cases h : kv.lookup k <;> simp [hj, AList.lookup_insert_ne hj]

theorem lookup_foldl_sumOrAppend {V : Type} [Add V] (j : String) :
    ∀ (l : List (Sigma fun _ : String => V)), l.NodupKeys → ∀ dst : KeyValues V,
      (l.foldl (fun acc e => sumOrAppend acc e.1 e.2) dst).lookup j
        = optAdd (dst.lookup j) (l.dlookup j) := by
  intro l
  induction l with
  | nil => intro _ dst; cases h : dst.lookup j <;> simp [optAdd, h]
  | cons e l ih =>
    intro hnd dst
    obtain ⟨hk, hl⟩ := List.nodupKeys_cons.mp hnd
    rw [List.foldl_cons, ih hl, lookup_sumOrAppend]
    by_cases hj : j = e.1
    · subst hj
      have hnone : l.dlookup e.1 = none := List.dlookup_eq_none.mpr hk
      rw [hnone]
      obtain ⟨ek, ev⟩ := e
      simp only [List.dlookup_cons_eq, if_true]
      cases dst.lookup ek <;> simp [optAdd]
    · have hne : e.1 ≠ j := fun h => hj h.symm
      obtain ⟨ek, ev⟩ := e
      simp only [if_neg hj]
      rw [List.dlookup_cons_ne l ⟨ek, ev⟩ hj]

theorem lookup_sumKeyValues {V : Type} [Add V] (dst src : KeyValues V) (j : String) :
    (sumKeyValues dst src).lookup j = optAdd (dst.lookup j) (src.lookup j) :=
  lookup_foldl_sumOrAppend j src.entries src.nodupKeys dst



theorem firstIndex_updateAt_eq_upsert {R : Type} (p : R → Bool) (u : R → R) (n : R)
    (rs : List R) :
    (match firstIndex p rs with
      | none => rs ++ [n]
      | some i => updateAt u i rs) = upsert p u n rs := by
  induction rs with
  | nil => rfl
  | cons x xs ih =>
    by_cases hp : p x
    · simp [firstIndex, upsert, hp, updateAt]
    · simp only [firstIndex, upsert, hp, Bool.false_eq_true, if_false]
      cases h : firstIndex p xs with
      | none => rw [h] at ih; simpa using ih
      | some i => rw [h] at ih; simpa [updateAt] using ih

section Keyed

variable {R K : Type} [DecidableEq K] (key : R → K) (m : R → R → R)

theorem filter_mergeStep (hm : ∀ x n, key (m x n) = key x) (κ : K) (rs : List R) (n : R) :
    (mergeStep key m rs n).filter (fun x => decide (key x = κ))
      = if key n = κ then bucketStep m (rs.filter (fun x => decide (key x = κ))) n
        else rs.filter (fun x => decide (key x = κ)) := by
  unfold mergeStep
  induction rs with
  | nil =>
    by_cases h : key n = κ <;> simp [upsert, h, bucketStep]
  | cons x xs ih =>
    by_cases hx : key x = key n
    · by_cases h : key n = κ
      · have hxκ : key x = κ := hx.trans h
        simp [upsert, hx, h, bucketStep, hm, List.filter_cons]
      · have hxκ : ¬ key x = κ := fun e => h (hx.symm.trans e)
        simp [upsert, hx, h, hm, List.filter_cons]
    · have hx' : decide (key x = key n) = false := by simpa using hx
      simp only [upsert, hx', Bool.false_eq_true, if_false, List.filter_cons]
      rw [ih]
      by_cases h : key n = κ
      · have hxκ : ¬ key x = κ := fun e => hx (e.trans h.symm)
        simp [h, hxκ]
      · by_cases hxκ : key x = κ <;> simp [h, hxκ]

theorem filter_foldl_mergeStep (hm : ∀ x n, key (m x n) = key x) (κ : K) (bs : List R) :
    ∀ as : List R,
      (bs.foldl (mergeStep key m) as).filter (fun x => decide (key x = κ))
        = (bs.filter (fun x => decide (key x = κ))).foldl (bucketStep m)
            (as.filter (fun x => decide (key x = κ))) := by
  induction bs with
  | nil => intro as; rfl
  | cons b bs ih =>
    intro as
    rw [List.foldl_cons, ih, filter_mergeStep key m hm]
    by_cases h : key b = κ
    · simp [h, List.filter_cons]
    · simp [h, List.filter_cons]

theorem map_key_mergeStep (hm : ∀ x n, key (m x n) = key x) (rs : List R) (n : R) :
    (mergeStep key m rs n).map key
      = if key n ∈ rs.map key then rs.map key else rs.map key ++ [key n] := by
  unfold mergeStep
  induction rs with
  | nil => simp [upsert]
  | cons x xs ih =>
    by_cases hx : key x = key n
    · simp [upsert, hx, hm]
    · have hx' : decide (key x = key n) = false := by simpa using hx
      have hne : ¬ key n = key x := fun e => hx e.symm
      simp only [upsert, hx', Bool.false_eq_true, if_false, List.map_cons, ih,
        List.mem_cons, hne, false_or]
      by_cases hmem : key n ∈ xs.map key <;> simp [hmem]

theorem nodup_mergeStep (hm : ∀ x n, key (m x n) = key x) (rs : List R) (n : R)
    (h : (rs.map key).Nodup) : ((mergeStep key m rs n).map key).Nodup := by
  rw [map_key_mergeStep key m hm]
  by_cases hmem : key n ∈ rs.map key
  · simpa [hmem] using h
  · simp only [hmem, if_false]
    exact List.Nodup.append h (List.nodup_singleton _) (by simpa using hmem)

theorem nodup_foldl_mergeStep (hm : ∀ x n, key (m x n) = key x) (bs : List R) :
    ∀ as : List R, (as.map key).Nodup → ((bs.foldl (mergeStep key m) as).map key).Nodup := by
  induction bs with
  | nil => intro as h; exact h
  | cons b bs ih => intro as h; exact ih _ (nodup_mergeStep key m hm as b h)

theorem mem_map_key_foldl_mergeStep (hm : ∀ x n, key (m x n) = key x) (κ : K)
    (bs : List R) :
    ∀ as : List R, κ ∈ (bs.foldl (mergeStep key m) as).map key
      ↔ κ ∈ as.map key ∨ κ ∈ bs.map key := by
  induction bs with
  | nil => intro as; simp
  | cons b bs ih =>
    intro as
    rw [List.foldl_cons, ih, map_key_mergeStep key m hm]
    by_cases hmem : key b ∈ as.map key
    · simp only [hmem, if_true, List.map_cons, List.mem_cons]
      constructor
      · rintro (h | h)
        · exact Or.inl h
        · exact Or.inr (Or.inr h)
      · rintro (h | h | h)
        · exact Or.inl h
        · exact Or.inl (h ▸ hmem)
        · exact Or.inr h
    · simp only [hmem, if_false, List.mem_append, List.mem_singleton, List.map_cons,
        List.mem_cons]
      tauto

end Keyed



theorem upsert_of_forall_not {R : Type} (p : R → Bool) (u : R → R) (n : R) (l : List R)
    (h : ∀ x ∈ l, p x = false) : upsert p u n l = l ++ [n] := by
  induction l with
  | nil => rfl
  | cons x xs ih =>
    have hx : p x = false := h x (List.mem_cons_self _ _)
    simp [upsert, hx, ih (fun y hy => h y (List.mem_cons_of_mem _ hy))]

theorem upsert_append_of_exists {R : Type} (p : R → Bool) (u : R → R) (n : R)
    (l₁ l₂ : List R) (h : ∃ x ∈ l₁, p x = true) :
    upsert p u n (l₁ ++ l₂) = upsert p u n l₁ ++ l₂ := by
  induction l₁ with
  | nil => obtain ⟨x, hx, _⟩ := h; cases hx
  | cons x xs ih =>
    by_cases hp : p x
    · simp [upsert, hp]
    · obtain ⟨y, hy, hpy⟩ := h
      have hy' : y ∈ xs := by
        rcases List.mem_cons.mp hy with rfl | hy'
        · exact absurd hpy hp
        · exact hy'
      simp [upsert, hp, ih ⟨y, hy', hpy⟩]

section KeyedShape

variable {R K : Type} [DecidableEq K] (key : R → K) (m : R → R → R)

theorem key_mergedWith (hm : ∀ x n, key (m x n) = key x) (bs : List R) (x : R) :
    key (mergedWith key m bs x) = key x := by
  unfold mergedWith
  cases bs.find? (fun b => decide (key b = key x)) <;> simp [hm]

theorem mergedWith_append_singleton_of_ne (bs : List R) (b x : R) (h : key b ≠ key x) :
    mergedWith key m (bs ++ [b]) x = mergedWith key m bs x := by
  unfold mergedWith
  have hb : decide (key b = key x) = false := by simpa using h
  rw [List.find?_append]
  cases bs.find? (fun b => decide (key b = key x)) <;> simp [List.find?, hb]

theorem mergedWith_append_singleton_of_eq (bs : List R) (b x : R) (h : key b = key x)
    (hb : key b ∉ bs.map key) :
    mergedWith key m (bs ++ [b]) x = m x b ∧ mergedWith key m bs x = x := by
  unfold mergedWith
  have hnone : bs.find? (fun c => decide (key c = key x)) = none := by
    rw [List.find?_eq_none]
    intro c hc hcx
    apply hb
    have : key c = key x := by simpa using hcx
    exact List.mem_map.mpr ⟨c, hc, this.trans h.symm⟩
  rw [List.find?_append, hnone]
  simp [List.find?, h]

theorem upsert_map_mergedWith (hm : ∀ x n, key (m x n) = key x) (bs : List R) (b : R)
    (hb : key b ∉ bs.map key) :
    ∀ as : List R, (as.map key).Nodup → key b ∈ as.map key →
      upsert (fun x => decide (key x = key b)) (fun x => m x b) b (as.map (mergedWith key m bs))
        = as.map (mergedWith key m (bs ++ [b])) := by
  intro as
  induction as with
  | nil => intro _ h; simp at h
  | cons x xs ih =>
    intro hnd hmem
    rw [List.map_cons] at hnd hmem
    obtain ⟨hx, hxs⟩ := List.nodup_cons.mp hnd
    by_cases hk : key x = key b
    · obtain ⟨h1, h2⟩ := mergedWith_append_singleton_of_eq key m bs b x hk.symm hb
      have hrest : xs.map (mergedWith key m (bs ++ [b])) = xs.map (mergedWith key m bs) := by
        apply List.map_congr_left
        intro y hy
        apply mergedWith_append_singleton_of_ne
        intro e
        exact hx (List.mem_map.mpr ⟨y, hy, e.symm.trans hk.symm⟩)
      simp only [List.map_cons, upsert, key_mergedWith key m hm, hk, decide_True, if_true,
        h1, h2, hrest]
    · have hmem' : key b ∈ xs.map key := by
        rcases List.mem_cons.mp hmem with e | e
        · exact absurd e.symm hk
        · exact e
      have hk' : decide (key x = key b) = false := by simpa using hk
      have hne : key b ≠ key x := fun e => hk e.symm
      simp only [List.map_cons, upsert, key_mergedWith key m hm, hk', Bool.false_eq_true,
        if_false, ih hxs hmem', mergedWith_append_singleton_of_ne key m bs b x hne]

/-- The shape of a fold of `mergeStep`, for slices without repeated keys: the
records of the accumulator in their order, each merged with the record of `bs`
that has its key, then the records of `bs` with a new key, in their order. -/
theorem foldl_mergeStep_eq (hm : ∀ x n, key (m x n) = key x) (as : List R)
    (ha : (as.map key).Nodup) :
    ∀ bs : List R, (bs.map key).Nodup →
      bs.foldl (mergeStep key m) as
        = as.map (mergedWith key m bs) ++ bs.filter (fun b => decide (key b ∉ as.map key)) := by
  intro bs
  induction bs using List.reverseRecOn with
  | nil =>
    intro _
    have hid : as.map (mergedWith key m []) = as.map id :=
      List.map_congr_left (fun x _ => rfl)
    rw [List.filter_nil, List.append_nil, List.foldl_nil, hid, List.map_id]
  | append_singleton bs b ih =>
    intro hnd
    rw [List.map_append, List.nodup_append] at hnd
    obtain ⟨hbs, -, hdisj⟩ := hnd
    have hb : key b ∉ bs.map key := fun h => hdisj h (by simp)
    rw [List.foldl_append, List.foldl_cons, List.foldl_nil, ih hbs, List.filter_append]
    by_cases hmem : key b ∈ as.map key
    · have hex : ∃ x ∈ as.map (mergedWith key m bs), decide (key x = key b) = true := by
        obtain ⟨x, hx, hxk⟩ := List.mem_map.mp hmem
        exact ⟨mergedWith key m bs x, List.mem_map_of_mem _ hx,
          by simp [key_mergedWith key m hm, hxk]⟩
      unfold mergeStep
      rw [upsert_append_of_exists _ _ _ _ _ hex, upsert_map_mergedWith key m hm bs b hb as ha hmem]
      have hd : decide (key b ∉ as.map key) = false := by simpa using hmem
      simp only [List.filter_cons, hd, Bool.false_eq_true, if_false, List.filter_nil,
        List.append_nil]
    · have hall : ∀ x ∈ as.map (mergedWith key m bs)
          ++ bs.filter (fun b => decide (key b ∉ as.map key)), decide (key x = key b) = false := by
        intro x hx
        rcases List.mem_append.mp hx with h | h
        · obtain ⟨y, hy, rfl⟩ := List.mem_map.mp h
          rw [key_mergedWith key m hm]
          have : key y ≠ key b := fun e => hmem (List.mem_map.mpr ⟨y, hy, e⟩)
          simpa using this
        · have hxbs : x ∈ bs := (List.mem_filter.mp h).1
          have : key x ≠ key b := fun e => hb (List.mem_map.mpr ⟨x, hxbs, e⟩)
          simpa using this
      unfold mergeStep
      rw [upsert_of_forall_not _ _ _ _ hall]
      have hmap : as.map (mergedWith key m (bs ++ [b])) = as.map (mergedWith key m bs) := by
        apply List.map_congr_left
        intro y hy
        apply mergedWith_append_singleton_of_ne
        intro e
        exact hmem (List.mem_map.mpr ⟨y, hy, e.symm⟩)
      have hd : decide (key b ∉ as.map key) = true := by simpa using hmem
      simp only [List.filter_cons, hd, if_true, List.filter_nil, hmap, List.append_assoc]

end KeyedShape


/-! ## The merge `Add`, field by field -/

theorem eaKey_beq {V : Type} (x y : externalAppReport V) :
    (x.Service == y.Service && x.Hostname == y.Hostname) = decide (eaKey x = eaKey y) := by
  by_cases h₁ : x.Service = y.Service <;> by_cases h₂ : x.Hostname = y.Hostname <;>
    simp [eaKey, h₁, h₂]

section AddFields

variable {V : Type} [Add V]

theorem rrKey_sumInto (x n : requestRateReport V) : rrKey (x.sumInto n) = rrKey x := rfl

theorem eaKey_sumInto (x n : externalAppReport V) : eaKey (x.sumInto n) = eaKey x := rfl

theorem addReqRate_eq (r : litespeedReport V) (rr : requestRateReport V) :
    addReqRate r rr =
      { r with ReqRates := mergeStep rrKey requestRateReport.sumInto r.ReqRates rr } := by
  unfold addReqRate litespeedReport.indexOfReqRate mergeStep
  rw [← firstIndex_updateAt_eq_upsert]
  cases firstIndex (fun x => x.Hostname == rr.Hostname) r.ReqRates <;> rfl

theorem addExtApp_eq (r : litespeedReport V) (ea : externalAppReport V) :
    addExtApp r ea =
      { r with ExtApps := mergeStep eaKey externalAppReport.sumInto r.ExtApps ea } := by
  unfold addExtApp litespeedReport.indexOfExtApp mergeStep
  have hp : (fun x : externalAppReport V => x.Service == ea.Service && x.Hostname == ea.Hostname)
      = (fun x => decide (eaKey x = eaKey ea)) := funext (fun x => eaKey_beq x ea)
  rw [hp]
  rw [← firstIndex_updateAt_eq_upsert]
  cases firstIndex (fun x => decide (eaKey x = eaKey ea)) r.ExtApps <;> rfl

theorem foldl_addReqRate_eq (bs : List (requestRateReport V)) :
    ∀ r : litespeedReport V, bs.foldl addReqRate r =
      { r with ReqRates := bs.foldl (mergeStep rrKey requestRateReport.sumInto) r.ReqRates } := by
  induction bs with
  | nil => intro r; rfl
  | cons b bs ih => intro r; rw [List.foldl_cons, ih, addReqRate_eq]; rfl

theorem foldl_addExtApp_eq (bs : List (externalAppReport V)) :
    ∀ r : litespeedReport V, bs.foldl addExtApp r =
      { r with ExtApps := bs.foldl (mergeStep eaKey externalAppReport.sumInto) r.ExtApps } := by
  induction bs with
  | nil => intro r; rfl
  | cons b bs ih => intro r; rw [List.foldl_cons, ih, addExtApp_eq]; rfl

theorem Add_generalInfo (a b : litespeedReport V) :
    (a.Add b).GeneralInfo =
      { Version := b.GeneralInfo.Version
        Uptime := b.GeneralInfo.Uptime
        KeyValues := sumKeyValues a.GeneralInfo.KeyValues b.GeneralInfo.KeyValues } := by
  unfold litespeedReport.Add
  simp only [foldl_addExtApp_eq, foldl_addReqRate_eq]

theorem Add_reqRates (a b : litespeedReport V) :
    (a.Add b).ReqRates
      = b.ReqRates.foldl (mergeStep rrKey requestRateReport.sumInto) a.ReqRates := by
  unfold litespeedReport.Add
  simp only [foldl_addExtApp_eq, foldl_addReqRate_eq]

theorem Add_extApps (a b : litespeedReport V) :
    (a.Add b).ExtApps
      = b.ExtApps.foldl (mergeStep eaKey externalAppReport.sumInto) a.ExtApps := by
  unfold litespeedReport.Add
  simp only [foldl_addExtApp_eq, foldl_addReqRate_eq]

end AddFields

/-! ## The merge contract -/

theorem optAdd_isSome {V : Type} [Add V] (x y : Option V) :
    (optAdd x y).isSome = (x.isSome || y.isSome) := by
  cases x <;> cases y <;> rfl

theorem mem_sumKeyValues {V : Type} [Add V] (dst src : KeyValues V) (k : String) :
    k ∈ sumKeyValues dst src ↔ k ∈ dst ∨ k ∈ src := by
  simp only [← AList.lookup_isSome, lookup_sumKeyValues, optAdd_isSome, Bool.or_eq_true]

theorem eaFilter_eq {V : Type} (s h : String) (l : List (externalAppReport V)) :
    l.filter (fun x => x.Service == s && x.Hostname == h)
      = l.filter (fun x => decide (eaKey x = (s, h))) := by
  apply List.filter_congr
  intro x _
  by_cases h₁ : x.Service = s <;> by_cases h₂ : x.Hostname = h <;> simp [eaKey, h₁, h₂]

theorem rrNew_eq {V : Type} (as bs : List (requestRateReport V)) :
    bs.filter (fun y => decide (rrKey y ∉ as.map rrKey))
      = bs.filter (fun y => !as.any (fun x => x.Hostname == y.Hostname)) := by
  apply List.filter_congr
  intro y _
  by_cases hmem : rrKey y ∈ as.map rrKey
  · have hany : as.any (fun x => x.Hostname == y.Hostname) = true := by
      obtain ⟨x, hx, hxy⟩ := List.mem_map.mp hmem
      exact List.any_eq_true.mpr ⟨x, hx, by simpa [rrKey] using hxy⟩
    rw [hany]
    simpa using hmem
  · have hany : as.any (fun x => x.Hostname == y.Hostname) = false := by
      rw [Bool.eq_false_iff]
      intro h
      obtain ⟨x, hx, hxy⟩ := List.any_eq_true.mp h
      exact hmem (List.mem_map.mpr ⟨x, hx, by simpa [rrKey] using hxy⟩)
    rw [hany]
    simpa using hmem

theorem hasReqRate_iff {V : Type} (r : litespeedReport V) (h : String) :
    r.hasReqRate h = true ↔ h ∈ r.ReqRates.map rrKey := by
  unfold litespeedReport.hasReqRate
  rw [List.any_eq_true, List.mem_map]
  constructor
  · rintro ⟨x, hx, hxh⟩
    exact ⟨x, hx, by simpa using hxh⟩
  · rintro ⟨x, hx, hxh⟩
    exact ⟨x, hx, by simpa [rrKey] using hxh⟩

/-- C1. After `a.Add(b)` the keys of the general-info values of `a` are the
keys the original `a` had together with those of `b`, and every key holds the
sum of the values it had in `a` and in `b` (the one value, when only one of
them had the key). -/
theorem add_generalInfo_keyValues {V : Type} [Add V] (a b : litespeedReport V) :
    (∀ k, k ∈ (a.Add b).GeneralInfo.KeyValues
        ↔ k ∈ a.GeneralInfo.KeyValues ∨ k ∈ b.GeneralInfo.KeyValues) ∧
    (∀ k, (a.Add b).GeneralInfo.KeyValues.lookup k
        = optAdd (a.GeneralInfo.KeyValues.lookup k) (b.GeneralInfo.KeyValues.lookup k)) := by
  rw [Add_generalInfo]
  exact ⟨fun k => mem_sumKeyValues _ _ k, fun k => lookup_sumKeyValues _ _ k⟩

/-- C2. For reports whose request-rate records are unique by hostname, the
request-rate records after `a.Add(b)` are the records of `a` in their order,
each with the values of the record of `b` of the same hostname summed in key by
key (a sum over the union of the keys), followed by the records of `b` whose
hostname `a` lacks, in the order of `b` and unchanged; a hostname of either
report is a hostname of the result, and no hostname occurs twice. -/
theorem add_reqRates_by_hostname {V : Type} [Add V] (a b : litespeedReport V)
    (ha : (a.ReqRates.map (fun x => x.Hostname)).Nodup)
    (hb : (b.ReqRates.map (fun x => x.Hostname)).Nodup) :
    (a.Add b).ReqRates = mergedReqRates a b ∧
    (∀ (dst src : KeyValues V) (k : String),
      (sumKeyValues dst src).lookup k = optAdd (dst.lookup k) (src.lookup k)) ∧
    (∀ h, (a.Add b).hasReqRate h = (a.hasReqRate h || b.hasReqRate h)) ∧
    ((a.Add b).ReqRates.map (fun x => x.Hostname)).Nodup := by
  have hm : ∀ x n : requestRateReport V, rrKey (x.sumInto n) = rrKey x := fun _ _ => rfl
  refine ⟨?_, fun dst src k => lookup_sumKeyValues dst src k, ?_, ?_⟩
  · rw [Add_reqRates, foldl_mergeStep_eq rrKey requestRateReport.sumInto hm a.ReqRates ha
      b.ReqRates hb, rrNew_eq]
    unfold mergedReqRates
    congr 1
    apply List.map_congr_left
    intro x _
    unfold mergedWith requestRateReport.sumInto
    have hp : (fun y : requestRateReport V => decide (rrKey y = rrKey x))
        = (fun y => y.Hostname == x.Hostname) := rfl
    rw [hp]
    cases List.find? (fun y => y.Hostname == x.Hostname) b.ReqRates <;> rfl
  · intro h
    rw [Bool.eq_iff_iff, Bool.or_eq_true, hasReqRate_iff, hasReqRate_iff, hasReqRate_iff,
      Add_reqRates]
    exact mem_map_key_foldl_mergeStep rrKey requestRateReport.sumInto hm h b.ReqRates a.ReqRates
  · rw [Add_reqRates]
    exact nodup_foldl_mergeStep rrKey requestRateReport.sumInto hm b.ReqRates a.ReqRates ha

/-- C3, as amended. When `a` has exactly one external-app record `x` with
service `s` and hostname `h`, and `b` has exactly one record `y` with that
service and hostname (whatever the two handlers are), then after `a.Add(b)`
there is exactly one record with service `s` and hostname `h`: it has the
handler of `x`, and its values are those of `x` and `y` summed key by key. -/
theorem add_extApps_same_service_hostname {V : Type} [Add V] (a b : litespeedReport V)
    (s h : String) (x y : externalAppReport V)
    (hx : a.ExtApps.filter (fun r => r.Service == s && r.Hostname == h) = [x])
    (hy : b.ExtApps.filter (fun r => r.Service == s && r.Hostname == h) = [y]) :
    (a.Add b).ExtApps.filter (fun r => r.Service == s && r.Hostname == h) = [x.sumInto y] ∧
    (x.sumInto y).Service = s ∧ (x.sumInto y).Hostname = h ∧
    (x.sumInto y).Handler = x.Handler ∧
    (∀ k, (x.sumInto y).KeyValues.lookup k
      = optAdd (x.KeyValues.lookup k) (y.KeyValues.lookup k)) := by
  have hm : ∀ x n : externalAppReport V, eaKey (x.sumInto n) = eaKey x := fun _ _ => rfl
  have hxmem : x ∈ a.ExtApps.filter (fun r => r.Service == s && r.Hostname == h) := by
    rw [hx]; exact List.mem_singleton_self x
  have hxp := (List.mem_filter.mp hxmem).2
  rw [Bool.and_eq_true] at hxp
  refine ⟨?_, by simpa using hxp.1, by simpa using hxp.2, rfl,
    fun k => lookup_sumKeyValues _ _ k⟩
  rw [eaFilter_eq] at hx hy ⊢
  rw [Add_extApps, filter_foldl_mergeStep eaKey externalAppReport.sumInto hm, hx, hy]
  rfl

/-- C5. After `a.Add(b)` the version and the uptime of `a` are those of `b`. -/
theorem add_version_uptime {V : Type} [Add V] (a b : litespeedReport V) :
    (a.Add b).GeneralInfo.Version = b.GeneralInfo.Version ∧
    (a.Add b).GeneralInfo.Uptime = b.GeneralInfo.Uptime := by
  rw [Add_generalInfo]
  exact ⟨rfl, rfl⟩

/-! ## The numbers of a merge, key by key -/

theorem optAdd_comm {V : Type} [Add V] (hcomm : ∀ x y : V, x + y = y + x)
    (x y : Option V) : optAdd x y = optAdd y x := by
  cases x <;> cases y <;> simp [optAdd, hcomm]

theorem optAdd_assoc {V : Type} [Add V] (hassoc : ∀ x y z : V, x + y + z = x + (y + z))
    (x y z : Option V) : optAdd (optAdd x y) z = optAdd x (optAdd y z) := by
  cases x <;> cases y <;> cases z <;> simp [optAdd, hassoc]

theorem optAdd_assoc_of_exact {V : Type} [Add V] (x y z : Option V) (h : ExactSum x y z) :
    optAdd (optAdd x y) z = optAdd x (optAdd y z) := by
  cases x with
  | none => cases y <;> cases z <;> rfl
  | some u =>
    cases y with
    | none => cases z <;> rfl
    | some v =>
      cases z with
      | none => rfl
      | some w =>
        simp only [optAdd]
        rw [h u v w rfl rfl rfl]

theorem isSome_optAdd {V : Type} [Add V] (x y : Option V) :
    (optAdd x y).isSome = (x.isSome || y.isSome) := by
  cases x <;> cases y <;> rfl

theorem head?_filter_eq_find? {α : Type} (p : α → Bool) (l : List α) :
    (l.filter p).head? = l.find? p := by
  induction l with
  | nil => rfl
  | cons x xs ih =>
    by_cases hx : p x
    · simp [List.filter_cons, List.find?_cons, hx]
    · simp [List.filter_cons, List.find?_cons, hx, ih]

section KeyedValues

variable {R K V : Type} [DecidableEq K] [Add V] (key : R → K) (m : R → R → R)
  (kv : R → KeyValues V)

theorem length_filter_key_le_one (κ : K) (l : List R) (h : (l.map key).Nodup) :
    (l.filter (fun x => decide (key x = κ))).length ≤ 1 := by
  induction l with
  | nil => simp
  | cons x xs ih =>
    rw [List.map_cons, List.nodup_cons] at h
    by_cases hx : key x = κ
    · have hnil : xs.filter (fun y => decide (key y = κ)) = [] := by
        rw [List.filter_eq_nil_iff]
        intro y hy hyk
        have : key y = κ := by simpa using hyk
        exact h.1 (List.mem_map.mpr ⟨y, hy, this.trans hx.symm⟩)
      simp [List.filter_cons, hx, hnil]
    · simpa [List.filter_cons, hx] using ih h.2

theorem bucket_fold (hkv : ∀ x n, kv (m x n) = sumKeyValues (kv x) (kv n))
    (l₁ l₂ : List R) (h₁ : l₁.length ≤ 1) (h₂ : l₂.length ≤ 1) :
    ((l₂.foldl (bucketStep m) l₁).isEmpty = (l₁.isEmpty && l₂.isEmpty)) ∧
    ∀ k, headValue kv k (l₂.foldl (bucketStep m) l₁)
      = optAdd (headValue kv k l₁) (headValue kv k l₂) := by
  match l₁, l₂, h₁, h₂ with
  | [], [], _, _ => exact ⟨rfl, fun k => rfl⟩
  | [x], [], _, _ =>
    refine ⟨rfl, fun k => ?_⟩
    simp only [List.foldl_nil, headValue, List.head?_cons, List.head?_nil, Option.some_bind,
      Option.none_bind]
    cases (kv x).lookup k <;> rfl
  | [], [y], _, _ =>
    refine ⟨rfl, fun k => ?_⟩
    simp only [List.foldl_cons, List.foldl_nil, bucketStep, headValue, List.head?_cons,
      List.head?_nil, Option.some_bind, Option.none_bind]
    cases (kv y).lookup k <;> rfl
  | [x], [y], _, _ =>
    refine ⟨rfl, fun k => ?_⟩
    simp only [List.foldl_cons, List.foldl_nil, bucketStep, headValue, List.head?_cons,
      Option.some_bind, hkv, lookup_sumKeyValues]
  | _ :: _ :: _, _, h, _ => simp at h
  | _, _ :: _ :: _, _, h => simp at h

/-- The records of one key after a fold of `mergeStep` over slices without
repeated keys: present when either side has the key, and holding, flag by
flag, the sum of what the two sides hold. -/
theorem keyed_fold_values (hm : ∀ x n, key (m x n) = key x)
    (hkv : ∀ x n, kv (m x n) = sumKeyValues (kv x) (kv n))
    (as bs : List R) (ha : (as.map key).Nodup) (hb : (bs.map key).Nodup) (κ : K) :
    ((bs.foldl (mergeStep key m) as).any (fun x => decide (key x = κ))
        = (as.any (fun x => decide (key x = κ)) || bs.any (fun x => decide (key x = κ)))) ∧
    ∀ k, ((bs.foldl (mergeStep key m) as).find? (fun x => decide (key x = κ))).bind
          (fun x => (kv x).lookup k)
        = optAdd ((as.find? (fun x => decide (key x = κ))).bind (fun x => (kv x).lookup k))
            ((bs.find? (fun x => decide (key x = κ))).bind (fun x => (kv x).lookup k)) := by
  have hany : ∀ l : List R, l.any (fun x => decide (key x = κ))
      = !(l.filter (fun x => decide (key x = κ))).isEmpty := by
    intro l
    induction l with
    | nil => rfl
    | cons x xs ih =>
      by_cases hx : key x = κ
      · simp [List.filter_cons, hx]
      · simp only [List.any_cons, List.filter_cons, hx, decide_False, Bool.false_or, ih,
          Bool.false_eq_true, if_false]
  obtain ⟨he, hv⟩ := bucket_fold m kv hkv _ _
    (length_filter_key_le_one key κ as ha) (length_filter_key_le_one key κ bs hb)
  constructor
  · rw [hany, hany, hany, filter_foldl_mergeStep key m hm, he]
    cases (as.filter (fun x => decide (key x = κ))).isEmpty <;>
      cases (bs.filter (fun x => decide (key x = κ))).isEmpty <;> rfl
  · intro k
    have hfind : ∀ l : List R, (l.find? (fun x => decide (key x = κ))).bind
        (fun x => (kv x).lookup k)
          = headValue kv k (l.filter (fun x => decide (key x = κ))) := by
      intro l
      unfold headValue
      rw [head?_filter_eq_find?]
    rw [hfind, hfind, hfind, filter_foldl_mergeStep key m hm, hv]

end KeyedValues

/-! ## Commutativity and regrouping of the merge -/

theorem eaPred_eq {V : Type} (s h : String) :
    (fun x : externalAppReport V => x.Service == s && x.Hostname == h)
      = (fun x => decide (eaKey x = (s, h))) := by
  funext x
  by_cases h₁ : x.Service = s <;> by_cases h₂ : x.Hostname = h <;> simp [eaKey, h₁, h₂]

theorem rrPred_eq {V : Type} (h : String) :
    (fun x : requestRateReport V => x.Hostname == h) = (fun x => decide (rrKey x = h)) := rfl

/-- The numbers of `a.Add(b)` for reports without repeated keys: the result has
no repeated key either, and every values map is the sum, key by key, of the
values maps of the two sides. -/
theorem add_numbers {V : Type} [Add V] (a b : litespeedReport V) (ha : a.Unique)
    (hb : b.Unique) :
    (a.Add b).Unique ∧
    (∀ k, (a.Add b).GeneralInfo.KeyValues.lookup k
      = optAdd (a.GeneralInfo.KeyValues.lookup k) (b.GeneralInfo.KeyValues.lookup k)) ∧
    (∀ h, (a.Add b).hasReqRate h = (a.hasReqRate h || b.hasReqRate h) ∧
      ∀ k, (a.Add b).reqRateValue h k = optAdd (a.reqRateValue h k) (b.reqRateValue h k)) ∧
    (∀ s h, (a.Add b).hasExtApp s h = (a.hasExtApp s h || b.hasExtApp s h) ∧
      ∀ k, (a.Add b).extAppValue s h k
        = optAdd (a.extAppValue s h k) (b.extAppValue s h k)) := by
  have hmr : ∀ x n : requestRateReport V, rrKey (x.sumInto n) = rrKey x := fun _ _ => rfl
  have hme : ∀ x n : externalAppReport V, eaKey (x.sumInto n) = eaKey x := fun _ _ => rfl
  have hkr : ∀ x n : requestRateReport V,
      (x.sumInto n).KeyValues = sumKeyValues x.KeyValues n.KeyValues := fun _ _ => rfl
  have hke : ∀ x n : externalAppReport V,
      (x.sumInto n).KeyValues = sumKeyValues x.KeyValues n.KeyValues := fun _ _ => rfl
  refine ⟨⟨?_, ?_⟩, fun k => ?_, fun h => ?_, fun s h => ?_⟩
  · rw [Add_reqRates]
    exact nodup_foldl_mergeStep rrKey requestRateReport.sumInto hmr b.ReqRates a.ReqRates ha.1
  · rw [Add_extApps]
    exact nodup_foldl_mergeStep eaKey externalAppReport.sumInto hme b.ExtApps a.ExtApps ha.2
  · rw [Add_generalInfo]
    exact lookup_sumKeyValues _ _ k
  · unfold litespeedReport.hasReqRate litespeedReport.reqRateValue
    rw [Add_reqRates, rrPred_eq]
    exact keyed_fold_values rrKey requestRateReport.sumInto (fun x => x.KeyValues) hmr hkr
      a.ReqRates b.ReqRates ha.1 hb.1 h
  · unfold litespeedReport.hasExtApp litespeedReport.extAppValue
    rw [Add_extApps, eaPred_eq]
    exact keyed_fold_values eaKey externalAppReport.sumInto (fun x => x.KeyValues) hme hke
      a.ExtApps b.ExtApps ha.2 hb.2 (s, h)

/-- C4, as amended. For reports unique by hostname and by (service, hostname),
merging `a` with `b` and merging `b` with `a` give the same general-info
values, the same values for every hostname and the same values for every
(service, hostname) pair, as soon as the addition of the values is commutative
(as binary64 addition is).  Merging (`a` with `b`) with `c` and merging `a` with
(`b` with `c`) give the same hostnames, the same pairs and the same flags in
every values map, whatever the addition is; and they give the same value under
every flag at which the sum of the three values does not depend on its
grouping, which is every flag that one of the three reports lacks and every
flag at which the two sums are exact.  When the addition of the values is
associative the two groupings give the same numbers throughout; rounded
binary64 sums are not associative. -/
theorem add_comm_assoc_numbers {V : Type} [Add V] (hcomm : ∀ x y : V, x + y = y + x)
    (a b c : litespeedReport V) (ha : a.Unique) (hb : b.Unique) (hc : c.Unique) :
    SameNumbers (a.Add b) (b.Add a) ∧
    SameKeys ((a.Add b).Add c) (a.Add (b.Add c)) ∧
    (∀ k, ExactSum (a.GeneralInfo.KeyValues.lookup k) (b.GeneralInfo.KeyValues.lookup k)
        (c.GeneralInfo.KeyValues.lookup k) →
      ((a.Add b).Add c).GeneralInfo.KeyValues.lookup k
        = (a.Add (b.Add c)).GeneralInfo.KeyValues.lookup k) ∧
    (∀ h k, ExactSum (a.reqRateValue h k) (b.reqRateValue h k) (c.reqRateValue h k) →
      ((a.Add b).Add c).reqRateValue h k = (a.Add (b.Add c)).reqRateValue h k) ∧
    (∀ s h k, ExactSum (a.extAppValue s h k) (b.extAppValue s h k) (c.extAppValue s h k) →
      ((a.Add b).Add c).extAppValue s h k = (a.Add (b.Add c)).extAppValue s h k) ∧
    ((∀ x y z : V, x + y + z = x + (y + z)) →
      SameNumbers ((a.Add b).Add c) (a.Add (b.Add c))) := by
  obtain ⟨hab, gab, rab, eab⟩ := add_numbers a b ha hb
  obtain ⟨-, gba, rba, eba⟩ := add_numbers b a hb ha
  obtain ⟨hbc, gbc, rbc, ebc⟩ := add_numbers b c hb hc
  obtain ⟨-, g1, r1, e1⟩ := add_numbers (a.Add b) c hab hc
  obtain ⟨-, g2, r2, e2⟩ := add_numbers a (b.Add c) ha hbc
  refine ⟨?_, ?_, fun k hex => ?_, fun h k hex => ?_, fun s h k hex => ?_, fun hassoc => ?_⟩
  · refine ⟨fun k => ?_, fun h => ⟨?_, fun k => ?_⟩, fun s h => ⟨?_, fun k => ?_⟩⟩
    · rw [gab, gba, optAdd_comm hcomm]
    · rw [(rab h).1, (rba h).1, Bool.or_comm]
    · rw [(rab h).2, (rba h).2, optAdd_comm hcomm]
    · rw [(eab s h).1, (eba s h).1, Bool.or_comm]
    · rw [(eab s h).2, (eba s h).2, optAdd_comm hcomm]
  · refine ⟨fun k => ?_, fun h => ⟨?_, fun k => ?_⟩, fun s h => ⟨?_, fun k => ?_⟩⟩
    · rw [g1, g2, gab, gbc]
      simp only [isSome_optAdd, Bool.or_assoc]
    · rw [(r1 h).1, (r2 h).1, (rab h).1, (rbc h).1, Bool.or_assoc]
    · rw [(r1 h).2, (r2 h).2, (rab h).2, (rbc h).2]
      simp only [isSome_optAdd, Bool.or_assoc]
    · rw [(e1 s h).1, (e2 s h).1, (eab s h).1, (ebc s h).1, Bool.or_assoc]
    · rw [(e1 s h).2, (e2 s h).2, (eab s h).2, (ebc s h).2]
      simp only [isSome_optAdd, Bool.or_assoc]
  · rw [g1, g2, gab, gbc, optAdd_assoc_of_exact _ _ _ hex]
  · rw [(r1 h).2, (r2 h).2, (rab h).2, (rbc h).2, optAdd_assoc_of_exact _ _ _ hex]
  · rw [(e1 s h).2, (e2 s h).2, (eab s h).2, (ebc s h).2, optAdd_assoc_of_exact _ _ _ hex]
  · refine ⟨fun k => ?_, fun h => ⟨?_, fun k => ?_⟩, fun s h => ⟨?_, fun k => ?_⟩⟩
    · rw [g1, g2, gab, gbc, optAdd_assoc hassoc]
    · rw [(r1 h).1, (r2 h).1, (rab h).1, (rbc h).1, Bool.or_assoc]
    · rw [(r1 h).2, (r2 h).2, (rab h).2, (rbc h).2, optAdd_assoc hassoc]
    · rw [(e1 s h).1, (e2 s h).1, (eab s h).1, (ebc s h).1, Bool.or_assoc]
    · rw [(e1 s h).2, (e2 s h).2, (eab s h).2, (ebc s h).2, optAdd_assoc hassoc]

/-! ## The merge on the reports of the unit tests -/

theorem F64.add_comm (x y : F64) : x + y = y + x := by
  show F64.add x y = F64.add y x
  cases x <;> cases y <;> simp only [F64.add]
  · rw [min_comm, Int.add_comm]
  · rename_i s t
    cases s <;> cases t <;> rfl

/-- The sums `TestAddsReportsProperly` asserts for the general info:
`{BPS_IN: 11}` merged with `{BPS_IN: 123, BPS_OUT: 321}` is
`{BPS_IN: 134, BPS_OUT: 321}`, under the version and uptime of `b`. -/
theorem add_test_generalInfo :
    (testReportA.Add testReportB).GeneralInfo.KeyValues.lookup "BPS_IN"
        = some (F64.ofDecimal 134 0) ∧
    (testReportA.Add testReportB).GeneralInfo.KeyValues.lookup "BPS_OUT"
        = some (F64.ofDecimal 321 0) ∧
    (testReportA.Add testReportB).GeneralInfo.KeyValues.keys.length = 2 ∧
    (testReportA.Add testReportB).GeneralInfo.Version = "Test version 2" ∧
    (testReportA.Add testReportB).GeneralInfo.Uptime = "00:20:20" := by
  decide

/-- The records `TestAddsReportsProperly` asserts: two request-rate records,
the first with `22.34` requests per second, and two external-app records. -/
theorem add_test_records :
    (testReportA.Add testReportB).ReqRates.map (fun x => x.Hostname) = ["", "Test 1"] ∧
    (testReportA.Add testReportB).reqRateValue "" "REQ_RATE_REQ_PER_SEC"
        = some (F64.ofDecimal 2234 2) ∧
    (testReportA.Add testReportB).reqRateValue "" "REQ_RATE_TOT_REQS"
        = some (F64.ofDecimal 11 0) ∧
    (testReportA.Add testReportB).ExtApps.map (fun x => (x.Service, x.Hostname, x.Handler))
        = [("Proxy", "", "lsphp.10000"), ("LSAPI", "localhost", "lsphp.10001")] ∧
    (testReportA.Add testReportB).extAppValue "Proxy" "" "EXTAPP_REQ_PER_SEC"
        = some (F64.ofDecimal 78 1) := by
  decide

/-- Witness of C2: the reports of `TestAddsReportsProperly`. -/
theorem add_reqRates_by_hostname_witness :
    (testReportA.ReqRates.map (fun x => x.Hostname)).Nodup ∧
    (testReportB.ReqRates.map (fun x => x.Hostname)).Nodup ∧
    (testReportA.Add testReportB).ReqRates = mergedReqRates testReportA testReportB :=
  ⟨by decide, by decide, (add_reqRates_by_hostname testReportA testReportB (by decide)
    (by decide)).1⟩

/-- Counterexample to C3 as stated: `a` has the record (LSAPI, localhost) under
the handler `lsphp.1`, `b` has it under `lsphp.2`, and after `a.Add(b)` there
are two records with that service and hostname, because `a` held two. -/
theorem add_extApps_two_records :
    twoHandlers.ExtApps.map (fun x => (x.Service, x.Hostname, x.Handler))
      = [("LSAPI", "localhost", "lsphp.1"), ("LSAPI", "localhost", "lsphp.3")] ∧
    otherHandler.ExtApps.map (fun x => (x.Service, x.Hostname, x.Handler))
      = [("LSAPI", "localhost", "lsphp.2")] ∧
    ((twoHandlers.Add otherHandler).ExtApps.filter
        (fun r => r.Service == "LSAPI" && r.Hostname == "localhost")).length = 2 := by
  decide

/-- Witness of C3 as amended: the Proxy records of `TestAddsReportsProperly`. -/
theorem add_extApps_same_service_hostname_witness :
    (testReportA.Add testReportB).ExtApps.filter
        (fun r => r.Service == "Proxy" && r.Hostname == "")
      = [externalAppReport.sumInto
          { Service := "Proxy", Hostname := "", Handler := "lsphp.10000", KeyValues := ∅ }
          { Service := "Proxy", Hostname := "", Handler := "lsphp.10000"
            KeyValues := kvOfList [("EXTAPP_REQ_PER_SEC", F64.ofDecimal 78 1),
              ("EXTAPP_TOT_REQS", F64.ofDecimal 456 0)] }] :=
  (add_extApps_same_service_hostname testReportA testReportB "Proxy" "" _ _ rfl rfl).1

/-- Counterexample to C4 as stated: with `BPS_IN` equal to `2 ^ 53`, `1` and `1`
in three reports without records, merging the first two and then the third
leaves `2 ^ 53` (each `+ 1` is rounded away), merging the first with the merge
of the other two gives `2 ^ 53 + 2`. -/
theorem add_regroup_float64 :
    (bpsInOnly (F64.ofDecimal 9007199254740992 0)).Unique ∧
    (bpsInOnly (F64.ofDecimal 1 0)).Unique ∧
    (((bpsInOnly (F64.ofDecimal 9007199254740992 0)).Add (bpsInOnly (F64.ofDecimal 1 0))).Add
        (bpsInOnly (F64.ofDecimal 1 0))).GeneralInfo.KeyValues.lookup "BPS_IN"
      = some (F64.ofDecimal 9007199254740992 0) ∧
    ((bpsInOnly (F64.ofDecimal 9007199254740992 0)).Add
        ((bpsInOnly (F64.ofDecimal 1 0)).Add (bpsInOnly (F64.ofDecimal 1 0)))
      ).GeneralInfo.KeyValues.lookup "BPS_IN"
      = some (F64.ofDecimal 9007199254740994 0) ∧
    F64.ofDecimal 9007199254740992 0 ≠ F64.ofDecimal 9007199254740994 0 := by
  refine ⟨⟨List.nodup_nil, List.nodup_nil⟩, ⟨List.nodup_nil, List.nodup_nil⟩, ?_, ?_, ?_⟩ <;>
    decide!

/-- Witness of C4 as amended: the reports of `TestAddsReportsProperly` and
`TestSumsMultipleReportsProperly`, whose records are unique.  Merged in the two
orders they hold the same numbers; merged in the two groupings they hold the
same flags, and the same `BPS_IN`, the one flag all three hold: the binary64
sums `(11 + 123) + 6` and `11 + (123 + 6)` are exact. -/
theorem add_comm_assoc_numbers_witness :
    SameNumbers (testReportA.Add testReportB) (testReportB.Add testReportA) ∧
    SameKeys ((testReportA.Add testReportB).Add testReportC)
      (testReportA.Add (testReportB.Add testReportC)) ∧
    ((testReportA.Add testReportB).Add testReportC).GeneralInfo.KeyValues.lookup "BPS_IN"
      = (testReportA.Add (testReportB.Add testReportC)).GeneralInfo.KeyValues.lookup "BPS_IN" :=
  have h := add_comm_assoc_numbers F64.add_comm testReportA testReportB testReportC
    ⟨by decide, by decide⟩ ⟨by decide, by decide⟩ ⟨by decide, by decide⟩
  ⟨h.1, h.2.1, h.2.2.1 "BPS_IN" (fun u v w hu hv hw => by
    have hu' : some (F64.ofDecimal 11 0) = some u := Eq.trans (by decide) hu
    have hv' : some (F64.ofDecimal 123 0) = some v := Eq.trans (by decide) hv
    have hw' : some (F64.ofDecimal 6 0) = some w := Eq.trans (by decide) hw
    cases hu'
    cases hv'
    cases hw'
    decide!)⟩

/-! ## `sumReports` and the order of the fold -/

theorem foldl_Add_version {V : Type} [Add V] (l : List (Sigma fun _ : String => litespeedReport V))
    (e : Sigma fun _ : String => litespeedReport V) (init : litespeedReport V) :
    ((l ++ [e]).foldl (fun acc x => acc.Add x.2) init).GeneralInfo.Version
        = e.2.GeneralInfo.Version ∧
    ((l ++ [e]).foldl (fun acc x => acc.Add x.2) init).GeneralInfo.Uptime
        = e.2.GeneralInfo.Uptime := by
  rw [List.foldl_append, List.foldl_cons, List.foldl_nil, Add_generalInfo]
  exact ⟨rfl, rfl⟩

/-- The version and uptime of `sumReports` are those of the report the `range`
loop visits last. -/
theorem sumReports_version_last {V : Type} [Add V] (reports : Reports V)
    (l : List (Sigma fun _ : String => litespeedReport V))
    (e : Sigma fun _ : String => litespeedReport V) (h : reports.entries = l ++ [e]) :
    (sumReports reports).GeneralInfo.Version = e.2.GeneralInfo.Version ∧
    (sumReports reports).GeneralInfo.Uptime = e.2.GeneralInfo.Uptime := by
  unfold sumReports
  rw [h]
  exact foldl_Add_version l e _

/-- C6 at the mapping of `TestSumsMultipleReportsProperly`.  Visited in
ascending order of the ids, `sumReports` gives what the test asserts: the
version and uptime of `report.3`, the record `Test 1` at index 1 with 300
public cache hits, 140 and 330 for the bandwidth, 8 and 460 for the Proxy
application.  Visited from `report.3` on, the same mapping gives the version
and uptime of `report.2` and the record with hostname `""` at index 1. -/
theorem sumReports_visit_order :
    testReportsAscending.keys = ["report.1", "report.2", "report.3"] ∧
    (sumReports testReportsAscending).GeneralInfo.Version = "Test version 3" ∧
    (sumReports testReportsAscending).GeneralInfo.Uptime = "00:30:30" ∧
    (sumReports testReportsAscending).ReqRates.map (fun x => x.Hostname) = ["", "Test 1"] ∧
    (sumReports testReportsAscending).reqRateValue "Test 1" "REQ_RATE_TOTAL_PUB_CACHE_HITS"
        = some (F64.ofDecimal 300 0) ∧
    (sumReports testReportsAscending).GeneralInfo.KeyValues.lookup "BPS_IN"
        = some (F64.ofDecimal 140 0) ∧
    (sumReports testReportsAscending).GeneralInfo.KeyValues.lookup "BPS_OUT"
        = some (F64.ofDecimal 330 0) ∧
    (sumReports testReportsAscending).extAppValue "Proxy" "" "EXTAPP_REQ_PER_SEC"
        = some (F64.ofDecimal 8 0) ∧
    (sumReports testReportsAscending).extAppValue "Proxy" "" "EXTAPP_TOT_REQS"
        = some (F64.ofDecimal 460 0) ∧
    testReportsFromThird.keys = ["report.3", "report.1", "report.2"] ∧
    (∀ k ∈ ["report.1", "report.2", "report.3"],
      (testReportsFromThird.lookup k).isSome = true ∧
      (testReportsFromThird.lookup k).map (fun r => r.GeneralInfo.Version)
        = (testReportsAscending.lookup k).map (fun r => r.GeneralInfo.Version)) ∧
    (sumReports testReportsFromThird).GeneralInfo.Version = "Test version 2" ∧
    (sumReports testReportsFromThird).GeneralInfo.Uptime = "00:20:20" ∧
    (sumReports testReportsFromThird).ReqRates.map (fun x => x.Hostname) = ["Test 1", ""] := by
  decide!

/-! ## The source scanner: structural failures -/

theorem scrapeLines_panic {V : Type} (u : Helpers V) (c : LitespeedCollector)
    (line : List Char) (hline : ∀ st : ScanState V, scrapeLine u c st line = none) :
    ∀ (lines : List (List Char)), line ∈ lines →
      ∀ st : ScanState V, (scrapeLines u c st lines).1 = none := by
  intro lines
  induction lines with
  | nil => intro h; cases h
  | cons l rest ih =>
    intro hmem st
    unfold scrapeLines
    cases hl : scrapeLine u c st l with
    | none => rfl
    | some st' =>
      have hne : line ≠ l := by
        intro e
        rw [← e, hline st] at hl
        cases hl
      have hrest : line ∈ rest := by
        rcases List.mem_cons.mp hmem with e | e
        · exact absurd e hne
        · exact e
      exact ih hrest st'

theorem scrapeFile_panic {V : Type} (u : Helpers V) (c : LitespeedCollector)
    (fs : String → Option SourceFile) (fileName : String) (file : SourceFile)
    (line : List Char) (hfile : fs fileName = some file)
    (hmem : line ∈ readLines file.content.data)
    (hline : ∀ st : ScanState V, scrapeLine u c st line = none) :
    (scrapeFile u c fs fileName).1 = .error .panicked := by
  have h := scrapeLines_panic u c line hline _ hmem { report := emptyReport V, failures := 0 }
  have hres : scrapeLines u c { report := emptyReport V, failures := 0 }
      (readLines file.content.data)
        = (none, (scrapeLines u c { report := emptyReport V, failures := 0 }
            (readLines file.content.data)).2) := Prod.ext h rfl
  unfold scrapeFile
  simp only [hfile]
  rw [hres]

theorem scrapeLine_reqRate {V : Type} (u : Helpers V) (c : LitespeedCollector)
    (st : ScanState V) (line : List Char) (hid : findIdentifier line = reqRateField.data) :
    scrapeLine u c st line = scrapeReqRate u c st line := by
  have h : String.mk (findIdentifier line) = "REQ_RATE" := by rw [hid]; rfl
  unfold scrapeLine
  simp only [h]
  rfl

theorem scrapeLine_extApp {V : Type} (u : Helpers V) (c : LitespeedCollector)
    (st : ScanState V) (line : List Char) (hid : findIdentifier line = extappField.data) :
    scrapeLine u c st line = scrapeExtApp u c st line := by
  have h : String.mk (findIdentifier line) = "EXTAPP" := by rw [hid]; rfl
  unfold scrapeLine
  simp only [h]
  rfl

theorem scrapeReqRate_no_capture {V : Type} (u : Helpers V) (c : LitespeedCollector)
    (st : ScanState V) (line : List Char) (hcap : bracketCaptures line = []) :
    scrapeReqRate u c st line = none := by
  unfold scrapeReqRate
  rw [hcap]
  cases c.options.ReqRatesByHost with
  | false => rfl
  | true =>
    cases splitOnce ": ".data line with
    | none => rfl
    | some p =>
      cases hm : u.parseKeyValLineToMap (String.mk p.2) with
      | none => simp [hm]
      | some m => simp [hm]

theorem scrapeExtApp_few_captures {V : Type} (u : Helpers V) (c : LitespeedCollector)
    (st : ScanState V) (line : List Char) (hex : c.options.ExcludeExtapp = false)
    (hcap : (bracketCaptures line).length < 3) :
    scrapeExtApp u c st line = none := by
  unfold scrapeExtApp
  rw [hex]
  cases hs : splitOnce ": ".data line with
  | none => rfl
  | some p =>
    cases hm : u.parseKeyValLineToMap (String.mk p.2) with
    | none => simp [hm]
    | some m =>
      have h2 : (bracketCaptures line)[2]? = none := List.getElem?_eq_none (by omega)
      cases h0 : (bracketCaptures line)[0]? with
      | none => simp [hm, h0]
      | some s =>
        cases h1 : (bracketCaptures line)[1]? with
        | none => simp [hm, h0, h1]
        | some h => simp [hm, h0, h1, h2]

theorem scrapeReqRate_empty_capture {V : Type} (u : Helpers V) (c : LitespeedCollector)
    (st : ScanState V) (line pre fields : List Char) (more : List (List Char))
    (m : AList (fun _ : String => String))
    (hcap : bracketCaptures line = [] :: more)
    (hsplit : splitOnce ": ".data line = some (pre, fields))
    (hmap : u.parseKeyValLineToMap (String.mk fields) = some m) :
    scrapeReqRate u c st line
      = some
          { report :=
              { st.report with
                ReqRates := st.report.ReqRates ++
                  [{ Hostname := ""
                     KeyValues :=
                       (scrapeFields u c (fun k => reqRateField ++ "_" ++ k) m ∅
                         st.failures).1 }] }
            failures :=
              (scrapeFields u c (fun k => reqRateField ++ "_" ++ k) m ∅ st.failures).2 } := by
  unfold scrapeReqRate
  rw [hcap, hsplit]
  cases c.options.ReqRatesByHost <;> simp [hmap]

theorem scrapeExtApp_three_captures {V : Type} (u : Helpers V) (c : LitespeedCollector)
    (st : ScanState V) (line pre fields service hostname handler : List Char)
    (more : List (List Char)) (m : AList (fun _ : String => String))
    (hex : c.options.ExcludeExtapp = false)
    (hcap : bracketCaptures line = service :: hostname :: handler :: more)
    (hsplit : splitOnce ": ".data line = some (pre, fields))
    (hmap : u.parseKeyValLineToMap (String.mk fields) = some m) :
    scrapeExtApp u c st line
      = some
          { report :=
              { st.report with
                ExtApps := st.report.ExtApps ++
                  [{ Service := String.mk service
                     Hostname := String.mk hostname
                     Handler := String.mk handler
                     KeyValues :=
                       (scrapeFields u c (fun k => extappField ++ "_" ++ k) m ∅
                         st.failures).1 }] }
            failures :=
              (scrapeFields u c (fun k => extappField ++ "_" ++ k) m ∅ st.failures).2 } := by
  unfold scrapeExtApp
  rw [hcap, hsplit, hex]
  simp [hmap]

/-- C7, as amended. A line whose identifier is `REQ_RATE` and that has no
bracket-delimited capture at all makes `scrapeFile` fail for the source (the
index `matches[1]` panics), under both settings of `ReqRatesByHost` and also
when the line has a `: ` separator and a field list.  The hostname `""` comes
from an empty first capture: such a line, with a `: ` separator, adds a
request-rate record with hostname `""` that holds the tracked fields of the
line. -/
theorem scrapeFile_reqRate_without_brackets {V : Type} (u : Helpers V)
    (c : LitespeedCollector) (fs : String → Option SourceFile) (fileName : String)
    (file : SourceFile) (line : List Char) (hfile : fs fileName = some file)
    (hmem : line ∈ readLines file.content.data)
    (hid : findIdentifier line = reqRateField.data)
    (hcap : bracketCaptures line = []) :
    (scrapeFile u c fs fileName).1 = .error .panicked ∧
    (∀ (st : ScanState V) (l pre fields : List Char) (more : List (List Char))
        (m : AList (fun _ : String => String)),
      findIdentifier l = reqRateField.data →
      bracketCaptures l = [] :: more →
      splitOnce ": ".data l = some (pre, fields) →
      u.parseKeyValLineToMap (String.mk fields) = some m →
      scrapeLine u c st l
        = some
            { report :=
                { st.report with
                  ReqRates := st.report.ReqRates ++
                    [{ Hostname := ""
                       KeyValues :=
                         (scrapeFields u c (fun k => reqRateField ++ "_" ++ k) m ∅
                           st.failures).1 }] }
              failures :=
                (scrapeFields u c (fun k => reqRateField ++ "_" ++ k) m ∅ st.failures).2 }) := by
  constructor
  · apply scrapeFile_panic u c fs fileName file line hfile hmem
    intro st
    rw [scrapeLine_reqRate u c st line hid]
    exact scrapeReqRate_no_capture u c st line hcap
  · intro st l pre fields more m hl hc hs hm
    rw [scrapeLine_reqRate u c st l hl]
    exact scrapeReqRate_empty_capture u c st l pre fields more m hc hs hm

/-- C8, as amended. With `ExcludeExtapp` off, a line whose identifier is
`EXTAPP` and that has fewer than three bracket-delimited captures makes
`scrapeFile` fail for the source.  Captures beyond the third are not an error:
a line with three captures or more and a `: ` separator adds a record whose
service, hostname and handler are the first three captures. -/
theorem scrapeFile_extApp_captures {V : Type} (u : Helpers V) (c : LitespeedCollector)
    (fs : String → Option SourceFile) (fileName : String) (file : SourceFile)
    (line : List Char) (hex : c.options.ExcludeExtapp = false)
    (hfile : fs fileName = some file) (hmem : line ∈ readLines file.content.data)
    (hid : findIdentifier line = extappField.data)
    (hcap : (bracketCaptures line).length < 3) :
    (scrapeFile u c fs fileName).1 = .error .panicked ∧
    (∀ (st : ScanState V) (l pre fields service hostname handler : List Char)
        (more : List (List Char)) (m : AList (fun _ : String => String)),
      findIdentifier l = extappField.data →
      bracketCaptures l = service :: hostname :: handler :: more →
      splitOnce ": ".data l = some (pre, fields) →
      u.parseKeyValLineToMap (String.mk fields) = some m →
      scrapeLine u c st l
        = some
            { report :=
                { st.report with
                  ExtApps := st.report.ExtApps ++
                    [{ Service := String.mk service
                       Hostname := String.mk hostname
                       Handler := String.mk handler
                       KeyValues :=
                         (scrapeFields u c (fun k => extappField ++ "_" ++ k) m ∅
                           st.failures).1 }] }
              failures :=
                (scrapeFields u c (fun k => extappField ++ "_" ++ k) m ∅ st.failures).2 }) := by
  constructor
  · apply scrapeFile_panic u c fs fileName file line hfile hmem
    intro st
    rw [scrapeLine_extApp u c st line hid]
    exact scrapeExtApp_few_captures u c st line hex hcap
  · intro st l pre fields service hostname handler more m hl hc hs hm
    rw [scrapeLine_extApp u c st l hl]
    exact scrapeExtApp_three_captures u c st l pre fields service hostname handler more m hex
      hc hs hm

/-- Counterexample to C7 as stated: the source `REQ_RATE: REQ_PER_SEC: 1`,
newline-terminated, has the identifier, the separator, a field list and no
bracket; `scrapeFile` fails on it under both settings of `ReqRatesByHost`. -/
theorem scrapeFile_reqRate_no_bracket_fails :
    errorOf (scrapeFile specHelpers (sampleCollector false true false)
        (oneFile "f" "REQ_RATE: REQ_PER_SEC: 1\n") "f").1 = some .panicked ∧
    errorOf (scrapeFile specHelpers (sampleCollector true true false)
        (oneFile "f" "REQ_RATE: REQ_PER_SEC: 1\n") "f").1 = some .panicked := by
  decide

/-- Witness of C7 as amended, at the same source. -/
theorem scrapeFile_reqRate_without_brackets_witness :
    (scrapeFile specHelpers (sampleCollector true true false)
        (oneFile "f" "REQ_RATE: REQ_PER_SEC: 1\n") "f").1 = .error .panicked :=
  (scrapeFile_reqRate_without_brackets specHelpers (sampleCollector true true false)
    (oneFile "f" "REQ_RATE: REQ_PER_SEC: 1\n") "f"
    { content := "REQ_RATE: REQ_PER_SEC: 1\n", readFails := false }
    "REQ_RATE: REQ_PER_SEC: 1".data rfl (by decide) (by decide) (by decide)).1

/-- Counterexample to C8 as stated: an `EXTAPP` line with four captures is
scanned without error, the fourth capture being ignored. -/
theorem scrapeFile_extApp_four_captures :
    errorOf (scrapeFile specHelpers (sampleCollector false true false)
        (oneFile "f" "EXTAPP [LSAPI] [example.com] [lsphp] [extra]: TOT_REQS: 1\n") "f").1
      = none ∧
    ((scrapeFile specHelpers (sampleCollector false true false)
        (oneFile "f" "EXTAPP [LSAPI] [example.com] [lsphp] [extra]: TOT_REQS: 1\n") "f"
      ).1.toOption.map
        (fun r => r.ExtApps.map (fun x => (x.Service, x.Hostname, x.Handler, x.KeyValues.keys))))
      = some [("LSAPI", "example.com", "lsphp", ["EXTAPP_TOT_REQS"])] := by
  decide

/-- Witness of C8 as amended: an `EXTAPP` line with two captures. -/
theorem scrapeFile_extApp_captures_witness :
    (scrapeFile specHelpers (sampleCollector false true false)
        (oneFile "f" "EXTAPP [LSAPI] [lsphp]: TOT_REQS: 1\n") "f").1 = .error .panicked :=
  (scrapeFile_extApp_captures specHelpers (sampleCollector false true false)
    (oneFile "f" "EXTAPP [LSAPI] [lsphp]: TOT_REQS: 1\n") "f"
    { content := "EXTAPP [LSAPI] [lsphp]: TOT_REQS: 1\n", readFails := false }
    "EXTAPP [LSAPI] [lsphp]: TOT_REQS: 1".data rfl rfl (by decide) (by decide) (by decide)).1

/-! ## The cycle driver `scrapeReports` -/

theorem scrapeFile_congr {V : Type} (u : Helpers V) (c : LitespeedCollector)
    (fs fs' : String → Option SourceFile) (name : String) (h : fs' name = fs name) :
    scrapeFile u c fs' name = scrapeFile u c fs name := by
  unfold scrapeFile
  rw [h]

theorem lookup_scrape_fold {V : Type} (u : Helpers V) (c : LitespeedCollector)
    (fs : String → Option SourceFile) (name : String) (found : List String) :
    ∀ acc : Reports V × Nat,
      (found.foldl
          (fun acc f =>
            match scrapeFile u c fs f with
            | (.ok report, n) => (acc.1.insert f report, acc.2 + n)
            | (.error _, n) => (acc.1, acc.2 + n))
          acc).1.lookup name
        = if name ∈ found ∧ ((scrapeFile u c fs name).1.toOption).isSome then
            (scrapeFile u c fs name).1.toOption
          else acc.1.lookup name := by
  induction found with
  | nil => intro acc; simp
  | cons f rest ih =>
    intro acc
    rw [List.foldl_cons, ih]
    by_cases hrest : name ∈ rest ∧ ((scrapeFile u c fs name).1.toOption).isSome
    · have hcons : name ∈ f :: rest ∧ ((scrapeFile u c fs name).1.toOption).isSome :=
        ⟨List.mem_cons_of_mem _ hrest.1, hrest.2⟩
      rw [if_pos hrest, if_pos hcons]
    · rw [if_neg hrest]
      by_cases hf : name = f
      · subst hf
        rcases hres : scrapeFile u c fs name with ⟨res, n⟩
        cases res with
        | error e => simp [Except.toOption]
        | ok report => simp [Except.toOption, AList.lookup_insert]
      · have hcons : ¬ (name ∈ f :: rest ∧ ((scrapeFile u c fs name).1.toOption).isSome) := by
          rintro ⟨hm, hs⟩
          rcases List.mem_cons.mp hm with e | e
          · exact hf e
          · exact hrest ⟨e, hs⟩
        rw [if_neg hcons]
        rcases hres : scrapeFile u c fs f with ⟨res, n⟩
        cases res with
        | error e => rfl
        | ok report => simp [AList.lookup_insert_ne hf]

/-- The reports of a cycle that keeps them by core. -/
theorem scrapeReports_lookup {V : Type} [Add V] (u : Helpers V) (c : LitespeedCollector)
    (glob : String → Except String (List String)) (fs : String → Option SourceFile)
    (pattern : String) (found : List String) (hcore : c.options.MetricsByCore = true)
    (hglob : glob pattern = .ok found) :
    ∃ reports : Reports V, (scrapeReports u c glob fs pattern).1 = .ok reports ∧
      ∀ name, reports.lookup name
        = if name ∈ found then (scrapeFile u c fs name).1.toOption else none := by
  unfold scrapeReports
  simp only [hglob, hcore, Bool.not_true, Bool.false_eq_true, if_false]
  refine ⟨_, rfl, fun name => ?_⟩
  rw [lookup_scrape_fold]
  by_cases hmem : name ∈ found
  · cases hres : (scrapeFile u c fs name).1.toOption <;> simp [hmem, hres]
  · simp [hmem]

/-- C9. With `MetricsByCore` on and a list of matched sources, `scrapeReports`
returns no error and a mapping that holds, for every matched source on which
`scrapeFile` succeeds, the report `scrapeFile` gives for that source alone, and
nothing else: a source that fails is absent, and the entry of a source stays
the same when the other sources are replaced by anything. -/
theorem scrapeReports_isolates_sources {V : Type} [Add V] (u : Helpers V)
    (c : LitespeedCollector) (glob : String → Except String (List String))
    (fs : String → Option SourceFile) (pattern : String) (found : List String)
    (hcore : c.options.MetricsByCore = true) (hglob : glob pattern = .ok found) :
    ∃ reports : Reports V, (scrapeReports u c glob fs pattern).1 = .ok reports ∧
      (∀ name, reports.lookup name
        = if name ∈ found then (scrapeFile u c fs name).1.toOption else none) ∧
      (∀ name, name ∈ reports ↔ name ∈ found ∧ errorOf (scrapeFile u c fs name).1 = none) ∧
      (∀ (fs' : String → Option SourceFile) (name : String), fs' name = fs name →
        ∃ reports' : Reports V, (scrapeReports u c glob fs' pattern).1 = .ok reports' ∧
          reports'.lookup name = reports.lookup name) := by
  obtain ⟨reports, hres, hlook⟩ := scrapeReports_lookup u c glob fs pattern found hcore hglob
  refine ⟨reports, hres, hlook, fun name => ?_, fun fs' name hsame => ?_⟩
  · rw [← AList.lookup_isSome, hlook]
    by_cases hmem : name ∈ found
    · rcases (scrapeFile u c fs name).1 with e | r <;> simp [hmem, Except.toOption, errorOf]
    · simp [hmem]
  · obtain ⟨reports', hres', hlook'⟩ :=
      scrapeReports_lookup u c glob fs' pattern found hcore hglob
    exact ⟨reports', hres', by rw [hlook', hlook, scrapeFile_congr u c fs fs' name hsame]⟩

/-- C10, as amended. When the pattern matches no source, `scrapeReports` returns
no error and counts no failure; the mapping is empty when `MetricsByCore` is
on, and holds the one entry `""`, an empty report, when it is off. -/
theorem scrapeReports_no_source {V : Type} [Add V] (u : Helpers V) (c : LitespeedCollector)
    (glob : String → Except String (List String)) (fs : String → Option SourceFile)
    (pattern : String) (hglob : glob pattern = .ok []) :
    scrapeReports u c glob fs pattern
      = (.ok (if c.options.MetricsByCore then (∅ : Reports V)
              else AList.singleton "" (emptyReport V)), 0) := by
  unfold scrapeReports
  simp only [hglob, List.foldl_nil]
  cases c.options.MetricsByCore <;> rfl

/-- Witness of C9: two matched sources, the second of which fails to parse. -/
theorem scrapeReports_isolates_sources_witness :
    ∃ reports : Reports F64,
      (scrapeReports specHelpers (sampleCollector false true false)
        (fun _ => .ok ["core.1", "core.2"])
        (fun f => if f = "core.1" then some { content := "UPTIME: 00:01\n", readFails := false }
          else some { content := "EXTAPP\n", readFails := false })
        "core.*").1 = .ok reports :=
  (scrapeReports_isolates_sources specHelpers (sampleCollector false true false)
    (fun _ => .ok ["core.1", "core.2"])
    (fun f => if f = "core.1" then some { content := "UPTIME: 00:01\n", readFails := false }
      else some { content := "EXTAPP\n", readFails := false })
    "core.*" ["core.1", "core.2"] rfl rfl).imp (fun _ h => h.1)

/-- Counterexample to C10 as stated: with `MetricsByCore` off and no source
matched, the mapping returned is not empty, it has the entry `""`. -/
theorem scrapeReports_no_source_aggregate :
    (scrapeReports specHelpers (sampleCollector false false false) (fun _ => .ok [])
        (fun _ => none) "/tmp/lshttpd/.rtreport*").1.toOption.map AList.keys = some [""] := by
  decide

/-- Witness of C10 as amended: no source matched, `MetricsByCore` on. -/
theorem scrapeReports_no_source_witness :
    scrapeReports specHelpers (sampleCollector false true false) (fun _ => .ok [])
        (fun _ => none) "/tmp/lshttpd/.rtreport*" = (.ok ∅, 0) :=
  scrapeReports_no_source specHelpers (sampleCollector false true false) (fun _ => .ok [])
    (fun _ => none) "/tmp/lshttpd/.rtreport*" rfl

/-! ## The loop over the fields of a line -/

section Fields

variable {V : Type} (u : Helpers V) (c : LitespeedCollector) (flagOf : String → String)

theorem scrapeFields_step (acc : KeyValues V × Nat) (e : Sigma fun _ : String => String) :
    (if !c.metricIsTracked (flagOf e.1) then acc
      else
        match u.parseMetricValue (flagOf e.1) e.2 with
        | (_, some _) => (acc.1, acc.2 + 1)
        | (vf, none) => (acc.1.insert (flagOf e.1) vf, acc.2))
      = (storeField u c flagOf acc.1 e,
          acc.2 + if fieldFails u c (flagOf e.1) e.2 then 1 else 0) := by
  unfold storeField storedValue fieldFails
  cases ht : c.metricIsTracked (flagOf e.1)
  · simp
  · rcases hp : u.parseMetricValue (flagOf e.1) e.2 with ⟨vf, err⟩
    cases err <;> simp

theorem scrapeFields_foldl (l : List (Sigma fun _ : String => String)) :
    ∀ acc : KeyValues V × Nat,
      l.foldl
          (fun acc e =>
            let flag := flagOf e.1
            if !c.metricIsTracked flag then acc
            else
              match u.parseMetricValue flag e.2 with
              | (_, some _) => (acc.1, acc.2 + 1)
              | (vf, none) => (acc.1.insert flag vf, acc.2))
          acc
        = (l.foldl (storeField u c flagOf) acc.1,
            acc.2 + l.countP (fun e => fieldFails u c (flagOf e.1) e.2)) := by
  induction l with
  | nil => intro acc; simp
  | cons e l ih =>
    intro acc
    rw [List.foldl_cons]
    simp only []
    rw [scrapeFields_step u c flagOf acc e, ih]
    simp only [List.foldl_cons, List.countP_cons]
    congr 1
    rw [Nat.add_assoc, Nat.add_comm (List.countP _ l)]

theorem scrapeFields_eq (m : AList (fun _ : String => String)) (kv : KeyValues V) (n : Nat) :
    scrapeFields u c flagOf m kv n
      = (m.entries.foldl (storeField u c flagOf) kv,
          n + m.entries.countP (fun e => fieldFails u c (flagOf e.1) e.2)) := by
  unfold scrapeFields
  exact scrapeFields_foldl u c flagOf m.entries (kv, n)

theorem storedValue_tracked (flag raw : String) (vf : V)
    (h : storedValue u c flag raw = some vf) : c.metricIsTracked flag = true := by
  unfold storedValue at h
  cases ht : c.metricIsTracked flag
  · simp [ht] at h
  · rfl

theorem mem_foldl_storeField (k : String) (l : List (Sigma fun _ : String => String)) :
    ∀ kv : KeyValues V, k ∈ l.foldl (storeField u c flagOf) kv →
      k ∈ kv ∨ (c.metricIsTracked k = true ∧ ∃ e ∈ l, flagOf e.1 = k) := by
  induction l with
  | nil => intro kv h; exact Or.inl h
  | cons e l ih =>
    intro kv h
    rw [List.foldl_cons] at h
    rcases ih _ h with h1 | ⟨ht, e', he', hk⟩
    · unfold storeField at h1
      cases hs : storedValue u c (flagOf e.1) e.2 with
      | none => rw [hs] at h1; exact Or.inl h1
      | some vf =>
        rw [hs] at h1
        rcases (AList.mem_insert kv).mp h1 with h2 | h2
        · right
          refine ⟨?_, e, List.mem_cons_self _ _, h2.symm⟩
          rw [h2]
          exact storedValue_tracked u c _ _ vf hs
        · exact Or.inl h2
    · exact Or.inr ⟨ht, e', List.mem_cons_of_mem _ he', hk⟩

/-- The keys of the values map after the fields of a line: the keys it had, and
tracked flags of the line. -/
theorem mem_scrapeFields (m : AList (fun _ : String => String)) (kv : KeyValues V) (n : Nat)
    (k : String) (h : k ∈ (scrapeFields u c flagOf m kv n).1) :
    k ∈ kv ∨ (c.metricIsTracked k = true ∧ ∃ raw ∈ m.keys, flagOf raw = k) := by
  rw [scrapeFields_eq] at h
  rcases mem_foldl_storeField u c flagOf k m.entries kv h with h1 | ⟨ht, e, he, hk⟩
  · exact Or.inl h1
  · exact Or.inr ⟨ht, e.1, List.mem_keys_of_mem he, hk⟩

theorem lookup_foldl_storeField (hinj : ∀ a b, flagOf a = flagOf b → a = b) (k : String)
    (l : List (Sigma fun _ : String => String)) (hl : l.NodupKeys) :
    ∀ kv : KeyValues V,
      (l.foldl (storeField u c flagOf) kv).lookup (flagOf k)
        = match l.dlookup k with
          | some raw => (storedValue u c (flagOf k) raw).orElse (fun _ => kv.lookup (flagOf k))
          | none => kv.lookup (flagOf k) := by
  induction l with
  | nil => intro kv; rfl
  | cons e l ih =>
    intro kv
    obtain ⟨hk, hnd⟩ := List.nodupKeys_cons.mp hl
    rw [List.foldl_cons, ih hnd]
    obtain ⟨ek, ev⟩ := e
    by_cases h : k = ek
    · subst h
      have hnone : l.dlookup k = none := List.dlookup_eq_none.mpr hk
      rw [hnone, List.dlookup_cons_eq]
      simp only [storeField]
      cases hs : storedValue u c (flagOf k) ev with
      | none => rfl
      | some vf => simp [AList.lookup_insert]
    · rw [List.dlookup_cons_ne l ⟨ek, ev⟩ h]
      have hne : flagOf k ≠ flagOf ek := fun e => h (hinj _ _ e)
      have hsame : (storeField u c flagOf kv ⟨ek, ev⟩).lookup (flagOf k)
          = kv.lookup (flagOf k) := by
        simp only [storeField]
        cases storedValue u c (flagOf ek) ev with
        | none => rfl
        | some vf => exact AList.lookup_insert_ne hne
      rw [hsame]

theorem lookup_foldl_storeField_other (f : String)
    (l : List (Sigma fun _ : String => String)) (hf : ∀ e ∈ l, flagOf e.1 ≠ f) :
    ∀ kv : KeyValues V, (l.foldl (storeField u c flagOf) kv).lookup f = kv.lookup f := by
  induction l with
  | nil => intro kv; rfl
  | cons e l ih =>
    intro kv
    rw [List.foldl_cons, ih (fun e' he' => hf e' (List.mem_cons_of_mem _ he'))]
    simp only [storeField]
    cases storedValue u c (flagOf e.1) e.2 with
    | none => rfl
    | some vf =>
      exact AList.lookup_insert_ne (fun h => hf e (List.mem_cons_self _ _) h.symm)

theorem foldl_storeField_filter (l : List (Sigma fun _ : String => String)) :
    ∀ kv : KeyValues V,
      (l.filter (fun e => !fieldFails u c (flagOf e.1) e.2)).foldl (storeField u c flagOf) kv
        = l.foldl (storeField u c flagOf) kv := by
  induction l with
  | nil => intro kv; rfl
  | cons e l ih =>
    intro kv
    cases hf : fieldFails u c (flagOf e.1) e.2
    · simp only [List.filter_cons, hf, Bool.not_false, if_true, List.foldl_cons, ih]
    · have hnone : storedValue u c (flagOf e.1) e.2 = none := by
        unfold fieldFails at hf
        unfold storedValue
        rw [Bool.and_eq_true] at hf
        rcases hp : u.parseMetricValue (flagOf e.1) e.2 with ⟨vf, err⟩
        rw [hp] at hf
        cases err with
        | none => simp at hf
        | some msg => simp [hf.1]
      simp only [List.filter_cons, hf, Bool.not_true, Bool.false_eq_true, if_false,
        List.foldl_cons, ih, storeField, hnone]

end Fields

/-! ## One line of a source: what `scrapeLine` can do -/

section Lines

variable {V : Type} (u : Helpers V) (c : LitespeedCollector)

theorem scrapeReqRate_keep (st : ScanState V) (line host pre fields : List Char)
    (m : AList (fun _ : String => String))
    (hcap : (bracketCaptures line).head? = some host)
    (hkeep : c.options.ReqRatesByHost = true ∨ host = [])
    (hsplit : splitOnce ": ".data line = some (pre, fields))
    (hmap : u.parseKeyValLineToMap (String.mk fields) = some m) :
    scrapeReqRate u c st line
      = some
          { report :=
              { st.report with
                ReqRates := st.report.ReqRates ++
                  [{ Hostname := String.mk host
                     KeyValues :=
                       (scrapeFields u c (fun k => reqRateField ++ "_" ++ k) m ∅
                         st.failures).1 }] }
            failures :=
              (scrapeFields u c (fun k => reqRateField ++ "_" ++ k) m ∅ st.failures).2 } := by
  rcases hkeep with hr | hh
  · simp [scrapeReqRate, hcap, hr, hsplit, hmap]
  · subst hh
    cases c.options.ReqRatesByHost <;> simp [scrapeReqRate, hcap, hsplit, hmap]

theorem scrapeReqRate_cases (st st' : ScanState V) (line : List Char)
    (h : scrapeReqRate u c st line = some st') :
    (st' = st ∧ c.options.ReqRatesByHost = false ∧
      ∃ host, (bracketCaptures line).head? = some host ∧ host ≠ []) ∨
    (∃ (host pre fields : List Char) (m : AList (fun _ : String => String)),
      (bracketCaptures line).head? = some host ∧
      (c.options.ReqRatesByHost = true ∨ host = []) ∧
      splitOnce ": ".data line = some (pre, fields) ∧
      u.parseKeyValLineToMap (String.mk fields) = some m ∧
      st' =
        { report :=
            { st.report with
              ReqRates := st.report.ReqRates ++
                [{ Hostname := String.mk host
                   KeyValues :=
                     (scrapeFields u c (fun k => reqRateField ++ "_" ++ k) m ∅
                       st.failures).1 }] }
          failures :=
            (scrapeFields u c (fun k => reqRateField ++ "_" ++ k) m ∅ st.failures).2 }) := by
  cases hcap : (bracketCaptures line).head? with
  | none =>
    have hnil : bracketCaptures line = [] := by
      cases hb : bracketCaptures line with
      | nil => rfl
      | cons x xs => rw [hb] at hcap; cases hcap
    rw [scrapeReqRate_no_capture u c st line hnil] at h
    cases h
  | some host =>
    by_cases hskip : c.options.ReqRatesByHost = false ∧ host ≠ []
    · left
      obtain ⟨hr, hne⟩ := hskip
      simp [scrapeReqRate, hcap, hr, hne] at h
      exact ⟨h.symm, hr, host, rfl, hne⟩
    · right
      have hkeep : c.options.ReqRatesByHost = true ∨ host = [] := by
        cases hr : c.options.ReqRatesByHost
        · right
          by_contra hne
          exact hskip ⟨hr, hne⟩
        · exact Or.inl rfl
      cases hs : splitOnce ": ".data line with
      | none =>
        rcases hkeep with hr | hh
        · simp [scrapeReqRate, hcap, hr, hs] at h
        · cases hr : c.options.ReqRatesByHost <;> simp [scrapeReqRate, hcap, hr, hh, hs] at h
      | some p =>
        cases hm : u.parseKeyValLineToMap (String.mk p.2) with
        | none =>
          rcases hkeep with hr | hh
          · simp [scrapeReqRate, hcap, hr, hs, hm] at h
          · cases hr : c.options.ReqRatesByHost <;>
              simp [scrapeReqRate, hcap, hr, hh, hs, hm] at h
        | some m =>
          refine ⟨host, p.1, p.2, m, rfl, hkeep, rfl, hm, ?_⟩
          rw [scrapeReqRate_keep u c st line host p.1 p.2 m hcap hkeep hs hm] at h
          exact (Option.some.inj h).symm

theorem scrapeExtApp_cases (st st' : ScanState V) (line : List Char)
    (h : scrapeExtApp u c st line = some st') :
    (st' = st ∧ c.options.ExcludeExtapp = true) ∨
    (∃ (service hostname handler pre fields : List Char) (more : List (List Char))
        (m : AList (fun _ : String => String)),
      c.options.ExcludeExtapp = false ∧
      bracketCaptures line = service :: hostname :: handler :: more ∧
      splitOnce ": ".data line = some (pre, fields) ∧
      u.parseKeyValLineToMap (String.mk fields) = some m ∧
      st' =
        { report :=
            { st.report with
              ExtApps := st.report.ExtApps ++
                [{ Service := String.mk service
                   Hostname := String.mk hostname
                   Handler := String.mk handler
                   KeyValues :=
                     (scrapeFields u c (fun k => extappField ++ "_" ++ k) m ∅
                       st.failures).1 }] }
          failures :=
            (scrapeFields u c (fun k => extappField ++ "_" ++ k) m ∅ st.failures).2 }) := by
  cases hex : c.options.ExcludeExtapp with
  | true =>
    left
    unfold scrapeExtApp at h
    simp [hex] at h
    exact ⟨h.symm, rfl⟩
  | false =>
    right
    by_cases hlen : (bracketCaptures line).length < 3
    · rw [scrapeExtApp_few_captures u c st line hex hlen] at h
      cases h
    · cases hs : splitOnce ": ".data line with
      | none =>
        unfold scrapeExtApp at h
        simp [hex, hs] at h
      | some p =>
        cases hm : u.parseKeyValLineToMap (String.mk p.2) with
        | none =>
          unfold scrapeExtApp at h
          simp [hex, hs, hm] at h
        | some m =>
          match hc : bracketCaptures line, hlen with
          | service :: hostname :: handler :: more, _ =>
            rw [scrapeExtApp_three_captures u c st line p.1 p.2 service hostname handler more m
              hex hc hs hm] at h
            exact ⟨service, hostname, handler, p.1, p.2, more, m, rfl, rfl, rfl, hm,
              (Option.some.inj h).symm⟩
          | [], hl => simp at hl
          | [_], hl => simp at hl
          | [_, _], hl => simp at hl

theorem scrapeLine_unrecognized (st : ScanState V) (line : List Char)
    (h : isRecognized line = false) : scrapeLine u c st line = some st := by
  unfold isRecognized at h
  simp only [decide_eq_false_iff_not, List.mem_cons, List.mem_singleton, List.not_mem_nil,
    or_false, not_or] at h
  obtain ⟨h1, h2, h3, h4, h5, h6⟩ := h
  unfold scrapeLine
  simp only [h1, h2, h3, h4, h5, h6, or_self, if_false, ite_self]

/-- What one round of the loop does, by the identifier of the line. -/
theorem scrapeLine_cases (st st' : ScanState V) (line : List Char)
    (h : scrapeLine u c st line = some st') :
    (isRecognized line = false ∧ st' = st) ∨
    (String.mk (findIdentifier line) = versionField ∧ ∃ kv,
      st' = { st with report :=
        { st.report with GeneralInfo := { st.report.GeneralInfo with Version := kv } } }) ∨
    (String.mk (findIdentifier line) = uptimeField ∧ ∃ kv,
      st' = { st with report :=
        { st.report with GeneralInfo := { st.report.GeneralInfo with Uptime := kv } } }) ∨
    ((String.mk (findIdentifier line) = bpsInField ∨
        String.mk (findIdentifier line) = maxconnField) ∧
      ∃ m, u.parseKeyValLineToMap (String.mk line) = some m ∧
        st' =
          { report :=
              { st.report with
                GeneralInfo :=
                  { st.report.GeneralInfo with
                    KeyValues :=
                      (scrapeFields u c (fun k => k) m st.report.GeneralInfo.KeyValues
                        st.failures).1 } }
            failures :=
              (scrapeFields u c (fun k => k) m st.report.GeneralInfo.KeyValues
                st.failures).2 }) ∨
    (String.mk (findIdentifier line) = reqRateField ∧ scrapeReqRate u c st line = some st') ∨
    (String.mk (findIdentifier line) = extappField ∧ scrapeExtApp u c st line = some st') := by
  by_cases hrec : isRecognized line = false
  · rw [scrapeLine_unrecognized u c st line hrec] at h
    exact Or.inl ⟨hrec, (Option.some.inj h).symm⟩
  · right
    unfold scrapeLine at h
    simp only [] at h
    split_ifs at h with h0 h1 h2 h3 h4 h5
    · exfalso
      apply hrec
      unfold isRecognized
      rw [h0]
      decide
    · left
      refine ⟨h1, ?_⟩
      cases hp : u.parseKeyValPair (String.mk line) ": " with
      | none => rw [hp] at h; cases h
      | some kv => rw [hp] at h; exact ⟨kv.2, (Option.some.inj h).symm⟩
    · right; left
      refine ⟨h2, ?_⟩
      cases hp : u.parseKeyValPair (String.mk line) ": " with
      | none => rw [hp] at h; cases h
      | some kv => rw [hp] at h; exact ⟨kv.2, (Option.some.inj h).symm⟩
    · right; right; left
      refine ⟨h3, ?_⟩
      cases hp : u.parseKeyValLineToMap (String.mk line) with
      | none => rw [hp] at h; cases h
      | some m => rw [hp] at h; exact ⟨m, rfl, (Option.some.inj h).symm⟩
    · right; right; right; left
      exact ⟨h4, h⟩
    · right; right; right; right
      exact ⟨h5, h⟩
    · exfalso
      apply hrec
      unfold isRecognized
      simp only [decide_eq_false_iff_not, List.mem_cons, List.mem_singleton, List.not_mem_nil,
        or_false, not_or]
      exact ⟨h1, h2, fun e => h3 (Or.inl e), fun e => h3 (Or.inr e), h4, h5⟩

end Lines

/-! ## Lines of a source -/

theorem readLinesAux_line (line : List Char) (hline : '\n' ∉ line) :
    ∀ cur rest : List Char,
      readLinesAux cur (line ++ '\n' :: rest)
        = (cur.reverse ++ line) :: readLinesAux [] rest := by
  induction line with
  | nil => intro cur rest; simp [readLinesAux]
  | cons ch line ih =>
    intro cur rest
    have hc : ch ≠ '\n' := fun e => hline (e ▸ List.mem_cons_self _ _)
    have hrest : '\n' ∉ line := fun h => hline (List.mem_cons_of_mem _ h)
    rw [List.cons_append, readLinesAux, if_neg hc, ih hrest]
    simp

theorem readLinesAux_append (a : List Char) (b : List Char) :
    ∀ cur : List Char,
      readLinesAux cur (a ++ '\n' :: b) = readLinesAux cur (a ++ ['\n']) ++ readLinesAux [] b := by
  induction a with
  | nil => intro cur; simp [readLinesAux]
  | cons ch a ih =>
    intro cur
    by_cases hc : ch = '\n'
    · subst hc
      rw [List.cons_append, List.cons_append, readLinesAux, readLinesAux, if_pos rfl,
        if_pos rfl, ih, List.cons_append]
    · rw [List.cons_append, List.cons_append, readLinesAux, readLinesAux, if_neg hc,
        if_neg hc, ih]

/-- The lines of a text that is empty or ends with a newline, followed by more
text: the lines of the one, then the lines of the other. -/
theorem readLines_append (a b : List Char) (ha : a = [] ∨ a.getLast? = some '\n') :
    readLines (a ++ b) = readLines a ++ readLines b := by
  rcases ha with rfl | ha
  · rfl
  · obtain ⟨a', rfl⟩ : ∃ a', a = a' ++ ['\n'] := by
      rcases List.eq_nil_or_concat a with rfl | ⟨a', ch, rfl⟩
      · simp at ha
      · rw [List.concat_eq_append, List.getLast?_append] at ha
        simp at ha
        exact ⟨a', by rw [List.concat_eq_append, ha]⟩
    unfold readLines
    rw [List.append_assoc, List.singleton_append, readLinesAux_append]

theorem readLines_insert_line (a line b : List Char) (ha : a = [] ∨ a.getLast? = some '\n')
    (hline : '\n' ∉ line) :
    readLines (a ++ line ++ '\n' :: b) = readLines a ++ line :: readLines b := by
  rw [List.append_assoc, readLines_append a _ ha]
  congr 1
  unfold readLines
  rw [readLinesAux_line line hline]
  rfl

section Scan

variable {V : Type} (u : Helpers V) (c : LitespeedCollector)

theorem scrapeLines_skip (line : List Char)
    (hnoop : ∀ st : ScanState V, scrapeLine u c st line = some st) (post : List (List Char)) :
    ∀ (pre : List (List Char)) (st : ScanState V),
      scrapeLines u c st (pre ++ line :: post) = scrapeLines u c st (pre ++ post) := by
  intro pre
  induction pre with
  | nil =>
    intro st
    rw [List.nil_append, List.nil_append]
    conv_lhs => unfold scrapeLines
    rw [hnoop st]
  | cons l pre ih =>
    intro st
    rw [List.cons_append, List.cons_append]
    unfold scrapeLines
    cases scrapeLine u c st l with
    | none => rfl
    | some st' => exact ih st'

theorem scrapeLines_filter (keep : List Char → Bool)
    (hnoop : ∀ line, keep line = false → ∀ st : ScanState V, scrapeLine u c st line = some st) :
    ∀ (lines : List (List Char)) (st : ScanState V),
      scrapeLines u c st (lines.filter keep) = scrapeLines u c st lines := by
  intro lines
  induction lines with
  | nil => intro st; rfl
  | cons l lines ih =>
    intro st
    cases hk : keep l
    · rw [List.filter_cons_of_neg (by simp [hk])]
      conv_rhs => unfold scrapeLines
      rw [hnoop l hk st]
      exact ih st
    · rw [List.filter_cons_of_pos hk]
      unfold scrapeLines
      cases scrapeLine u c st l with
      | none => rfl
      | some st' => exact ih st'

/-- Two sources with the same lines and the same end are scanned alike. -/
theorem scrapeFile_same_lines (fs fs' : String → Option SourceFile) (name : String)
    (file file' : SourceFile) (hfs : fs name = some file) (hfs' : fs' name = some file')
    (hlines : readLines file'.content.data = readLines file.content.data)
    (hend : file'.readFails = file.readFails) :
    scrapeFile u c fs' name = scrapeFile u c fs name := by
  unfold scrapeFile
  simp only [hfs, hfs', hlines, hend]

theorem scrapeFile_skip_line (fs fs' : String → Option SourceFile) (name : String)
    (a line b : List Char) (readFails : Bool)
    (hnoop : ∀ st : ScanState V, scrapeLine u c st line = some st)
    (ha : a = [] ∨ a.getLast? = some '\n') (hline : '\n' ∉ line)
    (hfs : fs name = some { content := String.mk (a ++ b), readFails := readFails })
    (hfs' : fs' name
      = some { content := String.mk (a ++ line ++ '\n' :: b), readFails := readFails }) :
    scrapeFile u c fs' name = scrapeFile u c fs name := by
  unfold scrapeFile
  simp only [hfs, hfs']
  rw [readLines_insert_line a line b ha hline, readLines_append a b ha,
    scrapeLines_skip u c line hnoop]

/-- A property of the state that every round of the loop keeps holds of the
result of the loop. -/
theorem scrapeLines_invariant (P : ScanState V → Prop)
    (hstep : ∀ st st' line, P st → scrapeLine u c st line = some st' → P st') :
    ∀ (lines : List (List Char)) (st : ScanState V) (r : litespeedReport V),
      P st → (scrapeLines u c st lines).1 = some r →
        P { report := r, failures := (scrapeLines u c st lines).2 } := by
  intro lines
  induction lines with
  | nil =>
    intro st r hP h
    simp only [scrapeLines] at h ⊢
    rw [← Option.some.inj h]
    exact hP
  | cons l lines ih =>
    intro st r hP h
    unfold scrapeLines at h ⊢
    cases hl : scrapeLine u c st l with
    | none => rw [hl] at h; cases h
    | some st' =>
      rw [hl] at h
      simp only []
      exact ih st' r (hstep st st' l hP hl) h

theorem scrapeFile_ok (fs : String → Option SourceFile) (name : String)
    (r : litespeedReport V) (h : (scrapeFile u c fs name).1 = .ok r) :
    ∃ file, fs name = some file ∧ file.readFails = false ∧
      (scrapeLines u c { report := emptyReport V, failures := 0 }
        (readLines file.content.data)).1 = some r := by
  unfold scrapeFile at h
  cases hfs : fs name with
  | none => rw [hfs] at h; cases h
  | some file =>
    simp only [hfs] at h
    refine ⟨file, rfl, ?_⟩
    rcases hres : scrapeLines u c { report := emptyReport V, failures := 0 }
        (readLines file.content.data) with ⟨res, n⟩
    rw [hres] at h
    cases res with
    | none => cases h
    | some r' =>
      cases hrf : file.readFails with
      | true => simp [hrf] at h
      | false =>
        simp [hrf] at h
        exact ⟨rfl, congrArg some h⟩

theorem scrapeFile_invariant (P : ScanState V → Prop)
    (hstep : ∀ st st' line, P st → scrapeLine u c st line = some st' → P st')
    (hinit : P { report := emptyReport V, failures := 0 })
    (fs : String → Option SourceFile) (name : String) (r : litespeedReport V)
    (h : (scrapeFile u c fs name).1 = .ok r) :
    ∃ n, P { report := r, failures := n } := by
  obtain ⟨file, -, -, hlines⟩ := scrapeFile_ok u c fs name r h
  exact ⟨_, scrapeLines_invariant u c P hstep _ _ r hinit hlines⟩

end Scan

/-! ## Which flags a report can hold -/

section Keys

variable {V : Type} (u : Helpers V) (c : LitespeedCollector)

theorem scrapeLine_keysSatisfy (G R E : String → Prop)
    (hg : ∀ k, c.metricIsTracked k = true → G k)
    (hr : ∀ k, c.metricIsTracked (reqRateField ++ "_" ++ k) = true →
      R (reqRateField ++ "_" ++ k))
    (he : ∀ k, c.metricIsTracked (extappField ++ "_" ++ k) = true →
      E (extappField ++ "_" ++ k))
    (st st' : ScanState V) (line : List Char) (hinv : st.report.KeysSatisfy G R E)
    (h : scrapeLine u c st line = some st') : st'.report.KeysSatisfy G R E := by
  obtain ⟨hG, hR, hE⟩ := hinv
  rcases scrapeLine_cases u c st st' line h with
    ⟨-, rfl⟩ | ⟨-, kv, rfl⟩ | ⟨-, kv, rfl⟩ | ⟨-, m, -, rfl⟩ | ⟨-, hrr⟩ | ⟨-, hea⟩
  · exact ⟨hG, hR, hE⟩
  · exact ⟨hG, hR, hE⟩
  · exact ⟨hG, hR, hE⟩
  · refine ⟨fun k hk => ?_, hR, hE⟩
    rcases mem_scrapeFields u c (fun k => k) m _ _ k hk with h1 | ⟨ht, -⟩
    · exact hG k h1
    · exact hg k ht
  · rcases scrapeReqRate_cases u c st st' line hrr with
      ⟨rfl, -⟩ | ⟨host, pre, fields, m, -, -, -, -, rfl⟩
    · exact ⟨hG, hR, hE⟩
    · refine ⟨hG, fun rr hmem k hk => ?_, hE⟩
      rcases List.mem_append.mp hmem with h1 | h1
      · exact hR rr h1 k hk
      · rw [List.mem_singleton] at h1
        subst h1
        rcases mem_scrapeFields u c _ m _ _ k hk with h2 | ⟨ht, raw, -, rfl⟩
        · exact absurd h2 (AList.not_mem_empty k)
        · exact hr raw ht
  · rcases scrapeExtApp_cases u c st st' line hea with
      ⟨rfl, -⟩ | ⟨s, hn, hd, pre, fields, more, m, -, -, -, -, rfl⟩
    · exact ⟨hG, hR, hE⟩
    · refine ⟨hG, hR, fun ea hmem k hk => ?_⟩
      rcases List.mem_append.mp hmem with h1 | h1
      · exact hE ea h1 k hk
      · rw [List.mem_singleton] at h1
        subst h1
        rcases mem_scrapeFields u c _ m _ _ k hk with h2 | ⟨ht, raw, -, rfl⟩
        · exact absurd h2 (AList.not_mem_empty k)
        · exact he raw ht

/-- Every flag of a report that `scrapeFile` returns satisfies a property that
all tracked flags of its family satisfy. -/
theorem scrapeFile_keysSatisfy (G R E : String → Prop)
    (hg : ∀ k, c.metricIsTracked k = true → G k)
    (hr : ∀ k, c.metricIsTracked (reqRateField ++ "_" ++ k) = true →
      R (reqRateField ++ "_" ++ k))
    (he : ∀ k, c.metricIsTracked (extappField ++ "_" ++ k) = true →
      E (extappField ++ "_" ++ k))
    (fs : String → Option SourceFile) (name : String) (r : litespeedReport V)
    (h : (scrapeFile u c fs name).1 = .ok r) : r.KeysSatisfy G R E := by
  have hinit : (emptyReport V).KeysSatisfy G R E :=
    ⟨fun k hk => absurd hk (AList.not_mem_empty k), fun rr hrr => absurd hrr (List.not_mem_nil rr),
      fun ea hea => absurd hea (List.not_mem_nil ea)⟩
  obtain ⟨n, hn⟩ := scrapeFile_invariant u c (fun st => st.report.KeysSatisfy G R E)
    (fun st st' line hinv hl => scrapeLine_keysSatisfy u c G R E hg hr he st st' line hinv hl)
    hinit fs name r h
  exact hn

theorem metricIsTracked_false_iff (flag : String) :
    c.metricIsTracked flag = false ↔ flag ∈ c.options.ExcludedMetrics := by
  unfold LitespeedCollector.metricIsTracked
  rw [← AList.lookup_isSome]
  cases (c.options.ExcludedMetrics.lookup flag).isSome <;> simp

theorem scrapeFields_congr (u' : Helpers V)
    (hvalue : ∀ flag raw, c.metricIsTracked flag = true →
      u'.parseMetricValue flag raw = u.parseMetricValue flag raw)
    (flagOf : String → String) (m : AList (fun _ : String => String)) (kv : KeyValues V)
    (n : Nat) : scrapeFields u' c flagOf m kv n = scrapeFields u c flagOf m kv n := by
  have hstored : ∀ flag raw, storedValue u' c flag raw = storedValue u c flag raw := by
    intro flag raw
    unfold storedValue
    cases ht : c.metricIsTracked flag
    · rfl
    · rw [hvalue flag raw ht]
  have hfails : ∀ flag raw, fieldFails u' c flag raw = fieldFails u c flag raw := by
    intro flag raw
    unfold fieldFails
    cases ht : c.metricIsTracked flag
    · rfl
    · rw [hvalue flag raw ht]
  have hstore : storeField u' c flagOf = storeField u c flagOf := by
    funext kv e
    unfold storeField
    rw [hstored]
  rw [scrapeFields_eq, scrapeFields_eq, hstore]
  simp only [hfails]

theorem scrapeLine_congr (u' : Helpers V) (hpair : u'.parseKeyValPair = u.parseKeyValPair)
    (hmap : u'.parseKeyValLineToMap = u.parseKeyValLineToMap)
    (hvalue : ∀ flag raw, c.metricIsTracked flag = true →
      u'.parseMetricValue flag raw = u.parseMetricValue flag raw)
    (st : ScanState V) (line : List Char) :
    scrapeLine u' c st line = scrapeLine u c st line := by
  have hf : ∀ flagOf m kv n, scrapeFields u' c flagOf m kv n = scrapeFields u c flagOf m kv n :=
    scrapeFields_congr u c u' hvalue
  unfold scrapeLine scrapeReqRate scrapeExtApp
  simp only [hpair, hmap, hf]

theorem scrapeLines_congr (u' : Helpers V)
    (hline : ∀ st line, scrapeLine u' c st line = scrapeLine u c st line) :
    ∀ (lines : List (List Char)) (st : ScanState V),
      scrapeLines u' c st lines = scrapeLines u c st lines := by
  intro lines
  induction lines with
  | nil => intro st; rfl
  | cons l lines ih =>
    intro st
    unfold scrapeLines
    rw [hline st l]
    cases scrapeLine u c st l with
    | none => rfl
    | some st' => exact ih st'

/-- C11. No values map of a report that `scrapeFile` returns (general info,
request-rate records, external-app records) holds a flag that is a key of the
exclusion set.  An excluded flag is never handed to `parseMetricValue`: the
result of `scrapeFile`, failure count included, is the same under any other
`parseMetricValue` that agrees with this one on the tracked flags, so an
excluded field whose raw value is not numeric counts no failure.  A flag is
excluded, `metricIsTracked` being false for it, exactly when it is a key of
`ExcludedMetrics`. -/
theorem excluded_flags_never_stored {V : Type} (u : Helpers V) (c : LitespeedCollector)
    (fs : String → Option SourceFile) (name : String) :
    (∀ r : litespeedReport V, (scrapeFile u c fs name).1 = .ok r →
      r.KeysSatisfy (fun k => k ∉ c.options.ExcludedMetrics)
        (fun k => k ∉ c.options.ExcludedMetrics) (fun k => k ∉ c.options.ExcludedMetrics)) ∧
    (∀ u' : Helpers V, u'.parseKeyValPair = u.parseKeyValPair →
      u'.parseKeyValLineToMap = u.parseKeyValLineToMap →
      (∀ flag raw, c.metricIsTracked flag = true →
        u'.parseMetricValue flag raw = u.parseMetricValue flag raw) →
      scrapeFile u' c fs name = scrapeFile u c fs name) ∧
    (∀ flag, c.metricIsTracked flag = false ↔ flag ∈ c.options.ExcludedMetrics) := by
  have htr : ∀ k, c.metricIsTracked k = true → k ∉ c.options.ExcludedMetrics := by
    intro k hk hmem
    rw [(metricIsTracked_false_iff c k).mpr hmem] at hk
    cases hk
  refine ⟨fun r h => ?_, fun u' hpair hmap hvalue => ?_, metricIsTracked_false_iff c⟩
  · exact scrapeFile_keysSatisfy u c _ _ _ htr (fun k => htr _) (fun k => htr _) fs name r h
  · unfold scrapeFile
    cases fs name with
    | none => rfl
    | some file =>
      simp only []
      rw [scrapeLines_congr u c u' (scrapeLine_congr u c u' hpair hmap hvalue)]

end Keys

/-! ## The metrics of a report and the registry -/

theorem collectKeyValues_sent {V : Type} (labelValues : List String) :
    ∀ (l : List (Sigma fun _ : String => V)) (sent : List (Metric V)),
      collectKeyValues labelValues l = some sent →
        ∀ x ∈ sent, ∃ e ∈ l, ∃ info, LitespeedMetrics.lookup e.1 = some info ∧
          x = { desc := info.Desc, valueType := info.ValType, value := e.2,
                labelValues := labelValues } := by
  intro l
  induction l with
  | nil =>
    intro sent h x hx
    simp only [collectKeyValues] at h
    rw [← Option.some.inj h] at hx
    cases hx
  | cons e l ih =>
    intro sent h x hx
    unfold collectKeyValues at h
    cases hlook : LitespeedMetrics.lookup e.1 with
    | none =>
      rw [hlook] at h
      obtain ⟨e', he', info, hinfo, rfl⟩ := ih sent h x hx
      exact ⟨e', List.mem_cons_of_mem _ he', info, hinfo, rfl⟩
    | some info =>
      rw [hlook] at h
      simp only [] at h
      cases hm : (MustNewConstMetric info.Desc info.ValType e.2 labelValues : Option (Metric V)) with
      | none => rw [hm] at h; cases h
      | some first =>
        rw [hm] at h
        cases hrest : collectKeyValues labelValues l with
        | none => rw [hrest] at h; cases h
        | some more =>
          rw [hrest] at h
          simp only [Option.some_bind, Option.map_some'] at h
          rw [← Option.some.inj h] at hx
          rcases List.mem_cons.mp hx with rfl | hx'
          · refine ⟨e, List.mem_cons_self _ _, info, hlook, ?_⟩
            unfold MustNewConstMetric at hm
            split_ifs at hm
            exact (Option.some.inj hm).symm
          · obtain ⟨e', he', info', hinfo', rfl⟩ := ih more hrest x hx'
            exact ⟨e', List.mem_cons_of_mem _ he', info', hinfo', rfl⟩

theorem collectKeyValues_none_in_registry {V : Type} (labelValues : List String) :
    ∀ (l : List (Sigma fun _ : String => V)), (∀ e ∈ l, e.1 ∉ LitespeedMetrics) →
      collectKeyValues labelValues l = some [] := by
  intro l
  induction l with
  | nil => intro _; rfl
  | cons e l ih =>
    intro h
    unfold collectKeyValues
    rw [AList.lookup_eq_none.mpr (h e (List.mem_cons_self _ _))]
    exact ih (fun e' he' => h e' (List.mem_cons_of_mem _ he'))

theorem collectReqRateMetrics_sent {V : Type} (core : String) :
    ∀ (l : List (requestRateReport V)) (sent : List (Metric V)),
      collectReqRateMetrics core l = some sent →
        ∀ x ∈ sent, ∃ rr ∈ l, ∃ flag info, LitespeedMetrics.lookup flag = some info ∧
          rr.KeyValues.lookup flag = some x.value ∧ x.desc = info.Desc ∧
          x.labelValues = [core, rr.Hostname] := by
  intro l
  induction l with
  | nil =>
    intro sent h x hx
    simp only [collectReqRateMetrics] at h
    rw [← Option.some.inj h] at hx
    cases hx
  | cons rr l ih =>
    intro sent h x hx
    unfold collectReqRateMetrics at h
    cases hfirst : collectKeyValues [core, rr.Hostname] rr.KeyValues.entries with
    | none => rw [hfirst] at h; cases h
    | some first =>
      rw [hfirst] at h
      cases hrest : collectReqRateMetrics core l with
      | none => rw [hrest] at h; cases h
      | some more =>
        rw [hrest] at h
        simp only [Option.some_bind, Option.map_some'] at h
        rw [← Option.some.inj h] at hx
        rcases List.mem_append.mp hx with hx' | hx'
        · obtain ⟨e, he, info, hinfo, rfl⟩ := collectKeyValues_sent _ _ first hfirst x hx'
          refine ⟨rr, List.mem_cons_self _ _, e.1, info, hinfo, ?_, rfl, rfl⟩
          exact AList.mem_lookup_iff.mpr (by obtain ⟨k, v⟩ := e; exact he)
        · obtain ⟨rr', hrr', flag, info, h1, h2, h3, h4⟩ := ih more hrest x hx'
          exact ⟨rr', List.mem_cons_of_mem _ hrr', flag, info, h1, h2, h3, h4⟩

theorem collectExtAppMetrics_sent {V : Type} (core : String) :
    ∀ (l : List (externalAppReport V)) (sent : List (Metric V)),
      collectExtAppMetrics core l = some sent →
        ∀ x ∈ sent, ∃ ea ∈ l, ∃ flag info, LitespeedMetrics.lookup flag = some info ∧
          ea.KeyValues.lookup flag = some x.value ∧ x.desc = info.Desc ∧
          x.labelValues = [core, ea.Service, ea.Hostname, ea.Handler] := by
  intro l
  induction l with
  | nil =>
    intro sent h x hx
    simp only [collectExtAppMetrics] at h
    rw [← Option.some.inj h] at hx
    cases hx
  | cons ea l ih =>
    intro sent h x hx
    unfold collectExtAppMetrics at h
    cases hfirst : collectKeyValues [core, ea.Service, ea.Hostname, ea.Handler]
        ea.KeyValues.entries with
    | none => rw [hfirst] at h; cases h
    | some first =>
      rw [hfirst] at h
      cases hrest : collectExtAppMetrics core l with
      | none => rw [hrest] at h; cases h
      | some more =>
        rw [hrest] at h
        simp only [Option.some_bind, Option.map_some'] at h
        rw [← Option.some.inj h] at hx
        rcases List.mem_append.mp hx with hx' | hx'
        · obtain ⟨e, he, info, hinfo, rfl⟩ := collectKeyValues_sent _ _ first hfirst x hx'
          refine ⟨ea, List.mem_cons_self _ _, e.1, info, hinfo, ?_, rfl, rfl⟩
          exact AList.mem_lookup_iff.mpr (by obtain ⟨k, v⟩ := e; exact he)
        · obtain ⟨ea', hea', flag, info, h1, h2, h3, h4⟩ := ih more hrest x hx'
          exact ⟨ea', List.mem_cons_of_mem _ hea', flag, info, h1, h2, h3, h4⟩

theorem collectReqRateMetrics_none_in_registry {V : Type} (core : String) :
    ∀ (l : List (requestRateReport V)), (∀ rr ∈ l, ∀ k ∈ rr.KeyValues, k ∉ LitespeedMetrics) →
      collectReqRateMetrics core l = some [] := by
  intro l
  induction l with
  | nil => intro _; rfl
  | cons rr l ih =>
    intro h
    unfold collectReqRateMetrics
    rw [collectKeyValues_none_in_registry _ _ (fun e he =>
        h rr (List.mem_cons_self _ _) e.1 (List.mem_keys_of_mem he)),
      ih (fun rr' hrr' => h rr' (List.mem_cons_of_mem _ hrr'))]
    rfl

theorem collectExtAppMetrics_none_in_registry {V : Type} (core : String) :
    ∀ (l : List (externalAppReport V)), (∀ ea ∈ l, ∀ k ∈ ea.KeyValues, k ∉ LitespeedMetrics) →
      collectExtAppMetrics core l = some [] := by
  intro l
  induction l with
  | nil => intro _; rfl
  | cons ea l ih =>
    intro h
    unfold collectExtAppMetrics
    rw [collectKeyValues_none_in_registry _ _ (fun e he =>
        h ea (List.mem_cons_self _ _) e.1 (List.mem_keys_of_mem he)),
      ih (fun ea' hea' => h ea' (List.mem_cons_of_mem _ hea'))]
    rfl

/-! ## The registry is consulted when the metrics are sent -/

/-- C12, as amended. `scrapeFile` stores the tracked fields of the recognized
lines without looking them up in the registry, so a values map can hold a flag
that is no key of `LitespeedMetrics`.  The registry decides what is sent: every
metric that `collectGeneralInfoMetrics`, `collectReqRateMetrics` and
`collectExtAppMetrics` send for a report of `scrapeFile` is for a flag that is
a key of `LitespeedMetrics`, with the descriptor of that entry, the value
stored under the flag and the labels of the record.  What is stored is
tracked: every flag of the report passes `metricIsTracked`. -/
theorem registry_decides_what_is_sent {V : Type} (u : Helpers V) (c : LitespeedCollector)
    (fs : String → Option SourceFile) (name core : String) (r : litespeedReport V)
    (hok : (scrapeFile u c fs name).1 = .ok r) :
    r.KeysSatisfy (fun k => c.metricIsTracked k = true) (fun k => c.metricIsTracked k = true)
      (fun k => c.metricIsTracked k = true) ∧
    (∀ sent, collectGeneralInfoMetrics core r.GeneralInfo = some sent → ∀ x ∈ sent,
      ∃ flag info, LitespeedMetrics.lookup flag = some info ∧
        r.GeneralInfo.KeyValues.lookup flag = some x.value ∧ x.desc = info.Desc ∧
        x.labelValues = [core]) ∧
    (∀ sent, collectReqRateMetrics core r.ReqRates = some sent → ∀ x ∈ sent,
      ∃ rr ∈ r.ReqRates, ∃ flag info, LitespeedMetrics.lookup flag = some info ∧
        rr.KeyValues.lookup flag = some x.value ∧ x.desc = info.Desc ∧
        x.labelValues = [core, rr.Hostname]) ∧
    (∀ sent, collectExtAppMetrics core r.ExtApps = some sent → ∀ x ∈ sent,
      ∃ ea ∈ r.ExtApps, ∃ flag info, LitespeedMetrics.lookup flag = some info ∧
        ea.KeyValues.lookup flag = some x.value ∧ x.desc = info.Desc ∧
        x.labelValues = [core, ea.Service, ea.Hostname, ea.Handler]) := by
  refine ⟨scrapeFile_keysSatisfy u c (fun k => c.metricIsTracked k = true)
      (fun k => c.metricIsTracked k = true) (fun k => c.metricIsTracked k = true)
      (fun _ h => h) (fun _ h => h) (fun _ h => h) fs name r hok,
    fun sent h x hx => ?_, collectReqRateMetrics_sent core r.ReqRates,
    collectExtAppMetrics_sent core r.ExtApps⟩
  obtain ⟨e, he, info, hinfo, rfl⟩ := collectKeyValues_sent _ _ sent h x hx
  exact ⟨e.1, info, hinfo, AList.mem_lookup_iff.mpr (by obtain ⟨k, v⟩ := e; exact he), rfl, rfl⟩

/-- Counterexample to C12 as stated: the line `BPS_IN: 1, FOO: 2` leaves the
flag `FOO`, which the registry does not have, in the general-info values. -/
theorem scrapeFile_stores_unknown_flag :
    (scrapeFile specHelpers (sampleCollector false true false)
        (oneFile "f" "BPS_IN: 1, FOO: 2\n") "f").1.toOption.map
      (fun r => r.GeneralInfo.KeyValues.keys) = some ["BPS_IN", "FOO"] ∧
    "FOO" ∉ LitespeedMetrics := by
  decide

/-- Witness of C12 as amended: the sample report, whose general-info metrics
are sent. -/
theorem registry_decides_what_is_sent_witness :
    ∃ r : litespeedReport F64,
      (scrapeFile specHelpers (sampleCollector true true false) (oneFile "f" sampleReport)
        "f").1 = .ok r ∧
      ∀ sent, collectGeneralInfoMetrics "f" r.GeneralInfo = some sent → ∀ x ∈ sent,
        ∃ flag info, LitespeedMetrics.lookup flag = some info ∧
          r.GeneralInfo.KeyValues.lookup flag = some x.value ∧ x.desc = info.Desc ∧
          x.labelValues = ["f"] := by
  have hnone : errorOf (scrapeFile specHelpers (sampleCollector true true false)
      (oneFile "f" sampleReport) "f").1 = none := by decide
  cases h : (scrapeFile specHelpers (sampleCollector true true false)
      (oneFile "f" sampleReport) "f").1 with
  | error e => rw [h] at hnone; cases hnone
  | ok r =>
    exact ⟨r, rfl, (registry_decides_what_is_sent specHelpers
      (sampleCollector true true false) (oneFile "f" sampleReport) "f" "f" r h).2.1⟩

/-- C13, as amended. When the exclusion set has every flag of the registry, no
values map of a report that `scrapeFile` returns holds a flag of the registry,
and the three collect functions send nothing for it.  The values maps need not
be empty: a field whose flag the registry does not have is still stored. -/
theorem all_excluded_nothing_sent {V : Type} (u : Helpers V) (c : LitespeedCollector)
    (fs : String → Option SourceFile) (name : String) (r : litespeedReport V)
    (hall : ∀ flag ∈ LitespeedMetrics.keys, flag ∈ c.options.ExcludedMetrics)
    (hok : (scrapeFile u c fs name).1 = .ok r) :
    r.KeysSatisfy (fun k => k ∉ LitespeedMetrics) (fun k => k ∉ LitespeedMetrics)
      (fun k => k ∉ LitespeedMetrics) ∧
    ∀ core, collectGeneralInfoMetrics core r.GeneralInfo = some [] ∧
      collectReqRateMetrics core r.ReqRates = some [] ∧
      collectExtAppMetrics core r.ExtApps = some [] := by
  have htr : ∀ k, c.metricIsTracked k = true → k ∉ LitespeedMetrics := by
    intro k hk hmem
    rw [(metricIsTracked_false_iff c k).mpr (hall k hmem)] at hk
    cases hk
  have hkeys := scrapeFile_keysSatisfy u c (fun k => k ∉ LitespeedMetrics)
    (fun k => k ∉ LitespeedMetrics) (fun k => k ∉ LitespeedMetrics) htr (fun k => htr _)
    (fun k => htr _) fs name r hok
  refine ⟨hkeys, fun core => ⟨?_, ?_, ?_⟩⟩
  · exact collectKeyValues_none_in_registry _ _
      (fun e he => hkeys.1 e.1 (List.mem_keys_of_mem he))
  · exact collectReqRateMetrics_none_in_registry core _ hkeys.2.1
  · exact collectExtAppMetrics_none_in_registry core _ hkeys.2.2

/-- Counterexample to C13 as stated: with every flag of the registry excluded,
the fields `FOO` and `BAR` of the source are stored all the same. -/
theorem all_excluded_values_not_empty :
    (∀ flag ∈ LitespeedMetrics.keys, flag ∈ excludingAll.options.ExcludedMetrics) ∧
    (scrapeFile specHelpers excludingAll
        (oneFile "f" "BPS_IN: 1, FOO: 2\nREQ_RATE []: TOT_REQS: 1, BAR: 2\n") "f").1.toOption.map
      (fun r => (r.GeneralInfo.KeyValues.keys, r.ReqRates.map (fun x => x.KeyValues.keys)))
      = some (["FOO"], [["REQ_RATE_BAR"]]) := by
  decide

/-- Witness of C13 as amended: the sample report under the exclusion of every
flag of the registry. -/
theorem all_excluded_nothing_sent_witness :
    ∃ r : litespeedReport F64,
      (scrapeFile specHelpers excludingAll (oneFile "f" sampleReport) "f").1 = .ok r ∧
      ∀ core, collectGeneralInfoMetrics core r.GeneralInfo = some [] ∧
        collectReqRateMetrics core r.ReqRates = some [] ∧
        collectExtAppMetrics core r.ExtApps = some [] := by
  have hnone : errorOf (scrapeFile specHelpers excludingAll (oneFile "f" sampleReport)
      "f").1 = none := by decide
  cases h : (scrapeFile specHelpers excludingAll (oneFile "f" sampleReport) "f").1 with
  | error e => rw [h] at hnone; cases hnone
  | ok r =>
    exact ⟨r, rfl, (all_excluded_nothing_sent specHelpers excludingAll
      (oneFile "f" sampleReport) "f" r (by decide) h).2⟩

/-! ## The records of a report, line by line -/

section Records

variable {V : Type} (u : Helpers V) (c : LitespeedCollector)

theorem reqRateHostOf_of_ne (line : List Char)
    (h : String.mk (findIdentifier line) ≠ reqRateField) : reqRateHostOf c line = none := by
  unfold reqRateHostOf
  rw [if_neg h]

theorem extAppKeyOf_of_ne (line : List Char)
    (h : String.mk (findIdentifier line) ≠ extappField) : extAppKeyOf c line = none := by
  unfold extAppKeyOf
  rw [if_neg (fun hh => h hh.1)]

theorem not_recognized_ne (line : List Char) (h : isRecognized line = false) :
    String.mk (findIdentifier line) ≠ reqRateField ∧
    String.mk (findIdentifier line) ≠ extappField := by
  unfold isRecognized at h
  simp only [decide_eq_false_iff_not, List.mem_cons, List.mem_singleton, List.not_mem_nil,
    or_false, not_or] at h
  exact ⟨h.2.2.2.2.1, h.2.2.2.2.2⟩

/-- One round of the loop adds the record of the line, if the line has one, at
the end of its slice, and leaves the hostnames and services before it. -/
theorem scrapeLine_records (st st' : ScanState V) (line : List Char)
    (h : scrapeLine u c st line = some st') :
    st'.report.ReqRates.map (fun x => x.Hostname)
      = st.report.ReqRates.map (fun x => x.Hostname) ++ (reqRateHostOf c line).toList ∧
    st'.report.ExtApps.map (fun x => (x.Service, x.Hostname))
      = st.report.ExtApps.map (fun x => (x.Service, x.Hostname))
        ++ (extAppKeyOf c line).toList := by
  rcases scrapeLine_cases u c st st' line h with
    ⟨hrec, rfl⟩ | ⟨hid, kv, rfl⟩ | ⟨hid, kv, rfl⟩ | ⟨hid, m, -, rfl⟩ | ⟨hid, hrr⟩ | ⟨hid, hea⟩
  · obtain ⟨h1, h2⟩ := not_recognized_ne line hrec
    rw [reqRateHostOf_of_ne c line h1, extAppKeyOf_of_ne c line h2]
    simp
  · rw [reqRateHostOf_of_ne c line (by rw [hid]; decide),
      extAppKeyOf_of_ne c line (by rw [hid]; decide)]
    simp
  · rw [reqRateHostOf_of_ne c line (by rw [hid]; decide),
      extAppKeyOf_of_ne c line (by rw [hid]; decide)]
    simp
  · have hne : String.mk (findIdentifier line) ≠ reqRateField ∧
        String.mk (findIdentifier line) ≠ extappField := by
      rcases hid with hid | hid <;> rw [hid] <;> exact ⟨by decide, by decide⟩
    rw [reqRateHostOf_of_ne c line hne.1, extAppKeyOf_of_ne c line hne.2]
    simp
  · rw [extAppKeyOf_of_ne c line (by rw [hid]; decide)]
    rcases scrapeReqRate_cases u c st st' line hrr with
      ⟨rfl, hoff, host, hcap, hne⟩ | ⟨host, pre, fields, m, hcap, hkeep, -, -, rfl⟩
    · have hnone : reqRateHostOf c line = none := by
        unfold reqRateHostOf
        simp [hid, hcap, hoff, hne]
      rw [hnone]
      simp
    · have hsome : reqRateHostOf c line = some (String.mk host) := by
        unfold reqRateHostOf
        rcases hkeep with hon | hh
        · simp [hid, hcap, hon]
        · simp [hid, hcap, hh]
      rw [hsome]
      simp
  · rw [reqRateHostOf_of_ne c line (by rw [hid]; decide)]
    rcases scrapeExtApp_cases u c st st' line hea with
      ⟨rfl, hon⟩ | ⟨s, hn, hd, pre, fields, more, m, hoff, hcap, -, -, rfl⟩
    · have hnone : extAppKeyOf c line = none := by
        unfold extAppKeyOf
        simp [hon]
      rw [hnone]
      simp
    · have hsome : extAppKeyOf c line = some (String.mk s, String.mk hn) := by
        unfold extAppKeyOf
        simp [hid, hoff, hcap]
      rw [hsome]
      simp

theorem scrapeLines_records :
    ∀ (lines : List (List Char)) (st : ScanState V) (r : litespeedReport V),
      (scrapeLines u c st lines).1 = some r →
        r.ReqRates.map (fun x => x.Hostname)
          = st.report.ReqRates.map (fun x => x.Hostname) ++ lines.filterMap (reqRateHostOf c) ∧
        r.ExtApps.map (fun x => (x.Service, x.Hostname))
          = st.report.ExtApps.map (fun x => (x.Service, x.Hostname))
            ++ lines.filterMap (extAppKeyOf c) := by
  intro lines
  induction lines with
  | nil =>
    intro st r h
    simp only [scrapeLines] at h
    rw [← Option.some.inj h]
    simp
  | cons l lines ih =>
    intro st r h
    unfold scrapeLines at h
    cases hl : scrapeLine u c st l with
    | none => rw [hl] at h; cases h
    | some st' =>
      rw [hl] at h
      obtain ⟨h1, h2⟩ := ih st' r h
      obtain ⟨g1, g2⟩ := scrapeLine_records u c st st' l hl
      rw [h1, h2, g1, g2]
      constructor
      · cases hq : reqRateHostOf c l <;> simp [List.filterMap_cons, hq]
      · cases hq : extAppKeyOf c l <;> simp [List.filterMap_cons, hq]

theorem scrapeLine_reqRate_dropped (hoff : c.options.ReqRatesByHost = false)
    (st : ScanState V) (line host : List Char)
    (hid : findIdentifier line = reqRateField.data)
    (hcap : (bracketCaptures line).head? = some host) (hne : host ≠ []) :
    scrapeLine u c st line = some st := by
  rw [scrapeLine_reqRate u c st line hid]
  simp [scrapeReqRate, hcap, hoff, hne]

theorem scrapeLine_extApp_excluded (hon : c.options.ExcludeExtapp = true)
    (st : ScanState V) (line : List Char) (hid : findIdentifier line = extappField.data) :
    scrapeLine u c st line = some st := by
  rw [scrapeLine_extApp u c st line hid]
  simp [scrapeExtApp, hon]

end Records

/-! ## Records are appended, skipped lines leave no trace -/

/-- C14, as amended. `scrapeFile` never looks a record up before it appends:
every `REQ_RATE` line that is kept adds one record and every `EXTAPP` line that
is parsed adds one record, in the order of the lines.  The hostnames of the
request-rate records are the kept hostnames of the lines, and the (service,
hostname) pairs of the external-app records are those of the lines: a report
has no two records with the same key exactly when the lines of the source have
none. -/
theorem scrapeFile_appends_one_record_per_line {V : Type} (u : Helpers V)
    (c : LitespeedCollector) (fs : String → Option SourceFile) (name : String)
    (file : SourceFile) (r : litespeedReport V) (hfs : fs name = some file)
    (hok : (scrapeFile u c fs name).1 = .ok r) :
    r.ReqRates.map (fun x => x.Hostname)
      = (readLines file.content.data).filterMap (reqRateHostOf c) ∧
    r.ExtApps.map (fun x => (x.Service, x.Hostname))
      = (readLines file.content.data).filterMap (extAppKeyOf c) ∧
    ((r.ReqRates.map (fun x => x.Hostname)).Nodup
      ↔ ((readLines file.content.data).filterMap (reqRateHostOf c)).Nodup) ∧
    ((r.ExtApps.map (fun x => (x.Service, x.Hostname))).Nodup
      ↔ ((readLines file.content.data).filterMap (extAppKeyOf c)).Nodup) := by
  obtain ⟨file', hfs', -, hlines⟩ := scrapeFile_ok u c fs name r hok
  rw [hfs] at hfs'
  obtain rfl := Option.some.inj hfs'
  obtain ⟨h1, h2⟩ := scrapeLines_records u c _ _ r hlines
  have g1 : r.ReqRates.map (fun x => x.Hostname)
      = (readLines file.content.data).filterMap (reqRateHostOf c) := by
    rw [h1]; rfl
  have g2 : r.ExtApps.map (fun x => (x.Service, x.Hostname))
      = (readLines file.content.data).filterMap (extAppKeyOf c) := by
    rw [h2]; rfl
  exact ⟨g1, g2, by rw [g1], by rw [g2]⟩

/-- Counterexample to C14 as stated: two `REQ_RATE []` lines in one source give
two records with the hostname `""`, each with the fields of its own line. -/
theorem scrapeFile_repeats_hostname :
    (scrapeFile specHelpers (sampleCollector false true false)
        (oneFile "f" "REQ_RATE []: TOT_REQS: 1\nREQ_RATE []: REQ_PER_SEC: 2\n") "f"
      ).1.toOption.map (fun r => r.ReqRates.map (fun x => (x.Hostname, x.KeyValues.keys)))
      = some [("", ["REQ_RATE_TOT_REQS"]), ("", ["REQ_RATE_REQ_PER_SEC"])] := by
  decide

/-- Witness of C14 as amended: the sample report, by host. -/
theorem scrapeFile_appends_one_record_per_line_witness :
    ∃ r : litespeedReport F64,
      (scrapeFile specHelpers (sampleCollector true true false) (oneFile "f" sampleReport)
        "f").1 = .ok r ∧
      r.ReqRates.map (fun x => x.Hostname)
        = (readLines sampleReport.data).filterMap
            (reqRateHostOf (sampleCollector true true false)) := by
  have hnone : errorOf (scrapeFile specHelpers (sampleCollector true true false)
      (oneFile "f" sampleReport) "f").1 = none := by decide
  cases h : (scrapeFile specHelpers (sampleCollector true true false)
      (oneFile "f" sampleReport) "f").1 with
  | error e => rw [h] at hnone; cases hnone
  | ok r =>
    exact ⟨r, rfl, (scrapeFile_appends_one_record_per_line specHelpers
      (sampleCollector true true false) (oneFile "f" sampleReport) "f"
      { content := sampleReport, readFails := false } r rfl h).1⟩

/-- C15. With `ReqRatesByHost` off, every request-rate record of a report that
`scrapeFile` returns has the hostname `""`.  A `REQ_RATE` line whose first
capture is not empty is a round of the loop that changes nothing, neither the
report nor the failure count: the result of `scrapeFile` is the same with the
line and without it. -/
theorem reqRates_without_hosts {V : Type} (u : Helpers V) (c : LitespeedCollector)
    (fs : String → Option SourceFile) (name : String)
    (hoff : c.options.ReqRatesByHost = false) :
    (∀ r : litespeedReport V, (scrapeFile u c fs name).1 = .ok r →
      ∀ rr ∈ r.ReqRates, rr.Hostname = "") ∧
    (∀ (st : ScanState V) (line host : List Char),
      findIdentifier line = reqRateField.data →
      (bracketCaptures line).head? = some host → host ≠ [] →
      scrapeLine u c st line = some st) ∧
    (∀ (fs' : String → Option SourceFile) (a line b host : List Char) (readFails : Bool),
      findIdentifier line = reqRateField.data →
      (bracketCaptures line).head? = some host → host ≠ [] →
      (a = [] ∨ a.getLast? = some '\n') → '\n' ∉ line →
      fs name = some { content := String.mk (a ++ b), readFails := readFails } →
      fs' name
        = some { content := String.mk (a ++ line ++ '\n' :: b), readFails := readFails } →
      (scrapeFile u c fs' name : Except ScrapeError (litespeedReport V) × Nat)
        = scrapeFile u c fs name) := by
  refine ⟨fun r hok rr hrr => ?_, fun st line host hid hcap hne =>
      scrapeLine_reqRate_dropped u c hoff st line host hid hcap hne,
    fun fs' a line b host readFails hid hcap hne ha hline hfs hfs' =>
      scrapeFile_skip_line u c fs fs' name a line b readFails
        (fun st => scrapeLine_reqRate_dropped u c hoff st line host hid hcap hne)
        ha hline hfs hfs'⟩
  obtain ⟨file, hfs, -, hlines⟩ := scrapeFile_ok u c fs name r hok
  obtain ⟨h1, -⟩ := scrapeLines_records u c _ _ r hlines
  have hmem : rr.Hostname ∈ r.ReqRates.map (fun x => x.Hostname) :=
    List.mem_map_of_mem _ hrr
  rw [h1] at hmem
  simp only [emptyReport, List.map_nil, List.nil_append, List.mem_filterMap] at hmem
  obtain ⟨line, -, hline⟩ := hmem
  unfold reqRateHostOf at hline
  split_ifs at hline with hid
  cases hcap : (bracketCaptures line).head? with
  | none => rw [hcap] at hline; cases hline
  | some host =>
    rw [hcap] at hline
    simp only [hoff, Bool.false_or] at hline
    split_ifs at hline with hh
    have hnil : host = [] := by simpa using hh
    rw [← Option.some.inj hline, hnil]

/-- Witness of C15: with `ReqRatesByHost` off the line of `example.com` changes
nothing. -/
theorem reqRates_without_hosts_witness :
    scrapeLine specHelpers (sampleCollector false true false)
        { report := emptyReport F64, failures := 0 }
        "REQ_RATE [example.com]: REQ_PER_SEC: x".data
      = some { report := emptyReport F64, failures := 0 } :=
  (reqRates_without_hosts specHelpers (sampleCollector false true false) (fun _ => none) "f"
    rfl).2.1 _ _ "example.com".data (by decide) (by decide) (by decide)

/-- C16. With `ExcludeExtapp` on, an `EXTAPP` line is a round of the loop that
changes nothing and cannot panic, whatever the line holds: the result of
`scrapeFile` (report, error, failure count) on a source is its result on the
source without its `EXTAPP` lines, and a report it returns has no external-app
record. -/
theorem extapp_lines_skipped {V : Type} (u : Helpers V) (c : LitespeedCollector)
    (fs : String → Option SourceFile) (name : String)
    (hon : c.options.ExcludeExtapp = true) :
    (∀ (st : ScanState V) (line : List Char), findIdentifier line = extappField.data →
      scrapeLine u c st line = some st) ∧
    (∀ (fs' : String → Option SourceFile) (file file' : SourceFile),
      fs name = some file → fs' name = some file' →
      readLines file'.content.data
        = (readLines file.content.data).filter
            (fun line => decide (findIdentifier line ≠ extappField.data)) →
      file'.readFails = file.readFails →
      (scrapeFile u c fs' name : Except ScrapeError (litespeedReport V) × Nat)
        = scrapeFile u c fs name) ∧
    (∀ r : litespeedReport V, (scrapeFile u c fs name).1 = .ok r → r.ExtApps = []) := by
  refine ⟨fun st line hid => scrapeLine_extApp_excluded u c hon st line hid,
    fun fs' file file' hfs hfs' hlines hend => ?_, fun r hok => ?_⟩
  · unfold scrapeFile
    simp only [hfs, hfs', hlines, hend]
    rw [scrapeLines_filter u c (fun line => decide (findIdentifier line ≠ extappField.data))
      (fun line hk st => scrapeLine_extApp_excluded u c hon st line (by simpa using hk))]
  · obtain ⟨file, hfs, -, hlines⟩ := scrapeFile_ok u c fs name r hok
    obtain ⟨-, h2⟩ := scrapeLines_records u c _ _ r hlines
    have hnone : ∀ line, extAppKeyOf c line = none := by
      intro line
      unfold extAppKeyOf
      simp [hon]
    have hnil : (readLines file.content.data).filterMap (extAppKeyOf c) = [] := by
      rw [List.filterMap_eq_nil_iff]
      exact fun line _ => hnone line
    rw [hnil] at h2
    simpa [emptyReport] using h2

/-- Witness of C16: a malformed `EXTAPP` line under `ExcludeExtapp`. -/
theorem extapp_lines_skipped_witness :
    scrapeLine specHelpers (sampleCollector false true true)
        { report := emptyReport F64, failures := 0 } "EXTAPP [LSAPI]".data
      = some { report := emptyReport F64, failures := 0 } :=
  (extapp_lines_skipped specHelpers (sampleCollector false true true) (fun _ => none) "f"
    rfl).1 _ _ (by decide)

/-- C20. A line whose leading word token is none of the six identifiers the
switch knows is a round of the loop that changes nothing: put between two lines
of a source, before the first or after the last, or taken away, it leaves the
result of `scrapeFile` (report, error, failure count) as it was. -/
theorem unrecognized_line_ignored {V : Type} (u : Helpers V) (c : LitespeedCollector)
    (fs fs' : String → Option SourceFile) (name : String) (a line b : List Char)
    (readFails : Bool) (hid : isRecognized line = false)
    (ha : a = [] ∨ a.getLast? = some '\n') (hline : '\n' ∉ line)
    (hfs : fs name = some { content := String.mk (a ++ b), readFails := readFails })
    (hfs' : fs' name
      = some { content := String.mk (a ++ line ++ '\n' :: b), readFails := readFails }) :
    (scrapeFile u c fs' name : Except ScrapeError (litespeedReport V) × Nat)
      = scrapeFile u c fs name :=
  scrapeFile_skip_line u c fs fs' name a line b readFails
    (fun st => scrapeLine_unrecognized u c st line hid) ha hline hfs hfs'

/-- Witness of C20: the line `BLOCKED_IP: ` between two lines of a source. -/
theorem unrecognized_line_ignored_witness :
    scrapeFile specHelpers (sampleCollector true true false)
        (oneFile "f" "UPTIME: 00:01\nBLOCKED_IP: \nBPS_IN: 1\n") "f"
      = scrapeFile specHelpers (sampleCollector true true false)
          (oneFile "f" "UPTIME: 00:01\nBPS_IN: 1\n") "f" :=
  unrecognized_line_ignored specHelpers (sampleCollector true true false)
    (oneFile "f" "UPTIME: 00:01\nBPS_IN: 1\n")
    (oneFile "f" "UPTIME: 00:01\nBLOCKED_IP: \nBPS_IN: 1\n") "f"
    "UPTIME: 00:01\n".data "BLOCKED_IP: ".data "BPS_IN: 1\n".data false
    (by decide) (by decide) (by decide) rfl rfl

/-! ## Field failures, source failures -/

theorem scrapeLine_general {V : Type} (u : Helpers V) (c : LitespeedCollector)
    (st : ScanState V) (line : List Char) (m : AList (fun _ : String => String))
    (hid : String.mk (findIdentifier line) = bpsInField ∨
      String.mk (findIdentifier line) = maxconnField)
    (hmap : u.parseKeyValLineToMap (String.mk line) = some m) :
    scrapeLine u c st line
      = some
          { report :=
              { st.report with
                GeneralInfo :=
                  { st.report.GeneralInfo with
                    KeyValues :=
                      (scrapeFields u c (fun k => k) m st.report.GeneralInfo.KeyValues
                        st.failures).1 } }
            failures :=
              (scrapeFields u c (fun k => k) m st.report.GeneralInfo.KeyValues
                st.failures).2 } := by
  unfold scrapeLine
  rcases hid with hid | hid <;> simp only [hid, hmap] <;> rfl

/-- C17. A value that does not parse costs its field only.  In the loop over
the fields of a line, a field is stored under its flag with its parsed value
when the flag is tracked and the raw value parses, and leaves the values map
as it was otherwise; flags the line does not name are untouched; the failure
count grows by one for every tracked field whose raw value does not parse; and
the values map is the one the line would give without its failing fields.  No
field value makes a line fail: a general line whose fields split, a `REQ_RATE`
line that is kept and an `EXTAPP` line with three captures all give the next
state, whatever `parseMetricValue` returns. -/
theorem coercion_failure_is_field_granular {V : Type} (u : Helpers V)
    (c : LitespeedCollector) :
    (∀ (flagOf : String → String), (∀ a b, flagOf a = flagOf b → a = b) →
      ∀ (m : AList (fun _ : String => String)) (kv : KeyValues V) (n : Nat),
        (∀ k raw, m.lookup k = some raw →
          (scrapeFields u c flagOf m kv n).1.lookup (flagOf k)
            = (storedValue u c (flagOf k) raw).orElse (fun _ => kv.lookup (flagOf k))) ∧
        (∀ f, (∀ k ∈ m.keys, flagOf k ≠ f) →
          (scrapeFields u c flagOf m kv n).1.lookup f = kv.lookup f) ∧
        (scrapeFields u c flagOf m kv n).2
          = n + m.entries.countP (fun e => fieldFails u c (flagOf e.1) e.2) ∧
        (scrapeFields u c flagOf
            (filterFields (fun k raw => !fieldFails u c (flagOf k) raw) m) kv n).1
          = (scrapeFields u c flagOf m kv n).1) ∧
    (∀ (st : ScanState V) (line : List Char) (m : AList (fun _ : String => String)),
      (String.mk (findIdentifier line) = bpsInField ∨
        String.mk (findIdentifier line) = maxconnField) →
      u.parseKeyValLineToMap (String.mk line) = some m →
      scrapeLine u c st line
        = some
            { report :=
                { st.report with
                  GeneralInfo :=
                    { st.report.GeneralInfo with
                      KeyValues :=
                        (scrapeFields u c (fun k => k) m st.report.GeneralInfo.KeyValues
                          st.failures).1 } }
              failures :=
                (scrapeFields u c (fun k => k) m st.report.GeneralInfo.KeyValues
                  st.failures).2 }) ∧
    (∀ (st : ScanState V) (line host pre fields : List Char)
        (m : AList (fun _ : String => String)),
      findIdentifier line = reqRateField.data →
      (bracketCaptures line).head? = some host →
      (c.options.ReqRatesByHost = true ∨ host = []) →
      splitOnce ": ".data line = some (pre, fields) →
      u.parseKeyValLineToMap (String.mk fields) = some m →
      scrapeLine u c st line
        = some
            { report :=
                { st.report with
                  ReqRates := st.report.ReqRates ++
                    [{ Hostname := String.mk host
                       KeyValues :=
                         (scrapeFields u c (fun k => reqRateField ++ "_" ++ k) m ∅
                           st.failures).1 }] }
              failures :=
                (scrapeFields u c (fun k => reqRateField ++ "_" ++ k) m ∅ st.failures).2 }) ∧
    (∀ (st : ScanState V) (line pre fields service hostname handler : List Char)
        (more : List (List Char)) (m : AList (fun _ : String => String)),
      c.options.ExcludeExtapp = false →
      findIdentifier line = extappField.data →
      bracketCaptures line = service :: hostname :: handler :: more →
      splitOnce ": ".data line = some (pre, fields) →
      u.parseKeyValLineToMap (String.mk fields) = some m →
      scrapeLine u c st line
        = some
            { report :=
                { st.report with
                  ExtApps := st.report.ExtApps ++
                    [{ Service := String.mk service
                       Hostname := String.mk hostname
                       Handler := String.mk handler
                       KeyValues :=
                         (scrapeFields u c (fun k => extappField ++ "_" ++ k) m ∅
                           st.failures).1 }] }
              failures :=
                (scrapeFields u c (fun k => extappField ++ "_" ++ k) m ∅ st.failures).2 }) := by
  refine ⟨fun flagOf hinj m kv n => ⟨fun k raw hk => ?_, fun f hf => ?_, ?_, ?_⟩,
    fun st line m hid hmap => scrapeLine_general u c st line m hid hmap,
    fun st line host pre fields m hid hcap hkeep hs hm => ?_,
    fun st line pre fields service hostname handler more m hex hid hcap hs hm => ?_⟩
  · rw [scrapeFields_eq, lookup_foldl_storeField u c flagOf hinj k m.entries m.nodupKeys]
    have hd : m.entries.dlookup k = some raw := hk
    rw [hd]
  · rw [scrapeFields_eq]
    exact lookup_foldl_storeField_other u c flagOf f m.entries
      (fun e he => hf e.1 (List.mem_keys_of_mem he)) kv
  · rw [scrapeFields_eq]
  · rw [scrapeFields_eq, scrapeFields_eq]
    exact foldl_storeField_filter u c flagOf m.entries kv
  · rw [scrapeLine_reqRate u c st line hid]
    exact scrapeReqRate_keep u c st line host pre fields m hcap hkeep hs hm
  · rw [scrapeLine_extApp u c st line hid]
    exact scrapeExtApp_three_captures u c st line pre fields service hostname handler more m
      hex hcap hs hm

/-- The sample report has one field that does not parse, `TOT_REQS: x` of the
host `example.com`: by host the scan succeeds, counts one failure and stores
the other two fields of the line; with `ReqRatesByHost` off the line is
dropped and nothing is counted. -/
theorem scrapeFile_sample_failures :
    errorOf (scrapeFile specHelpers (sampleCollector true true false)
      (oneFile "f" sampleReport) "f").1 = none ∧
    (scrapeFile specHelpers (sampleCollector true true false)
      (oneFile "f" sampleReport) "f").2 = 1 ∧
    (scrapeFile specHelpers (sampleCollector true true false)
        (oneFile "f" sampleReport) "f").1.toOption.map
      (fun r => r.ReqRates.map (fun x => (x.Hostname, x.KeyValues.keys.length,
        decide ("REQ_RATE_TOT_REQS" ∈ x.KeyValues))))
      = some [("", 3, true), ("example.com", 2, false)] ∧
    (scrapeFile specHelpers (sampleCollector false true false)
      (oneFile "f" sampleReport) "f").2 = 0 := by
  decide

/-- The failure count of a cycle is the sum of the failure counts of the
scans: a scan that fails adds what its fields had counted before, and nothing
for the failure itself. -/
theorem scrapeReports_failures {V : Type} [Add V] (u : Helpers V) (c : LitespeedCollector)
    (glob : String → Except String (List String)) (fs : String → Option SourceFile)
    (pattern : String) (found : List String) (hglob : glob pattern = .ok found) :
    (scrapeReports u c glob fs pattern).2
      = (found.map (fun name => (scrapeFile u c fs name).2)).sum := by
  have hfold : ∀ (l : List String) (acc : Reports V × Nat),
      (l.foldl
          (fun acc f =>
            match scrapeFile u c fs f with
            | (.ok report, n) => (acc.1.insert f report, acc.2 + n)
            | (.error _, n) => (acc.1, acc.2 + n))
          acc).2 = acc.2 + (l.map (fun name => (scrapeFile u c fs name).2)).sum := by
    intro l
    induction l with
    | nil => intro acc; simp
    | cons f l ih =>
      intro acc
      rw [List.foldl_cons, ih, List.map_cons, List.sum_cons]
      rcases hres : scrapeFile u c fs f with ⟨res, n⟩
      cases res <;> simp [Nat.add_assoc]

  unfold scrapeReports
  simp only [hglob]
  cases c.options.MetricsByCore <;> simp [hfold]

/-- C18 at a cycle of two sources, the second of which is an `EXTAPP` line
without captures: its scan fails, the mapping holds the first source only, and
the failure count of the cycle is zero. -/
theorem scrapeReports_failed_source_not_counted :
    errorOf (scrapeFile specHelpers (sampleCollector false true false)
        (fun f => if f = "core.1" then some { content := "UPTIME: 00:01\n", readFails := false }
          else some { content := "EXTAPP\n", readFails := false }) "core.2").1
      = some .panicked ∧
    (scrapeReports specHelpers (sampleCollector false true false)
        (fun _ => .ok ["core.1", "core.2"])
        (fun f => if f = "core.1" then some { content := "UPTIME: 00:01\n", readFails := false }
          else some { content := "EXTAPP\n", readFails := false })
        "core.*").1.toOption.map AList.keys = some ["core.1"] ∧
    (scrapeReports specHelpers (sampleCollector false true false)
        (fun _ => .ok ["core.1", "core.2"])
        (fun f => if f = "core.1" then some { content := "UPTIME: 00:01\n", readFails := false }
          else some { content := "EXTAPP\n", readFails := false })
        "core.*").2 = 0 := by
  decide

/-- C19 at the source `BPS_IN: 1, REQ_RATE_TOT_REQS: 5`: the scan stores the
flag `REQ_RATE_TOT_REQS` in the general info, the registry declares two labels
for it, `collectGeneralInfoMetrics` gives it the one label of the core, and
`MustNewConstMetric` panics. -/
theorem collectGeneralInfoMetrics_label_mismatch :
    (scrapeFile specHelpers (sampleCollector false true false)
        (oneFile "f" "BPS_IN: 1, REQ_RATE_TOT_REQS: 5\n") "f").1.toOption.map
      (fun r => r.GeneralInfo.KeyValues.keys) = some ["BPS_IN", "REQ_RATE_TOT_REQS"] ∧
    (LitespeedMetrics.lookup "REQ_RATE_TOT_REQS").map (fun info => info.Desc.variableLabels)
      = some ["core", "hostname"] ∧
    (scrapeFile specHelpers (sampleCollector false true false)
        (oneFile "f" "BPS_IN: 1, REQ_RATE_TOT_REQS: 5\n") "f").1.toOption.map
      (fun r => (collectGeneralInfoMetrics "f" r.GeneralInfo).isSome) = some false := by
  decide

/-! ## The label count of the metrics of the two record families -/

theorem registry_label_counts :
    ∀ e ∈ LitespeedMetrics.entries,
      (hasPrefix "REQ_RATE_" e.1 = true → e.2.Desc.variableLabels.length = 2) ∧
      (hasPrefix "EXTAPP_" e.1 = true → e.2.Desc.variableLabels.length = 4) := by
  decide

theorem hasPrefix_append (p k : String) : hasPrefix p (p ++ k) = true := by
  unfold hasPrefix
  rw [String.data_append, List.isPrefixOf_iff_prefix]
  exact List.prefix_append _ _

theorem collectKeyValues_isSome {V : Type} (labelValues : List String) :
    ∀ (l : List (Sigma fun _ : String => V)),
      (∀ e ∈ l, ∀ info, LitespeedMetrics.lookup e.1 = some info →
        info.Desc.variableLabels.length = labelValues.length) →
      (collectKeyValues labelValues l).isSome = true := by
  intro l
  induction l with
  | nil => intro _; rfl
  | cons e l ih =>
    intro h
    have hrest := ih (fun e' he' => h e' (List.mem_cons_of_mem _ he'))
    unfold collectKeyValues
    cases hlook : LitespeedMetrics.lookup e.1 with
    | none => exact hrest
    | some info =>
      have hlen := h e (List.mem_cons_self _ _) info hlook
      obtain ⟨more, hmore⟩ := Option.isSome_iff_exists.mp hrest
      simp [MustNewConstMetric, hlen, hmore]

/-- The metrics of the request-rate and external-app records of a report that
`scrapeFile` returns are built without panic: the flags of these records carry
the prefix of their family, and the registry declares two labels for every
flag with the prefix `REQ_RATE_` and four for every flag with the prefix
`EXTAPP_`. -/
theorem collect_records_label_counts {V : Type} (u : Helpers V) (c : LitespeedCollector)
    (fs : String → Option SourceFile) (name core : String) (r : litespeedReport V)
    (hok : (scrapeFile u c fs name).1 = .ok r) :
    r.KeysSatisfy (fun _ => True) (fun k => hasPrefix "REQ_RATE_" k = true)
      (fun k => hasPrefix "EXTAPP_" k = true) ∧
    (collectReqRateMetrics core r.ReqRates).isSome = true ∧
    (collectExtAppMetrics core r.ExtApps).isSome = true := by
  have hkeys := scrapeFile_keysSatisfy u c (fun _ => True)
    (fun k => hasPrefix "REQ_RATE_" k = true) (fun k => hasPrefix "EXTAPP_" k = true)
    (fun _ _ => trivial)
    (fun k _ => by
      have h := hasPrefix_append "REQ_RATE_" k
      exact h)
    (fun k _ => by
      have h := hasPrefix_append "EXTAPP_" k
      exact h)
    fs name r hok
  refine ⟨hkeys, ?_, ?_⟩
  · have hall : ∀ l : List (requestRateReport V),
        (∀ rr ∈ l, ∀ k ∈ rr.KeyValues, hasPrefix "REQ_RATE_" k = true) →
        (collectReqRateMetrics core l).isSome = true := by
      intro l
      induction l with
      | nil => intro _; rfl
      | cons rr l ih =>
        intro h
        have h1 := collectKeyValues_isSome [core, rr.Hostname] rr.KeyValues.entries
          (fun e he info hinfo => by
            have hmem : (⟨e.1, info⟩ : Sigma fun _ : String => metricInfo)
                ∈ LitespeedMetrics.entries := AList.mem_lookup_iff.mp hinfo
            exact (registry_label_counts _ hmem).1
              (h rr (List.mem_cons_self _ _) e.1 (List.mem_keys_of_mem he)))
        have h2 := ih (fun rr' hrr' => h rr' (List.mem_cons_of_mem _ hrr'))
        obtain ⟨a, ha⟩ := Option.isSome_iff_exists.mp h1
        obtain ⟨b, hb⟩ := Option.isSome_iff_exists.mp h2
        unfold collectReqRateMetrics
        simp [ha, hb]
    exact hall r.ReqRates hkeys.2.1
  · have hall : ∀ l : List (externalAppReport V),
        (∀ ea ∈ l, ∀ k ∈ ea.KeyValues, hasPrefix "EXTAPP_" k = true) →
        (collectExtAppMetrics core l).isSome = true := by
      intro l
      induction l with
      | nil => intro _; rfl
      | cons ea l ih =>
        intro h
        have h1 := collectKeyValues_isSome [core, ea.Service, ea.Hostname, ea.Handler]
          ea.KeyValues.entries
          (fun e he info hinfo => by
            have hmem : (⟨e.1, info⟩ : Sigma fun _ : String => metricInfo)
                ∈ LitespeedMetrics.entries := AList.mem_lookup_iff.mp hinfo
            exact (registry_label_counts _ hmem).2
              (h ea (List.mem_cons_self _ _) e.1 (List.mem_keys_of_mem he)))
        have h2 := ih (fun ea' hea' => h ea' (List.mem_cons_of_mem _ hea'))
        obtain ⟨a, ha⟩ := Option.isSome_iff_exists.mp h1
        obtain ⟨b, hb⟩ := Option.isSome_iff_exists.mp h2
        unfold collectExtAppMetrics
        simp [ha, hb]
    exact hall r.ExtApps hkeys.2.2

/-! ## The text after the last newline -/

theorem readLinesAux_no_newline (t : List Char) (ht : '\n' ∉ t) :
    ∀ cur : List Char, readLinesAux cur t = [] := by
  induction t with
  | nil => intro cur; rfl
  | cons ch t ih =>
    intro cur
    have hc : ch ≠ '\n' := fun e => ht (e ▸ List.mem_cons_self _ _)
    rw [readLinesAux, if_neg hc]
    exact ih (fun h => ht (List.mem_cons_of_mem _ h)) (ch :: cur)

theorem readLinesAux_append_tail (t : List Char) (ht : '\n' ∉ t) (s : List Char) :
    ∀ cur : List Char, readLinesAux cur (s ++ t) = readLinesAux cur s := by
  induction s with
  | nil =>
    intro cur
    rw [List.nil_append, readLinesAux_no_newline t ht]
    rfl
  | cons ch s ih =>
    intro cur
    rw [List.cons_append, readLinesAux, readLinesAux]
    by_cases hc : ch = '\n'
    · rw [if_pos hc, if_pos hc, ih]
    · rw [if_neg hc, if_neg hc, ih]

/-- C27. The text after the last newline of a source is never dispatched: a
text `t` without newline put at the end of a source `s` (empty, ending with a
newline, or not) leaves the result of `scrapeFile` as it is on `s` alone: the
same report or error and the same failure count. -/
theorem trailing_text_not_dispatched {V : Type} (u : Helpers V) (c : LitespeedCollector)
    (fs fs' : String → Option SourceFile) (name : String) (s t : List Char)
    (readFails : Bool) (ht : '\n' ∉ t)
    (hfs : fs name = some { content := String.mk s, readFails := readFails })
    (hfs' : fs' name = some { content := String.mk (s ++ t), readFails := readFails }) :
    (scrapeFile u c fs' name : Except ScrapeError (litespeedReport V) × Nat)
      = scrapeFile u c fs name :=
  scrapeFile_same_lines u c fs fs' name _ _ hfs hfs'
    (readLinesAux_append_tail t ht s []) rfl

/-- Witness of C27: the last line `EXTAPP`, which would make the scan fail if
it were dispatched, has no terminator. -/
theorem trailing_text_not_dispatched_witness :
    scrapeFile specHelpers (sampleCollector true true false)
        (oneFile "f" "BPS_IN: 1\nEXTAPP") "f"
      = scrapeFile specHelpers (sampleCollector true true false)
          (oneFile "f" "BPS_IN: 1\n") "f" :=
  trailing_text_not_dispatched specHelpers (sampleCollector true true false)
    (oneFile "f" "BPS_IN: 1\n") (oneFile "f" "BPS_IN: 1\nEXTAPP") "f"
    "BPS_IN: 1\n".data "EXTAPP".data false (by decide) rfl rfl

/-- The same last line with its terminator makes the scan fail, and a valid
last line without terminator is not stored. -/
theorem scrapeFile_last_line_samples :
    errorOf (scrapeFile specHelpers (sampleCollector true true false)
        (oneFile "f" "BPS_IN: 1\nEXTAPP\n") "f").1 = some .panicked ∧
    errorOf (scrapeFile specHelpers (sampleCollector true true false)
        (oneFile "f" "BPS_IN: 1\nEXTAPP") "f").1 = none ∧
    (match (scrapeFile specHelpers (sampleCollector true true false)
        (oneFile "f" "BPS_IN: 1\nMAXCONN: 2") "f").1 with
      | .ok r => r.GeneralInfo.KeyValues.keys
      | .error _ => []) = ["BPS_IN"] := by
  decide

/-! ## The list of the flags of a registry -/

theorem char_toNat_inj (a b : Char) (h : a.toNat = b.toNat) : a = b := by
  apply Char.eq_of_val_eq
  apply UInt32.eq_of_val_eq
  apply Fin.eq_of_val_eq
  exact h

theorem ltChars_cons (a b : Char) (as bs : List Char) :
    ltChars (a :: as) (b :: bs)
      = (decide (a.toNat < b.toNat) || (decide (a.toNat = b.toNat) && ltChars as bs)) := by
  rw [ltChars]
  by_cases h1 : a.toNat < b.toNat
  · simp [h1]
  · by_cases h2 : b.toNat < a.toNat
    · have : a.toNat ≠ b.toNat := by omega
      simp [h1, h2, this]
    · have : a.toNat = b.toNat := by omega
      simp [h1, h2, this]

theorem ltChars_irrefl (a : List Char) : ltChars a a = false := by
  induction a with
  | nil => rfl
  | cons x a ih => simp [ltChars_cons, ih]

theorem ltChars_trichotomy : ∀ (a b : List Char),
    ltChars a b = false → ltChars b a = false → a = b
  | [], [], _, _ => rfl
  | [], _ :: _, h, _ => by simp [ltChars] at h
  | _ :: _, [], _, h => by simp [ltChars] at h
  | x :: a, y :: b, h1, h2 => by
    rw [ltChars_cons] at h1 h2
    simp only [Bool.or_eq_false_iff, Bool.and_eq_false_iff, decide_eq_false_iff_not] at h1 h2
    have hxy : x.toNat = y.toNat := by omega
    have hx := char_toNat_inj x y hxy
    subst hx
    have ha : ltChars a b = false := by
      rcases h1.2 with h | h
      · exact absurd rfl h
      · exact h
    have hb : ltChars b a = false := by
      rcases h2.2 with h | h
      · exact absurd rfl h
      · exact h
    rw [ltChars_trichotomy a b ha hb]

theorem ltChars_trans : ∀ (a b c : List Char),
    ltChars a b = true → ltChars b c = true → ltChars a c = true
  | _, [], _, h, _ => by simp [ltChars] at h
  | _, _ :: _, [], _, h => by simp [ltChars] at h
  | [], _ :: _, _ :: _, _, _ => rfl
  | x :: a, y :: b, z :: c, h1, h2 => by
    rw [ltChars_cons] at h1 h2 ⊢
    simp only [Bool.or_eq_true, Bool.and_eq_true, decide_eq_true_eq] at h1 h2 ⊢
    rcases h1 with h1 | ⟨h1, h1'⟩
    · rcases h2 with h2 | ⟨h2, -⟩
      · left; omega
      · left; omega
    · rcases h2 with h2 | ⟨h2, h2'⟩
      · left; omega
      · right
        exact ⟨by omega, ltChars_trans a b c h1' h2'⟩

theorem char_lt_iff (a b : Char) : a < b ↔ a.toNat < b.toNat := Iff.rfl

theorem ltChars_iff_lt : ∀ (a b : List Char), ltChars a b = true ↔ List.lt a b
  | _, [] => by
    constructor
    · intro h; simp [ltChars] at h
    · intro h; cases h
  | [], y :: b => by
    constructor
    · intro _; exact List.lt.nil y b
    · intro _; rfl
  | x :: a, y :: b => by
    rw [ltChars_cons]
    simp only [Bool.or_eq_true, Bool.and_eq_true, decide_eq_true_eq]
    constructor
    · rintro (h | ⟨h, h'⟩)
      · exact List.lt.head a b ((char_lt_iff x y).mpr h)
      · refine List.lt.tail ?_ ?_ ((ltChars_iff_lt a b).mp h')
        · rw [char_lt_iff]; omega
        · rw [char_lt_iff]; omega
    · intro h
      cases h with
      | head _ _ hlt => exact Or.inl ((char_lt_iff x y).mp hlt)
      | tail h1 h2 h3 =>
        rw [char_lt_iff] at h1 h2
        exact Or.inr ⟨by omega, (ltChars_iff_lt a b).mpr h3⟩

theorem ltChars_iff_string_lt (a b : String) : ltChars a.data b.data = true ↔ a < b :=
  (ltChars_iff_lt a.data b.data).trans
    ((List.lt_iff_lex_lt a.data b.data).trans String.lt_iff_toList_lt.symm)

theorem leString_total (a b : String) : leString a b ∨ leString b a := by
  unfold leString
  cases h1 : ltChars b.data a.data with
  | false => exact Or.inl rfl
  | true =>
    cases h2 : ltChars a.data b.data with
    | false => exact Or.inr rfl
    | true =>
      have h := ltChars_trans a.data b.data a.data h2 h1
      rw [ltChars_irrefl] at h
      cases h

theorem leString_trans (a b c : String) (hab : leString a b) (hbc : leString b c) :
    leString a c := by
  unfold leString at hab hbc ⊢
  cases hca : ltChars c.data a.data with
  | false => rfl
  | true =>
    cases h : ltChars a.data b.data with
    | true =>
      rw [ltChars_trans c.data a.data b.data hca h] at hbc
      cases hbc
    | false =>
      have he : a.data = b.data := ltChars_trichotomy a.data b.data h hab
      rw [he, hbc] at hca
      cases hca

theorem lt_of_leString_of_ne (a b : String) (h : leString a b) (hne : a ≠ b) : a < b := by
  rw [← ltChars_iff_string_lt]
  cases hlt : ltChars a.data b.data with
  | true => rfl
  | false => exact absurd (String.ext (ltChars_trichotomy a.data b.data hlt h)) hne

theorem sortStrings_perm (s : List String) : (sortStrings s).Perm s :=
  List.perm_insertionSort leString s

theorem sortStrings_sorted (s : List String) (hs : s.Nodup) :
    (sortStrings s).Sorted (fun a b => a < b) := by
  have h1 : (sortStrings s).Pairwise leString :=
    @List.sorted_insertionSort String leString _ ⟨leString_total⟩ ⟨leString_trans⟩ s
  have h2 : (sortStrings s).Pairwise (fun a b => a ≠ b) :=
    (sortStrings_perm s).nodup_iff.mpr hs
  exact (h1.and h2).imp (fun h => lt_of_leString_of_ne _ _ h.1 h.2)

theorem litespeedMetrics_string_test :
    LitespeedMetrics.String = "AVAILCONN, AVAILSSL, BPS_IN, BPS_OUT, EXTAPP_CMAXCONN, EXTAPP_EMAXCONN, EXTAPP_IDLE_CONN, EXTAPP_INUSE_CONN, EXTAPP_POOL_SIZE, EXTAPP_REQ_PER_SEC, EXTAPP_TOT_REQS, EXTAPP_WAITQUE_DEPTH, IDLECONN, MAXCONN, MAXSSL_CONN, PLAINCONN, REQ_RATE_PRIVATE_CACHE_HITS_PER_SEC, REQ_RATE_PUB_CACHE_HITS_PER_SEC, REQ_RATE_REQ_PER_SEC, REQ_RATE_REQ_PROCESSING, REQ_RATE_STATIC_HITS_PER_SEC, REQ_RATE_TOTAL_PRIVATE_CACHE_HITS, REQ_RATE_TOTAL_PUB_CACHE_HITS, REQ_RATE_TOTAL_STATIC_HITS, REQ_RATE_TOT_REQS, SSLCONN, SSL_BPS_IN, SSL_BPS_OUT" := by
  decide!

/-- C25. The text `m.String()` of a registry `m` is its flags joined by a comma
and a space, in a list that holds every flag of `m` exactly once and is in
strictly ascending order of the strings; there is one such list only, so the
text does not depend on how `sort.Strings` sorts or on the order in which the
map is visited.  The text is empty for the empty registry.  For
`LitespeedMetrics` it is the text of the 28 flags from `AVAILCONN` to
`SSL_BPS_OUT` that `TestStringReturnsAvailableMetricsString` expects. -/
theorem metrics_string_sorted_flags (m : metrics) :
    m.String = joinStrings ", " (sortStrings m.keys) ∧
    (sortStrings m.keys).Perm m.keys ∧
    (sortStrings m.keys).Nodup ∧
    (sortStrings m.keys).Sorted (fun a b => a < b) ∧
    (∀ l : List String, l.Perm m.keys → l.Sorted (fun a b => a < b) →
      m.String = joinStrings ", " l) ∧
    (∅ : metrics).String = "" ∧
    LitespeedMetrics.keys.length = 28 ∧
    LitespeedMetrics.String = "AVAILCONN, AVAILSSL, BPS_IN, BPS_OUT, EXTAPP_CMAXCONN, EXTAPP_EMAXCONN, EXTAPP_IDLE_CONN, EXTAPP_INUSE_CONN, EXTAPP_POOL_SIZE, EXTAPP_REQ_PER_SEC, EXTAPP_TOT_REQS, EXTAPP_WAITQUE_DEPTH, IDLECONN, MAXCONN, MAXSSL_CONN, PLAINCONN, REQ_RATE_PRIVATE_CACHE_HITS_PER_SEC, REQ_RATE_PUB_CACHE_HITS_PER_SEC, REQ_RATE_REQ_PER_SEC, REQ_RATE_REQ_PROCESSING, REQ_RATE_STATIC_HITS_PER_SEC, REQ_RATE_TOTAL_PRIVATE_CACHE_HITS, REQ_RATE_TOTAL_PUB_CACHE_HITS, REQ_RATE_TOTAL_STATIC_HITS, REQ_RATE_TOT_REQS, SSLCONN, SSL_BPS_IN, SSL_BPS_OUT" :=
  ⟨rfl, sortStrings_perm m.keys, (sortStrings_perm m.keys).nodup_iff.mpr m.keys_nodup,
    sortStrings_sorted m.keys m.keys_nodup,
    fun l hperm hsorted =>
      congrArg (joinStrings ", ")
        (List.eq_of_perm_of_sorted ((sortStrings_perm m.keys).trans hperm.symm)
          (sortStrings_sorted m.keys m.keys_nodup) hsorted),
    rfl, by decide, litespeedMetrics_string_test⟩

/-! ## The exclusion set of the command line -/

theorem lookup_foldl_insert_true (k : String) (l : List String) :
    ∀ m : AList (fun _ : String => Bool),
      (l.foldl (fun m flag => m.insert flag true) m).lookup k
        = if k ∈ l then some true else m.lookup k := by
  induction l with
  | nil => intro m; simp
  | cons f l ih =>
    intro m
    rw [List.foldl_cons, ih]
    by_cases hl : k ∈ l
    · simp [hl]
    · by_cases hf : k = f
      · subst hf
        simp [hl]
      · simp [hl, hf, AList.lookup_insert_ne hf]

theorem lookup_parseFlagsToMap (flags : List String) (k : String) :
    (ParseFlagsToMap flags).lookup k = if k ∈ flags then some true else none := by
  unfold ParseFlagsToMap
  rw [lookup_foldl_insert_true]
  rfl

theorem mem_parseFlagsToMap (flags : List String) (k : String) :
    k ∈ ParseFlagsToMap flags ↔ k ∈ flags := by
  rw [← AList.lookup_isSome, lookup_parseFlagsToMap]
  by_cases h : k ∈ flags <;> simp [h]

/-- C26. The map `ParseFlagsToMap(flags)` has exactly the names of the list as
keys, holds `true` under every key, and is empty for the empty list. -/
theorem parseFlagsToMap_key_set (flags : List String) :
    (∀ k, k ∈ ParseFlagsToMap flags ↔ k ∈ flags) ∧
    (∀ k v, (ParseFlagsToMap flags).lookup k = some v → v = true) ∧
    (∀ k ∈ flags, (ParseFlagsToMap flags).lookup k = some true) ∧
    ParseFlagsToMap [] = ∅ := by
  refine ⟨mem_parseFlagsToMap flags, fun k v h => ?_, fun k hk => ?_, rfl⟩
  · rw [lookup_parseFlagsToMap] at h
    by_cases hk : k ∈ flags
    · rw [if_pos hk] at h
      exact (Option.some.inj h).symm
    · rw [if_neg hk] at h
      cases h
  · rw [lookup_parseFlagsToMap, if_pos hk]

/-- The two cases of `TestParseFlagsToMapReturnsExpected`, and the exclusion
set of every flag of the registry. -/
theorem parseFlagsToMap_tests :
    (ParseFlagsToMap []).entries = [] ∧
    (ParseFlagsToMap ["TEST_1", "TEST_2"]).lookup "TEST_1" = some true ∧
    (ParseFlagsToMap ["TEST_1", "TEST_2"]).lookup "TEST_2" = some true ∧
    (ParseFlagsToMap ["TEST_1", "TEST_2"]).keys.length = 2 ∧
    (ParseFlagsToMap LitespeedMetrics.keys).entries = allFlagsExcluded.entries := by
  decide

/-! ## Namespaced keys and the exclusion set -/

theorem string_append_left_cancel (p a b : String) (h : p ++ a = p ++ b) : a = b := by
  have hd : (p ++ a).data = (p ++ b).data := by rw [h]
  rw [String.data_append, String.data_append] at hd
  exact String.ext (List.append_cancel_left hd)

theorem namespacedFields_scrapeFields {V : Type} (u : Helpers V) (c : LitespeedCollector)
    (p : String) (m : AList (fun _ : String => String)) (n : Nat) :
    NamespacedFields u c p m (scrapeFields u c (fun k => p ++ k) m ∅ n).1 := by
  constructor
  · intro k raw hk
    have hl := lookup_foldl_storeField u c (fun k => p ++ k)
      (fun a b h => string_append_left_cancel p a b h) k m.entries m.nodupKeys ∅
    have hd : m.entries.dlookup k = some raw := hk
    rw [hd] at hl
    rw [scrapeFields_eq]
    simp only [] at hl ⊢
    rw [hl]
    have hempty : (∅ : KeyValues V).lookup (p ++ k) = none := AList.lookup_empty _
    rw [hempty]
    constructor
    · intro hex
      have ht := (metricIsTracked_false_iff c (p ++ k)).mpr hex
      simp [storedValue, ht]
    · intro hex
      have ht : c.metricIsTracked (p ++ k) = true := by
        cases h : c.metricIsTracked (p ++ k) with
        | true => rfl
        | false => exact absurd ((metricIsTracked_false_iff c (p ++ k)).mp h) hex
      rcases hp : u.parseMetricValue (p ++ k) raw with ⟨vf, err⟩
      cases err <;> simp [storedValue, ht, hp]
  · intro f hf
    rcases mem_scrapeFields u c (fun k => p ++ k) m ∅ n f hf with h | ⟨ht, raw, hraw, rfl⟩
    · exact absurd h (AList.not_mem_empty f)
    · refine ⟨hasPrefix_append p raw, fun hex => ?_, raw, hraw, rfl⟩
      rw [(metricIsTracked_false_iff c (p ++ raw)).mpr hex] at ht
      cases ht

theorem scrapeFields_exclusion_congr {V : Type} (u : Helpers V) (c c' : LitespeedCollector)
    (flagOf : String → String)
    (h : ∀ k, c'.metricIsTracked (flagOf k) = c.metricIsTracked (flagOf k))
    (m : AList (fun _ : String => String)) (kv : KeyValues V) (n : Nat) :
    scrapeFields u c' flagOf m kv n = scrapeFields u c flagOf m kv n := by
  unfold scrapeFields
  simp only [h]

theorem metricIsTracked_congr (c c' : LitespeedCollector) (f : String)
    (h : f ∈ c'.options.ExcludedMetrics ↔ f ∈ c.options.ExcludedMetrics) :
    c'.metricIsTracked f = c.metricIsTracked f := by
  cases h1 : c.metricIsTracked f with
  | false => exact (metricIsTracked_false_iff c' f).mpr (h.mpr ((metricIsTracked_false_iff c f).mp h1))
  | true =>
    cases h2 : c'.metricIsTracked f with
    | true => rfl
    | false =>
      rw [(metricIsTracked_false_iff c f).mpr (h.mp ((metricIsTracked_false_iff c' f).mp h2))] at h1
      cases h1

theorem scrapeReqRate_exclusion_congr {V : Type} (u : Helpers V) (c c' : LitespeedCollector)
    (hhost : c'.options.ReqRatesByHost = c.options.ReqRatesByHost)
    (h : ∀ k, c'.metricIsTracked (reqRateField ++ "_" ++ k)
      = c.metricIsTracked (reqRateField ++ "_" ++ k))
    (st : ScanState V) (line : List Char) :
    scrapeReqRate u c' st line = scrapeReqRate u c st line := by
  unfold scrapeReqRate
  simp only [hhost, scrapeFields_exclusion_congr u c c' _ h]

theorem scrapeExtApp_exclusion_congr {V : Type} (u : Helpers V) (c c' : LitespeedCollector)
    (hext : c'.options.ExcludeExtapp = c.options.ExcludeExtapp)
    (h : ∀ k, c'.metricIsTracked (extappField ++ "_" ++ k)
      = c.metricIsTracked (extappField ++ "_" ++ k))
    (st : ScanState V) (line : List Char) :
    scrapeExtApp u c' st line = scrapeExtApp u c st line := by
  unfold scrapeExtApp
  simp only [hext, scrapeFields_exclusion_congr u c c' _ h]

/-- C21. The keys of a `REQ_RATE` or `EXTAPP` line are namespaced before the
exclusion filter.  A round of the loop on such a line leaves the state as it is
only when the line is skipped whole: a `REQ_RATE` line with a non-empty first
capture while `ReqRatesByHost` is off, or an `EXTAPP` line while
`ExcludeExtapp` is on.  Every other line appends one record, under the
captures of the line, whose values map holds the fields of the line under
their prefixed keys: the field with raw key `k` is dropped by the filter
exactly when `REQ_RATE_k` (or `EXTAPP_k`) is in the exclusion set, and is
otherwise parsed and stored under that key; every key of the map starts with
the prefix of the family; a failure is counted for every field that passes the
filter with a value that does not parse.  Whether an unprefixed key is in the
exclusion set has no effect: the round gives the same state with every
exclusion set that agrees on the keys with a family prefix. -/
theorem keys_namespaced_before_filter {V : Type} (u : Helpers V) (c c' : LitespeedCollector)
    (st st' : ScanState V) (line : List Char)
    (hid : String.mk (findIdentifier line) = reqRateField ∨
      String.mk (findIdentifier line) = extappField)
    (h : scrapeLine u c st line = some st')
    (hhost : c'.options.ReqRatesByHost = c.options.ReqRatesByHost)
    (hext : c'.options.ExcludeExtapp = c.options.ExcludeExtapp)
    (hagree : ∀ f, hasPrefix (reqRateField ++ "_") f = true ∨
        hasPrefix (extappField ++ "_") f = true →
      (f ∈ c'.options.ExcludedMetrics ↔ f ∈ c.options.ExcludedMetrics)) :
    scrapeLine u c' st line = some st' ∧
    ((st' = st ∧
        ((String.mk (findIdentifier line) = reqRateField ∧
            c.options.ReqRatesByHost = false ∧
            ∃ host, (bracketCaptures line).head? = some host ∧ host ≠ []) ∨
          (String.mk (findIdentifier line) = extappField ∧
            c.options.ExcludeExtapp = true))) ∨
      (∃ (host pre fields : List Char) (m : AList (fun _ : String => String))
          (kv : KeyValues V),
        String.mk (findIdentifier line) = reqRateField ∧
        (bracketCaptures line).head? = some host ∧
        (c.options.ReqRatesByHost = true ∨ host = []) ∧
        splitOnce ": ".data line = some (pre, fields) ∧
        u.parseKeyValLineToMap (String.mk fields) = some m ∧
        st'.report
          = { st.report with
              ReqRates := st.report.ReqRates ++
                [{ Hostname := String.mk host, KeyValues := kv }] } ∧
        NamespacedFields u c (reqRateField ++ "_") m kv ∧
        st'.failures = st.failures
          + m.entries.countP (fun e => fieldFails u c (reqRateField ++ "_" ++ e.1) e.2)) ∨
      (∃ (service hostname handler pre fields : List Char) (more : List (List Char))
          (m : AList (fun _ : String => String)) (kv : KeyValues V),
        String.mk (findIdentifier line) = extappField ∧
        c.options.ExcludeExtapp = false ∧
        bracketCaptures line = service :: hostname :: handler :: more ∧
        splitOnce ": ".data line = some (pre, fields) ∧
        u.parseKeyValLineToMap (String.mk fields) = some m ∧
        st'.report
          = { st.report with
              ExtApps := st.report.ExtApps ++
                [{ Service := String.mk service, Hostname := String.mk hostname
                   Handler := String.mk handler, KeyValues := kv }] } ∧
        NamespacedFields u c (extappField ++ "_") m kv ∧
        st'.failures = st.failures
          + m.entries.countP (fun e => fieldFails u c (extappField ++ "_" ++ e.1) e.2))) := by
  have hrr : ∀ k, c'.metricIsTracked (reqRateField ++ "_" ++ k)
      = c.metricIsTracked (reqRateField ++ "_" ++ k) := fun k =>
    metricIsTracked_congr c c' _ (hagree _ (Or.inl (hasPrefix_append _ k)))
  have hea : ∀ k, c'.metricIsTracked (extappField ++ "_" ++ k)
      = c.metricIsTracked (extappField ++ "_" ++ k) := fun k =>
    metricIsTracked_congr c c' _ (hagree _ (Or.inr (hasPrefix_append _ k)))
  rcases hid with hid | hid
  · have hidd : findIdentifier line = reqRateField.data := by rw [← hid]
    rw [scrapeLine_reqRate u c st line hidd] at h
    refine ⟨?_, ?_⟩
    · rw [scrapeLine_reqRate u c' st line hidd, scrapeReqRate_exclusion_congr u c c' hhost hrr]
      exact h
    · rcases scrapeReqRate_cases u c st st' line h with
        ⟨rfl, hoff, host, hcap, hne⟩ | ⟨host, pre, fields, m, hcap, hkeep, hsplit, hmap, rfl⟩
      · exact Or.inl ⟨rfl, Or.inl ⟨hid, hoff, host, hcap, hne⟩⟩
      · right; left
        refine ⟨host, pre, fields, m, _, hid, hcap, hkeep, hsplit, hmap, rfl,
          namespacedFields_scrapeFields u c _ m st.failures, ?_⟩
        rw [scrapeFields_eq]
  · have hidd : findIdentifier line = extappField.data := by rw [← hid]
    rw [scrapeLine_extApp u c st line hidd] at h
    refine ⟨?_, ?_⟩
    · rw [scrapeLine_extApp u c' st line hidd, scrapeExtApp_exclusion_congr u c c' hext hea]
      exact h
    · rcases scrapeExtApp_cases u c st st' line h with
        ⟨rfl, hon⟩ | ⟨s, hn, hd, pre, fields, more, m, hoff, hcap, hsplit, hmap, rfl⟩
      · exact Or.inl ⟨rfl, Or.inr ⟨hid, hon⟩⟩
      · right; right
        refine ⟨s, hn, hd, pre, fields, more, m, _, hid, hoff, hcap, hsplit, hmap, rfl,
          namespacedFields_scrapeFields u c _ m st.failures, ?_⟩
        rw [scrapeFields_eq]

/-- Witness of C21: the line `REQ_RATE []: TOT_REQS: 5, REQ_PER_SEC: 1` with
`REQ_RATE_REQ_PER_SEC` excluded gives the same state when the unprefixed
`TOT_REQS` and `REQ_PER_SEC` are excluded too: one record, under the hostname
`""`, that holds `REQ_RATE_TOT_REQS` and nothing else. -/
theorem keys_namespaced_before_filter_witness :
    ∃ st', scrapeLine specHelpers (excluding ["REQ_RATE_REQ_PER_SEC"]) (initialState F64)
        "REQ_RATE []: TOT_REQS: 5, REQ_PER_SEC: 1".data = some st' ∧
      scrapeLine specHelpers (excluding ["REQ_RATE_REQ_PER_SEC", "TOT_REQS", "REQ_PER_SEC"])
        (initialState F64) "REQ_RATE []: TOT_REQS: 5, REQ_PER_SEC: 1".data = some st' ∧
      st'.report.ReqRates.map (fun rr => (rr.Hostname, rr.KeyValues.keys))
        = [("", ["REQ_RATE_TOT_REQS"])] := by
  have hsample : (match scrapeLine specHelpers (excluding ["REQ_RATE_REQ_PER_SEC"])
      (initialState F64) "REQ_RATE []: TOT_REQS: 5, REQ_PER_SEC: 1".data with
      | some st => st.report.ReqRates.map (fun rr => (rr.Hostname, rr.KeyValues.keys))
      | none => []) = [("", ["REQ_RATE_TOT_REQS"])] := by decide!
  cases h : scrapeLine specHelpers (excluding ["REQ_RATE_REQ_PER_SEC"]) (initialState F64)
      "REQ_RATE []: TOT_REQS: 5, REQ_PER_SEC: 1".data with
  | none => rw [h] at hsample; cases hsample
  | some st' =>
    rw [h] at hsample
    refine ⟨st', rfl, (keys_namespaced_before_filter specHelpers
      (excluding ["REQ_RATE_REQ_PER_SEC"])
      (excluding ["REQ_RATE_REQ_PER_SEC", "TOT_REQS", "REQ_PER_SEC"])
      (initialState F64) st' "REQ_RATE []: TOT_REQS: 5, REQ_PER_SEC: 1".data
      (Or.inl (by decide)) h rfl rfl ?_).1, hsample⟩
    intro f hf
    show f ∈ ParseFlagsToMap _ ↔ f ∈ ParseFlagsToMap _
    rw [mem_parseFlagsToMap, mem_parseFlagsToMap]
    constructor
    · intro hmem
      simp only [List.mem_cons, List.mem_singleton, List.not_mem_nil, or_false] at hmem ⊢
      rcases hmem with rfl | rfl | rfl
      · rfl
      · exact absurd hf (by decide)
      · exact absurd hf (by decide)
    · intro hmem
      rw [List.mem_singleton] at hmem
      rw [hmem]
      exact List.mem_cons_self _ _

/-- The record of the witness line: `REQ_RATE_TOT_REQS` is stored although
`TOT_REQS` is excluded, `REQ_RATE_REQ_PER_SEC` is dropped. -/
theorem scrapeLine_namespaced_sample :
    (match scrapeLine specHelpers
        (excluding ["REQ_RATE_REQ_PER_SEC", "TOT_REQS", "REQ_PER_SEC"]) (initialState F64)
        "REQ_RATE []: TOT_REQS: 5, REQ_PER_SEC: 1".data with
      | some st => st.report.ReqRates.map (fun rr => (rr.Hostname, rr.KeyValues.keys))
      | none => []) = [("", ["REQ_RATE_TOT_REQS"])] := by
  decide!

/-! ## A scrape cycle -/

theorem collectReportsLoop_isSome {V : Type} (one : V)
    (l : List (Sigma fun _ : String => litespeedReport V))
    (h : ∀ e ∈ l, (collectGeneralInfoMetrics e.1 e.2.GeneralInfo).isSome = true ∧
      (collectReqRateMetrics e.1 e.2.ReqRates).isSome = true ∧
      (collectExtAppMetrics e.1 e.2.ExtApps).isSome = true) :
    ∀ versionScraped, (collectReportsLoop one versionScraped l).isSome = true := by
  induction l with
  | nil => intro vs; rfl
  | cons e l ih =>
    intro vs
    obtain ⟨hg, hr, he⟩ := h e (List.mem_cons_self _ _)
    obtain ⟨g, hg⟩ := Option.isSome_iff_exists.mp hg
    obtain ⟨r, hr⟩ := Option.isSome_iff_exists.mp hr
    obtain ⟨x, he⟩ := Option.isSome_iff_exists.mp he
    obtain ⟨more, hmore⟩ := Option.isSome_iff_exists.mp
      (ih (fun e' he' => h e' (List.mem_cons_of_mem _ he')) true)
    unfold collectReportsLoop
    cases vs <;> simp [hg, hr, he, hmore, MustNewConstMetric, litespeedVersion]

section Cycle

variable {V : Type} [Add V] (u : Helpers V) (c : LitespeedCollector)
  (glob : String → Except String (List String)) (fs : String → Option SourceFile) (one : V)

theorem scrapeReports_error_iff (pattern : String) :
    (∃ e, (scrapeReports u c glob fs pattern).1 = .error e) ↔ ∃ e, glob pattern = .error e := by
  unfold scrapeReports
  cases hg : glob pattern with
  | error e => simp
  | ok found => cases c.options.MetricsByCore <;> simp

/-- The total-scrapes counter is incremented once by every call. -/
theorem collectReports_totalScrapes : (collectReports u c glob fs one).totalScrapes = 1 := by
  unfold collectReports
  rcases scrapeReports u c glob fs c.options.FilePattern with ⟨res, n⟩
  cases res <;> rfl

/-- A pattern that `filepath.Glob` rejects: the call returns `up = 0`, sends
nothing and counts one scrape failure. -/
theorem collectReports_bad_pattern (e : String) (hglob : glob c.options.FilePattern = .error e) :
    collectReports u c glob fs one
      = { returned := some (0, []), totalScrapes := 1, scrapeFailures := 1 } := by
  unfold collectReports scrapeReports
  simp only [hglob]

/-- A pattern that `filepath.Glob` accepts: the call returns `up = 1` unless it
panics, and counts the failures of the scans only. -/
theorem collectReports_good_pattern (found : List String)
    (hglob : glob c.options.FilePattern = .ok found) :
    ((collectReports u c glob fs one).returned = none ∨
      ∃ sent, (collectReports u c glob fs one).returned = some (1, sent)) ∧
    (collectReports u c glob fs one).scrapeFailures
      = (found.map (fun name => (scrapeFile u c fs name).2)).sum := by
  have hf := scrapeReports_failures u c glob fs c.options.FilePattern found hglob
  have hok : ∃ reports, (scrapeReports u c glob fs c.options.FilePattern).1 = .ok reports := by
    unfold scrapeReports
    simp only [hglob]
    cases c.options.MetricsByCore <;> exact ⟨_, rfl⟩
  obtain ⟨reports, hrep⟩ := hok
  unfold collectReports
  rcases hres : scrapeReports u c glob fs c.options.FilePattern with ⟨res, n⟩
  rw [hres] at hf hrep
  simp only [] at hf hrep
  subst hrep
  simp only [hf]
  refine ⟨?_, trivial⟩
  cases collectReportsLoop one false reports.entries with
  | none => exact Or.inl rfl
  | some sent => exact Or.inr ⟨sent, rfl⟩

/-- When the call returns, `up` is `0` exactly when `scrapeReports` returns an
error, that is, when `filepath.Glob` rejects the pattern. -/
theorem collectReports_up_zero_iff (up : Nat) (sent : List (Metric V))
    (h : (collectReports u c glob fs one).returned = some (up, sent)) :
    (up = 0 ↔ ∃ e, (scrapeReports u c glob fs c.options.FilePattern).1 = .error e) ∧
    (up = 0 ∨ up = 1) := by
  rw [scrapeReports_error_iff]
  cases hg : glob c.options.FilePattern with
  | error e =>
    rw [collectReports_bad_pattern u c glob fs one e hg] at h
    simp only [Option.some.injEq, Prod.mk.injEq] at h
    exact ⟨⟨fun _ => ⟨e, rfl⟩, fun _ => h.1.symm⟩, Or.inl h.1.symm⟩
  | ok found =>
    rcases (collectReports_good_pattern u c glob fs one found hg).1 with hn | ⟨sent', hs⟩
    · rw [hn] at h; cases h
    · rw [hs] at h
      simp only [Option.some.injEq, Prod.mk.injEq] at h
      refine ⟨⟨fun h0 => ?_, fun ⟨e, he⟩ => by cases he⟩, Or.inr h.1.symm⟩
      rw [← h.1] at h0
      cases h0

/-- With the reports kept by core and a pattern that `filepath.Glob` accepts,
the call returns `up = 1` when no general-info map of a scanned source holds a
flag for which the registry declares another number of labels than the one of
the core. -/
theorem collectReports_returns (found : List String)
    (hcore : c.options.MetricsByCore = true)
    (hglob : glob c.options.FilePattern = .ok found)
    (hgen : ∀ name ∈ found, ∀ r, (scrapeFile u c fs name).1 = .ok r →
      ∀ k ∈ r.GeneralInfo.KeyValues, ∀ info, LitespeedMetrics.lookup k = some info →
        info.Desc.variableLabels.length = 1) :
    ∃ sent, (collectReports u c glob fs one).returned = some (1, sent) := by
  obtain ⟨reports, hrep, hlook⟩ :=
    scrapeReports_lookup u c glob fs c.options.FilePattern found hcore hglob
  have hentries : ∀ e ∈ reports.entries, e.1 ∈ found ∧ (scrapeFile u c fs e.1).1 = .ok e.2 := by
    intro e he
    have hl : reports.lookup e.1 = some e.2 := AList.mem_lookup_iff.mpr he
    rw [hlook] at hl
    by_cases hmem : e.1 ∈ found
    · rw [if_pos hmem] at hl
      refine ⟨hmem, ?_⟩
      cases hres : (scrapeFile u c fs e.1).1 with
      | error err => rw [hres] at hl; cases hl
      | ok r =>
        rw [hres] at hl
        exact congrArg Except.ok (Option.some.inj hl)
    · rw [if_neg hmem] at hl; cases hl
  have hloop := collectReportsLoop_isSome one reports.entries
    (fun e he => by
      obtain ⟨hmem, hok⟩ := hentries e he
      obtain ⟨-, hr, hx⟩ := collect_records_label_counts u c fs e.1 e.1 e.2 hok
      refine ⟨?_, hr, hx⟩
      exact collectKeyValues_isSome [e.1] e.2.GeneralInfo.KeyValues.entries
        (fun f hf info hinfo =>
          hgen e.1 hmem e.2 hok f.1 (List.mem_keys_of_mem hf) info hinfo))
    false
  obtain ⟨sent, hsent⟩ := Option.isSome_iff_exists.mp hloop
  refine ⟨sent, ?_⟩
  unfold collectReports
  rcases hres : scrapeReports u c glob fs c.options.FilePattern with ⟨res, n⟩
  rw [hres] at hrep
  simp only [] at hrep
  subst hrep
  simp only [hsent, Option.map_some']

end Cycle

/-- C22 at a cycle with the one source `BPS_IN: 1, REQ_RATE_TOT_REQS: 5`:
`scrapeReports` returns the report of the source and no error, the pattern is
valid, and `collectReports` panics in `collectGeneralInfoMetrics` instead of
returning `up = 1`; the total-scrapes counter has been incremented once. -/
theorem collectReports_panics_on_valid_pattern :
    (scrapeReports specHelpers (sampleCollector false true false) (fun _ => .ok ["core.1"])
        (oneFile "core.1" "BPS_IN: 1, REQ_RATE_TOT_REQS: 5\n")
        "/tmp/lshttpd/.rtreport*").1.toOption.map AList.keys = some ["core.1"] ∧
    (collectReports specHelpers (sampleCollector false true false) (fun _ => .ok ["core.1"])
        (oneFile "core.1" "BPS_IN: 1, REQ_RATE_TOT_REQS: 5\n") (F64.finite 1 0)).returned.isSome
      = false ∧
    (collectReports specHelpers (sampleCollector false true false) (fun _ => .ok ["core.1"])
        (oneFile "core.1" "BPS_IN: 1, REQ_RATE_TOT_REQS: 5\n") (F64.finite 1 0)).totalScrapes
      = 1 := by
  decide!

/-- A cycle over the sample report returns `up = 1` and sends the version
metric and fourteen metrics of flags of the registry, and counts the one field
of the report that does not parse; a cycle whose pattern is rejected returns
`up = 0`, sends nothing and counts one failure. -/
theorem collectReports_samples :
    (collectReports specHelpers (sampleCollector true true false) (fun _ => .ok ["core.1"])
        (oneFile "core.1" sampleReport) (F64.finite 1 0)).returned.map
      (fun r => (r.1, r.2.length)) = some (1, 15) ∧
    (collectReports specHelpers (sampleCollector true true false) (fun _ => .ok ["core.1"])
        (oneFile "core.1" sampleReport) (F64.finite 1 0)).scrapeFailures = 1 ∧
    (collectReports specHelpers (sampleCollector true true false)
        (fun _ => .error "syntax error in pattern")
        (oneFile "core.1" sampleReport) (F64.finite 1 0)).returned.map
      (fun r => (r.1, r.2.length)) = some (0, 0) ∧
    (collectReports specHelpers (sampleCollector true true false)
        (fun _ => .error "syntax error in pattern")
        (oneFile "core.1" sampleReport) (F64.finite 1 0)).scrapeFailures = 1 := by
  decide!

/-! ## The value coercer `parseMetricValue` -/

theorem readDigits_digits (ds : List Char) (h : ∀ ch ∈ ds, ch.isDigit = true) :
    ∀ acc n, readDigits acc n ds
      = some (ds.foldl (fun acc ch => acc * 10 + (ch.toNat - '0'.toNat)) acc, n + ds.length) := by
  induction ds with
  | nil => intro acc n; rfl
  | cons ch ds ih =>
    intro acc n
    rw [readDigits, if_pos (h ch (List.mem_cons_self _ _)),
      ih (fun c hc => h c (List.mem_cons_of_mem _ hc))]
    simp only [List.foldl_cons, List.length_cons]
    rw [Nat.add_assoc, Nat.add_comm 1]

theorem readDigits_some (ds : List Char) :
    ∀ acc n r, readDigits acc n ds = some r → ∀ ch ∈ ds, ch.isDigit = true := by
  induction ds with
  | nil => intro acc n r _ ch hch; cases hch
  | cons d ds ih =>
    intro acc n r h ch hch
    rw [readDigits] at h
    by_cases hd : d.isDigit = true
    · rw [if_pos hd] at h
      rcases List.mem_cons.mp hch with rfl | hmem
      · exact hd
      · exact ih _ _ r h ch hmem
    · rw [if_neg hd] at h
      cases h

theorem digit_ne_point (ch : Char) (h : ch.isDigit = true) : (ch != '.') = true := by
  rw [bne_iff_ne]
  intro e
  rw [e] at h
  exact absurd h (by decide)

theorem takeWhile_dropWhile_all {α : Type} (p : α → Bool) (a : List α)
    (ha : ∀ x ∈ a, p x = true) : a.takeWhile p = a ∧ a.dropWhile p = [] := by
  induction a with
  | nil => exact ⟨rfl, rfl⟩
  | cons x a ih =>
    have hx := ha x (List.mem_cons_self _ _)
    obtain ⟨h1, h2⟩ := ih (fun y hy => ha y (List.mem_cons_of_mem _ hy))
    exact ⟨by rw [List.takeWhile_cons, hx, h1]; rfl, by rw [List.dropWhile_cons, hx, h2]; rfl⟩

theorem takeWhile_dropWhile_stop {α : Type} (p : α → Bool) (a : List α) (x : α) (b : List α)
    (ha : ∀ y ∈ a, p y = true) (hx : p x = false) :
    (a ++ x :: b).takeWhile p = a ∧ (a ++ x :: b).dropWhile p = x :: b := by
  induction a with
  | nil =>
    exact ⟨by rw [List.nil_append, List.takeWhile_cons, hx]; rfl,
      by rw [List.nil_append, List.dropWhile_cons, hx]; rfl⟩
  | cons y a ih =>
    have hy := ha y (List.mem_cons_self _ _)
    obtain ⟨h1, h2⟩ := ih (fun z hz => ha z (List.mem_cons_of_mem _ hz))
    exact ⟨by rw [List.cons_append, List.takeWhile_cons, hy, h1]; rfl,
      by rw [List.cons_append, List.dropWhile_cons, hy, h2]; rfl⟩

/-- The digits of a numeral without its sign are read back. -/
theorem parseUnsignedDecimal_numeral (negative : Bool) (whole : List Char)
    (frac : Option (List Char)) (h : IsNumeral whole frac) :
    parseUnsignedDecimal negative (numeralText none whole frac)
      = some (F64.ofRatio negative
          (digitsValue whole * 10 ^ (frac.getD []).length + digitsValue (frac.getD []))
          (10 ^ (frac.getD []).length)) := by
  obtain ⟨hw, hf, hlen⟩ := h
  have hwp : ∀ ch ∈ whole, (fun c => c != '.') ch = true := fun ch hch =>
    digit_ne_point ch (hw ch hch)
  have hparts : (numeralText none whole frac).takeWhile (fun c => c != '.') = whole ∧
      ((numeralText none whole frac).dropWhile (fun c => c != '.')).drop 1 = frac.getD [] := by
    cases frac with
    | none =>
      have h := takeWhile_dropWhile_all (fun c => c != '.') whole hwp
      simp only [numeralText, signText, List.nil_append, List.append_nil]
      exact ⟨h.1, by rw [h.2]; rfl⟩
    | some f =>
      have h := takeWhile_dropWhile_stop (fun c => c != '.') whole '.' f hwp (by decide)
      simp only [numeralText, signText, List.nil_append]
      exact ⟨h.1, by rw [h.2]; rfl⟩
  unfold parseUnsignedDecimal
  simp only [hparts.1, hparts.2, readDigits_digits whole hw, readDigits_digits _ hf,
    Nat.zero_add]
  rw [if_neg (by omega)]
  rfl

theorem parseDecimal_no_sign (s : List Char) (hm : ∀ cs, s ≠ '-' :: cs)
    (hp : ∀ cs, s ≠ '+' :: cs) : parseDecimal s = parseUnsignedDecimal false s := by
  unfold parseDecimal
  split
  · exact absurd rfl (hm _)
  · exact absurd rfl (hp _)
  · rfl

theorem numeralText_no_sign (whole : List Char) (frac : Option (List Char))
    (h : IsNumeral whole frac) (x : Char) (hx : x.isDigit = false) (hpt : x ≠ '.') (cs : List Char) :
    numeralText none whole frac ≠ x :: cs := by
  obtain ⟨hw, -, hlen⟩ := h
  intro e
  cases whole with
  | nil =>
    cases frac with
    | none => simp at hlen
    | some f =>
      simp only [numeralText, signText, List.nil_append, List.cons.injEq] at e
      exact hpt e.1.symm
  | cons d w =>
    simp only [numeralText, signText, List.nil_append, List.cons_append, List.cons.injEq] at e
    have hd := hw d (List.mem_cons_self _ _)
    rw [e.1, hx] at hd
    cases hd

/-- A decimal numeral is read as the binary64 value nearest to the number it
denotes. -/
theorem parseDecimal_numeral (sign : Option Bool) (whole : List Char)
    (frac : Option (List Char)) (h : IsNumeral whole frac) :
    parseDecimal (numeralText sign whole frac)
      = some (F64.ofRatio (sign == some true)
          (digitsValue whole * 10 ^ (frac.getD []).length + digitsValue (frac.getD []))
          (10 ^ (frac.getD []).length)) := by
  cases sign with
  | none =>
    rw [parseDecimal_no_sign _
      (numeralText_no_sign whole frac h '-' (by decide) (by decide))
      (numeralText_no_sign whole frac h '+' (by decide) (by decide))]
    exact parseUnsignedDecimal_numeral false whole frac h
  | some negative =>
    cases negative with
    | true => exact parseUnsignedDecimal_numeral true whole frac h
    | false => exact parseUnsignedDecimal_numeral false whole frac h

theorem parseUnsignedDecimal_some (negative : Bool) (s : List Char) (v : F64)
    (h : parseUnsignedDecimal negative s = some v) :
    ∃ whole frac, IsNumeral whole frac ∧ s = numeralText none whole frac := by
  unfold parseUnsignedDecimal at h
  simp only [] at h
  cases hw : readDigits 0 0 (s.takeWhile (fun c => c != '.')) with
  | none => rw [hw] at h; cases h
  | some rw =>
    cases hf : readDigits 0 0 ((s.dropWhile (fun c => c != '.')).drop 1) with
    | none => rw [hw, hf] at h; cases h
    | some rf =>
      have hwd := readDigits_some _ 0 0 rw hw
      have hfd := readDigits_some _ 0 0 rf hf
      rw [readDigits_digits _ hwd, readDigits_digits _ hfd] at h
      simp only [Nat.zero_add] at h
      have hlen : 0 < (s.takeWhile (fun c => c != '.')).length
          + ((s.dropWhile (fun c => c != '.')).drop 1).length := by
        by_contra hz
        rw [if_pos (by omega)] at h
        cases h
      have hs : s = s.takeWhile (fun c => c != '.') ++ s.dropWhile (fun c => c != '.') :=
        (List.takeWhile_append_dropWhile _ s).symm
      cases hrest : s.dropWhile (fun c => c != '.') with
      | nil =>
        rw [hrest] at hlen hs
        refine ⟨s.takeWhile (fun c => c != '.'), none, ⟨hwd, ?_, ?_⟩, ?_⟩
        · intro ch hch; cases hch
        · simpa using hlen
        · simpa [numeralText, signText] using hs
      | cons x r =>
        have hx : x = '.' := by
          have hhead := List.head_dropWhile_not (fun c => c != '.') s
            (by rw [hrest]; exact List.cons_ne_nil _ _)
          simp only [hrest, List.head_cons] at hhead
          simpa using hhead
        subst hx
        rw [hrest] at hlen hs hfd
        refine ⟨s.takeWhile (fun c => c != '.'), some r, ⟨hwd, ?_, ?_⟩, ?_⟩
        · exact hfd
        · simpa using hlen
        · simpa [numeralText, signText] using hs

/-- A text that is read as a number is a decimal numeral. -/
theorem parseDecimal_some (s : List Char) (v : F64) (h : parseDecimal s = some v) :
    ∃ sign whole frac, IsNumeral whole frac ∧ s = numeralText sign whole frac := by
  unfold parseDecimal at h
  split at h
  · obtain ⟨whole, frac, hn, hs⟩ := parseUnsignedDecimal_some _ _ v h
    exact ⟨some true, whole, frac, hn, by rw [hs]; rfl⟩
  · obtain ⟨whole, frac, hn, hs⟩ := parseUnsignedDecimal_some _ _ v h
    exact ⟨some false, whole, frac, hn, by rw [hs]; rfl⟩
  · obtain ⟨whole, frac, hn, hs⟩ := parseUnsignedDecimal_some _ _ v h
    exact ⟨none, whole, frac, hn, hs⟩

theorem parseMetricValue_of_none (flag raw : String) (h : parseDecimal raw.data = none) :
    parseMetricValue flag raw
      = (F64.finite 0 0, some ("cannot parse " ++ flag ++ ": " ++ raw)) := by
  unfold parseMetricValue
  rw [h]

theorem parseMetricValue_of_some (flag raw : String) (v : F64)
    (h : parseDecimal raw.data = some v) : parseMetricValue flag raw = (v, none) := by
  unfold parseMetricValue
  rw [h]

/-- C23. The value coercer reads a decimal numeral (an optional sign, digits
with at most one point, at least one digit) as the binary64 value nearest to
the number it denotes and returns no error; it returns an error for every other
text, with the value `0.0`.  The value and whether there is an error do not
depend on the flag.  The raw values `50` and `2.34` give `50.0` and `2.34`, the
raw value `test` gives `0.0` and an error. -/
theorem parseMetricValue_contract (flag : String) :
    (∀ (sign : Option Bool) (whole : List Char) (frac : Option (List Char)),
      IsNumeral whole frac →
      parseMetricValue flag (String.mk (numeralText sign whole frac))
        = (F64.ofRatio (sign == some true)
            (digitsValue whole * 10 ^ (frac.getD []).length + digitsValue (frac.getD []))
            (10 ^ (frac.getD []).length), none)) ∧
    (∀ raw, (parseMetricValue flag raw).2 = none →
      ∃ sign whole frac, IsNumeral whole frac ∧ raw.data = numeralText sign whole frac) ∧
    (∀ raw, (parseMetricValue flag raw).2 ≠ none →
      (parseMetricValue flag raw).1 = F64.finite 0 0) ∧
    (∀ flag' raw, (parseMetricValue flag' raw).1 = (parseMetricValue flag raw).1 ∧
      ((parseMetricValue flag' raw).2 = none ↔ (parseMetricValue flag raw).2 = none)) ∧
    parseMetricValue flag "50" = (F64.finite 25 1, none) ∧
    parseMetricValue flag "2.34" = (F64.ofDecimal 234 2, none) ∧
    (parseMetricValue flag "test").1 = F64.finite 0 0 ∧
    (parseMetricValue flag "test").2 ≠ none := by
  refine ⟨fun sign whole frac h => ?_, fun raw h => ?_, fun raw h => ?_, fun flag' raw => ?_,
    ?_, ?_, ?_, ?_⟩
  · exact parseMetricValue_of_some flag _ _ (parseDecimal_numeral sign whole frac h)
  · cases hp : parseDecimal raw.data with
    | none => rw [parseMetricValue_of_none flag raw hp] at h; cases h
    | some v => exact parseDecimal_some raw.data v hp
  · cases hp : parseDecimal raw.data with
    | none => rw [parseMetricValue_of_none flag raw hp]
    | some v => rw [parseMetricValue_of_some flag raw v hp] at h; exact absurd rfl h
  · cases hp : parseDecimal raw.data with
    | none =>
      rw [parseMetricValue_of_none flag raw hp, parseMetricValue_of_none flag' raw hp]
      simp
    | some v =>
      rw [parseMetricValue_of_some flag raw v hp, parseMetricValue_of_some flag' raw v hp]
      simp
  · exact parseMetricValue_of_some flag "50" _ (by decide!)
  · exact parseMetricValue_of_some flag "2.34" _ (by decide!)
  · rw [parseMetricValue_of_none flag "test" (by decide)]
  · rw [parseMetricValue_of_none flag "test" (by decide)]
    exact fun h => Option.noConfusion h

/-- The cases of `TestParseMetricValueParsesValidMetricProperly`: the raw values
give the binary64 values of the Go literals `0.1`, `1.2`, `2.34`, `4.5`, `5.6`,
`50.0` and `123.0`. -/
theorem parseMetricValue_tests :
    parseMetricValue "REQ_RATE_REQ_PER_SEC" "0.1" = (F64.ofDecimal 1 1, none) ∧
    parseMetricValue "EXTAPP_REQ_PER_SEC" "1.2" = (F64.ofDecimal 12 1, none) ∧
    parseMetricValue "REQ_RATE_PUB_CACHE_HITS_PER_SEC" "2.34" = (F64.ofDecimal 234 2, none) ∧
    parseMetricValue "REQ_RATE_PRIVATE_CACHE_HITS_PER_SEC" "4.5" = (F64.ofDecimal 45 1, none) ∧
    parseMetricValue "REQ_RATE_STATIC_HITS_PER_SEC" "5.6" = (F64.ofDecimal 56 1, none) ∧
    parseMetricValue "BPS_IN" "50" = (F64.ofDecimal 50 0, none) ∧
    parseMetricValue "PLAINCONN" "123" = (F64.ofDecimal 123 0, none) ∧
    F64.ofDecimal 1 1 = F64.finite 3602879701896397 (-55) ∧
    F64.ofDecimal 45 1 = F64.finite 9 (-1) := by
  decide!

/-! ## The line parser `parseKeyValLineToMap` on a line of pairs -/

theorem isPrefixOf_two_cons (c₁ c₂ x y : Char) (rest : List Char) :
    [c₁, c₂].isPrefixOf (x :: y :: rest) = (c₁ == x && c₂ == y) := by
  simp [List.isPrefixOf]

theorem isPrefixOf_two_append (c₁ c₂ x d : Char) (a b : List Char) (hd : d ≠ c₂)
    (ha : [c₁, c₂].isPrefixOf (x :: a) = false) :
    [c₁, c₂].isPrefixOf (x :: (a ++ d :: b)) = false := by
  cases a with
  | nil =>
    rw [List.nil_append, isPrefixOf_two_cons]
    have : (c₂ == d) = false := by
      rw [beq_eq_false_iff_ne]
      exact fun e => hd e.symm
    rw [this, Bool.and_false]
  | cons y a =>
    rw [List.cons_append, isPrefixOf_two_cons]
    rw [isPrefixOf_two_cons] at ha
    exact ha

theorem splitOnce_none (sep s : List Char) (h : occurs sep s = false) :
    splitOnce sep s = none := by
  induction s with
  | nil => rfl
  | cons c cs ih =>
    rw [occurs, Bool.or_eq_false_iff] at h
    rw [splitOnce, if_neg (by rw [h.1]; exact Bool.false_ne_true), ih h.2]
    rfl

theorem splitOnce_at (c₁ c₂ : Char) (hne : c₁ ≠ c₂) (a b : List Char)
    (ha : occurs [c₁, c₂] a = false) :
    splitOnce [c₁, c₂] (a ++ c₁ :: c₂ :: b) = some (a, b) := by
  induction a with
  | nil =>
    rw [List.nil_append, splitOnce, if_pos (by rw [isPrefixOf_two_cons]; simp)]
    rfl
  | cons x a ih =>
    rw [occurs, Bool.or_eq_false_iff] at ha
    rw [List.cons_append, splitOnce,
      if_neg (by rw [isPrefixOf_two_append c₁ c₂ x c₁ a _ hne ha.1]; exact Bool.false_ne_true),
      ih ha.2]
    rfl

theorem occurs_segment (c₁ c₂ d₁ d₂ : Char) (h₁ : d₁ ≠ c₁) (h₂ : d₁ ≠ c₂) (h₃ : d₂ ≠ c₁)
    (a b : List Char) (ha : occurs [c₁, c₂] a = false) (hb : occurs [c₁, c₂] b = false) :
    occurs [c₁, c₂] (a ++ d₁ :: d₂ :: b) = false := by
  induction a with
  | nil =>
    have e1 : (c₁ == d₁) = false := by
      rw [beq_eq_false_iff_ne]; exact fun e => h₁ e.symm
    have e3 : (c₁ == d₂) = false := by
      rw [beq_eq_false_iff_ne]; exact fun e => h₃ e.symm
    rw [List.nil_append, occurs, occurs, isPrefixOf_two_cons, e1, Bool.false_and,
      Bool.false_or, Bool.or_eq_false_iff]
    refine ⟨?_, hb⟩
    cases b with
    | nil => simp [List.isPrefixOf]
    | cons y b => rw [isPrefixOf_two_cons, e3, Bool.false_and]
  | cons x a ih =>
    rw [occurs, Bool.or_eq_false_iff] at ha
    rw [List.cons_append, occurs, Bool.or_eq_false_iff]
    exact ⟨isPrefixOf_two_append c₁ c₂ x d₁ a _ h₂ ha.1, ih ha.2⟩

theorem splitAllAux_joinChars (c₁ c₂ : Char) (hne : c₁ ≠ c₂) (more : List (List Char)) :
    ∀ (seg : List Char) (fuel : Nat), more.length ≤ fuel →
      (∀ s ∈ seg :: more, occurs [c₁, c₂] s = false) →
      splitAllAux [c₁, c₂] fuel (joinChars [c₁, c₂] (seg :: more)) = seg :: more := by
  induction more with
  | nil =>
    intro seg fuel _ hall
    have hseg := hall seg (List.mem_cons_self _ _)
    cases fuel with
    | zero => rfl
    | succ f =>
      rw [joinChars, splitAllAux, splitOnce_none _ _ hseg]
  | cons s₂ more ih =>
    intro seg fuel hfuel hall
    have hseg := hall seg (List.mem_cons_self _ _)
    cases fuel with
    | zero => simp at hfuel
    | succ f =>
      have htext : joinChars [c₁, c₂] (seg :: s₂ :: more)
          = seg ++ c₁ :: c₂ :: joinChars [c₁, c₂] (s₂ :: more) := by
        rw [joinChars]
        simp
      rw [htext, splitAllAux, splitOnce_at c₁ c₂ hne seg _ hseg]
      simp only []
      rw [ih s₂ f (by simpa using hfuel) (fun s hs => hall s (List.mem_cons_of_mem _ hs))]

theorem length_joinChars (c₁ c₂ : Char) (more : List (List Char)) :
    ∀ seg : List Char, more.length ≤ (joinChars [c₁, c₂] (seg :: more)).length := by
  induction more with
  | nil => intro seg; exact Nat.zero_le _
  | cons s₂ more ih =>
    intro seg
    have h := ih s₂
    rw [joinChars]
    simp only [List.length_append, List.length_cons, List.length_nil]
    omega

/-- Splitting the joined text of segments that do not hold the separator gives
the segments back. -/
theorem splitAll_joinChars (c₁ c₂ : Char) (hne : c₁ ≠ c₂) (seg : List Char)
    (more : List (List Char)) (hall : ∀ s ∈ seg :: more, occurs [c₁, c₂] s = false) :
    splitAll [c₁, c₂] (joinChars [c₁, c₂] (seg :: more)) = seg :: more :=
  splitAllAux_joinChars c₁ c₂ hne more seg _ (length_joinChars c₁ c₂ more seg) hall

theorem data_joinStrings (sep : String) (l : List String) :
    (joinStrings sep l).data = joinChars sep.data (l.map String.data) := by
  induction l with
  | nil => rfl
  | cons a l ih =>
    cases l with
    | nil => rfl
    | cons b l =>
      rw [joinStrings, String.data_append, String.data_append, ih]
      rfl

theorem lookup_foldl_insert_of_not_mem {V : Type} (k : String) (l : List (String × V))
    (hk : k ∉ l.map Prod.fst) :
    ∀ m : KeyValues V, (l.foldl (fun m e => m.insert e.1 e.2) m).lookup k = m.lookup k := by
  induction l with
  | nil => intro m; rfl
  | cons e l ih =>
    intro m
    rw [List.map_cons, List.mem_cons, not_or] at hk
    rw [List.foldl_cons, ih hk.2, AList.lookup_insert_ne hk.1]

theorem lookup_foldl_insert_of_mem {V : Type} (l : List (String × V))
    (hnd : (l.map Prod.fst).Nodup) (p : String × V) (hp : p ∈ l) :
    ∀ m : KeyValues V, (l.foldl (fun m e => m.insert e.1 e.2) m).lookup p.1 = some p.2 := by
  induction l with
  | nil => cases hp
  | cons e l ih =>
    intro m
    rw [List.map_cons, List.nodup_cons] at hnd
    rw [List.foldl_cons]
    rcases List.mem_cons.mp hp with rfl | hmem
    · rw [lookup_foldl_insert_of_not_mem p.1 l hnd.1, AList.lookup_insert]
    · exact ih hnd.2 hmem _

theorem mem_foldl_insert {V : Type} (k : String) (l : List (String × V)) :
    ∀ m : KeyValues V,
      k ∈ l.foldl (fun m e => m.insert e.1 e.2) m ↔ k ∈ m ∨ k ∈ l.map Prod.fst := by
  induction l with
  | nil => intro m; simp
  | cons e l ih =>
    intro m
    rw [List.foldl_cons, ih, AList.mem_insert, List.map_cons, List.mem_cons]
    constructor
    · rintro ((h | h) | h)
      · exact Or.inr (Or.inl h)
      · exact Or.inl h
      · exact Or.inr (Or.inr h)
    · rintro (h | h | h)
      · exact Or.inl (Or.inr h)
      · exact Or.inl (Or.inl h)
      · exact Or.inr h

theorem isPlain_iff (s : String) :
    isPlain s = true ↔
      occurs [',', ' '] s.data = false ∧ occurs [':', ' '] s.data = false ∧
        trimSpace s.data = s.data := by
  unfold isPlain
  simp only [Bool.and_eq_true, Bool.not_eq_true', decide_eq_true_eq, and_assoc]

/-- The segment `K: V` of a plain key and a plain value holds no `, ` and
splits at its `: ` into the key and the value. -/
theorem segment_of_plain (k v : String) (hk : isPlain k = true) (hv : isPlain v = true) :
    occurs [',', ' '] (k ++ ": " ++ v).data = false ∧
    splitOnce [':', ' '] (k ++ ": " ++ v).data = some (k.data, v.data) := by
  obtain ⟨hk1, hk2, -⟩ := (isPlain_iff k).mp hk
  obtain ⟨hv1, -, -⟩ := (isPlain_iff v).mp hv
  have hd : (k ++ ": " ++ v).data = k.data ++ ':' :: ' ' :: v.data := by
    rw [String.data_append, String.data_append]
    simp
  rw [hd]
  exact ⟨occurs_segment ',' ' ' ':' ' ' (by decide) (by decide) (by decide) _ _ hk1 hv1,
    splitOnce_at ':' ' ' (by decide) _ _ hk2⟩

/-- C24. The line parser on the text `K1: V1, K2: V2, ..., Kn: Vn` of pairs
with distinct keys, whose keys and values hold neither `, ` nor `: ` and have
no white space at their ends, returns the mapping of the pairs: each key `Ki`
holds `Vi`, and no other key is in the mapping.  On the empty text it returns
the empty mapping. -/
theorem parseKeyValLineToMap_pairs (pairs : List (String × String))
    (hkeys : (pairs.map Prod.fst).Nodup)
    (hplain : ∀ p ∈ pairs, isPlain p.1 = true ∧ isPlain p.2 = true) :
    parseKeyValLineToMap (pairsText pairs) = kvOfList pairs ∧
    (∀ p ∈ pairs, (parseKeyValLineToMap (pairsText pairs)).lookup p.1 = some p.2) ∧
    (∀ k, k ∈ parseKeyValLineToMap (pairsText pairs) ↔ k ∈ pairs.map Prod.fst) ∧
    (parseKeyValLineToMap (pairsText pairs)).keys.length = pairs.length ∧
    parseKeyValLineToMap "" = ∅ := by
  have hmap : parseKeyValLineToMap (pairsText pairs) = kvOfList pairs := by
    cases hp : pairs with
    | nil => rfl
    | cons p ps =>
      rw [← hp]
      have hsegs : ∀ s ∈ (pairs.map (fun p => p.1 ++ ": " ++ p.2)).map String.data,
          occurs [',', ' '] s = false := by
        intro s hs
        simp only [List.mem_map] at hs
        obtain ⟨t, ⟨q, hq, rfl⟩, rfl⟩ := hs
        exact (segment_of_plain q.1 q.2 (hplain q hq).1 (hplain q hq).2).1
      have hsplit : splitAll ", ".data (pairsText pairs).data
          = (pairs.map (fun p => p.1 ++ ": " ++ p.2)).map String.data := by
        unfold pairsText
        rw [data_joinStrings]
        rw [hp] at hsegs ⊢
        exact splitAll_joinChars ',' ' ' (by decide) _ _ hsegs
      unfold parseKeyValLineToMap kvOfList
      rw [hsplit, List.foldl_map, List.foldl_map]
      apply List.foldl_ext
      intro m q hq
      have hs := (segment_of_plain q.1 q.2 (hplain q hq).1 (hplain q hq).2).2
      have hs' : splitOnce ": ".data (q.1 ++ ": " ++ q.2).data = some (q.1.data, q.2.data) := hs
      rw [hs']
      simp only []
      rw [((isPlain_iff q.1).mp (hplain q hq).1).2.2, ((isPlain_iff q.2).mp (hplain q hq).2).2.2]
  rw [hmap]
  refine ⟨rfl, fun p hp => ?_, fun k => ?_, ?_, rfl⟩
  · exact lookup_foldl_insert_of_mem pairs hkeys p hp ∅
  · unfold kvOfList
    rw [mem_foldl_insert]
    constructor
    · rintro (h | h)
      · exact absurd h (AList.not_mem_empty k)
      · exact h
    · exact Or.inr
  · have hperm : (kvOfList pairs).keys.Perm (pairs.map Prod.fst) := by
      apply (List.perm_ext_iff_of_nodup (kvOfList pairs).keys_nodup hkeys).mpr
      intro k
      rw [← AList.mem_keys]
      unfold kvOfList
      rw [mem_foldl_insert]
      constructor
      · rintro (h | h)
        · exact absurd h (AList.not_mem_empty k)
        · exact h
      · exact Or.inr
    rw [hperm.length_eq, List.length_map]

/-- Witness of C24: the three pairs of `TestParseKeyValLineReturnsExpected`. -/
theorem parseKeyValLineToMap_pairs_witness :
    pairsText [("TEST", "true"), ("NOT_TEST", "false"), ("RANDOM", "123.45")]
      = "TEST: true, NOT_TEST: false, RANDOM: 123.45" ∧
    parseKeyValLineToMap
        (pairsText [("TEST", "true"), ("NOT_TEST", "false"), ("RANDOM", "123.45")])
      = kvOfList [("TEST", "true"), ("NOT_TEST", "false"), ("RANDOM", "123.45")] :=
  ⟨by decide,
    (parseKeyValLineToMap_pairs [("TEST", "true"), ("NOT_TEST", "false"), ("RANDOM", "123.45")]
      (by decide) (by decide)).1⟩

/-- The cases of `TestParseKeyValLineReturnsExpected` and of
`TestParseKeyValPairReturnsExpected`, evaluated. -/
theorem parseKeyVal_tests :
    (parseKeyValLineToMap "").entries = [] ∧
    (parseKeyValLineToMap "TEST: true").entries = [⟨"TEST", "true"⟩] ∧
    (parseKeyValLineToMap "TEST: true, NOT_TEST: false, RANDOM: 123.45").lookup "TEST"
      = some "true" ∧
    (parseKeyValLineToMap "TEST: true, NOT_TEST: false, RANDOM: 123.45").lookup "NOT_TEST"
      = some "false" ∧
    (parseKeyValLineToMap "TEST: true, NOT_TEST: false, RANDOM: 123.45").lookup "RANDOM"
      = some "123.45" ∧
    (parseKeyValLineToMap "TEST: true, NOT_TEST: false, RANDOM: 123.45").keys.length = 3 ∧
    parseKeyValPair "TEST: true" ": " = ("TEST", "true") ∧
    parseKeyValPair "TEST 2: true too I guess" ": " = ("TEST 2", "true too I guess") ∧
    parseKeyValPair "REQ_PER_SEC: 123.45" ": " = ("REQ_PER_SEC", "123.45") := by
  decide

end Litespeed
